import Mathlib

/-!
# gh-aw safe outputs: permission authorization and update payload building

A shallow embedding of `token_permissions.cjs`, `update_payload_builder.cjs`,
`update_pull_request.cjs`, `sanitized_logging.cjs` and `create_footer.cjs` of
`actions/setup/js`, followed by theorems about the embedded functions.

JavaScript objects are association lists of own properties in insertion
order; a property read falls back to the members every plain object inherits
from `Object.prototype`.  A thrown exception is an `Except.error`.
-/

deriving instance DecidableEq for Except

namespace GhAw

/-! ## JavaScript values and plain objects -/

/-- JavaScript values as far as the embedded code inspects them.  Numbers are
integers (only zero versus non-zero matters to the code); `ref` is an object,
array or function known by its identity; `builtin` is the member of that name
inherited from `Object.prototype`. -/
inductive JSVal where
  | undefined
  | null
  | bool (b : Bool)
  | num (n : Int)
  | str (s : String)
  | ref (id : Nat)
  | builtin (name : String)
  deriving DecidableEq, Repr

/-- Truthiness of a value, as tested by `if`, `!`, `&&` and `||`. -/
def JSVal.truthy : JSVal → Bool
  | .undefined => false
  | .null => false
  | .bool b => b
  | .num n => n != 0
  | .str s => s != ""
  | .ref _ => true
  | .builtin _ => true

/-- The operator `a || b`: the left operand when truthy, else the right. -/
def JSVal.or (a b : JSVal) : JSVal := if a.truthy then a else b

/-- The operator `a === b` on the values modelled here. -/
def strictEq (a b : JSVal) : Bool := decide (a = b)

/-- A plain object: its own properties, in insertion order. -/
abbrev JSObj := List (String × JSVal)

/-- Property names every plain object inherits from `Object.prototype`. -/
def objectPrototypeKeys : List String :=
  ["constructor", "__proto__", "hasOwnProperty", "isPrototypeOf",
   "propertyIsEnumerable", "toLocaleString", "toString", "valueOf",
   "__defineGetter__", "__defineSetter__", "__lookupGetter__", "__lookupSetter__"]

/-- Own-property lookup. -/
def getOwn (o : JSObj) (key : String) : Option JSVal :=
  match o with
  | [] => none
  | (k, v) :: rest => if k = key then some v else getOwn rest key

/-- The read `o[key]`: an own property, else an inherited member, else
`undefined`. -/
def getProp (o : JSObj) (key : String) : JSVal :=
  match getOwn o key with
  | some v => v
  | none => if key ∈ objectPrototypeKeys then .builtin key else .undefined

/-- Overwrite the own property `key` in place, if the object has it. -/
def replaceOwn (o : JSObj) (key : String) (v : JSVal) : JSObj :=
  match o with
  | [] => []
  | (k, w) :: rest => if k = key then (k, v) :: rest else (k, w) :: replaceOwn rest key v

/-- The write `o[key] = v`.  An existing own property is overwritten in place;
a new one is appended, except that writing `__proto__` on an object without
such an own property goes to the inherited setter and creates no own key. -/
def setProp (o : JSObj) (key : String) (v : JSVal) : JSObj :=
  match getOwn o key with
  | some _ => replaceOwn o key v
  | none => if key = "__proto__" then o else o ++ [(key, v)]

/-- Own keys of an object, in order. -/
def keysOf (o : JSObj) : List String := o.map Prod.fst

/-! ## Strings -/

/-- Split a character list at every occurrence of `sep`. -/
def splitChars (sep : Char) : List Char → List (List Char)
  | [] => [[]]
  | c :: cs =>
    if c = sep then [] :: splitChars sep cs
    else
      match splitChars sep cs with
      | [] => [[c]]
      | p :: ps => (c :: p) :: ps

/-- The call `s.split(sep)` for a one-character separator. -/
def jsSplit (s : String) (sep : Char) : List String :=
  (splitChars sep s.toList).map String.mk

/-- White space and line terminators removed by `String.prototype.trim`. -/
def isJSWhitespace (c : Char) : Bool :=
  let n := c.toNat
  n = 0x9 || n = 0xA || n = 0xB || n = 0xC || n = 0xD || n = 0x20 || n = 0xA0 ||
  n = 0x1680 || (0x2000 ≤ n && n ≤ 0x200A) || n = 0x2028 || n = 0x2029 ||
  n = 0x202F || n = 0x205F || n = 0x3000 || n = 0xFEFF

/-- The call `s.trim()`. -/
def jsTrim (s : String) : String :=
  String.mk ((s.toList.dropWhile isJSWhitespace).reverse.dropWhile isJSWhitespace).reverse

/-! ## token_permissions.cjs -/

/-- A registry entry of `OPERATION_PERMISSIONS`.  An entry without
`requiresAny` has `requiresAny = false`; one without `optional` has
`optional = none`. -/
structure OperationReq where
  required : List String
  requiresAny : Bool := false
  optional : Option (List String) := none
  description : String
  deriving DecidableEq, Repr

/-- The registry `OPERATION_PERMISSIONS`, in declaration order. -/
def OPERATION_PERMISSIONS : List (String × OperationReq) :=
  [ ("create_issue",
      { required := ["issues:write"],
        description := "Create issues" }),
    ("update_issue",
      { required := ["issues:write"],
        description := "Update issues" }),
    ("close_issue",
      { required := ["issues:write"],
        description := "Close issues" }),
    ("add_comment",
      { required := ["issues:write", "pull_requests:write"],
        requiresAny := true,
        description := "Add comments to issues or pull requests" }),
    ("hide_comment",
      { required := ["issues:write", "pull_requests:write"],
        requiresAny := true,
        description := "Hide comments on issues or pull requests" }),
    ("add_labels",
      { required := ["issues:write"],
        description := "Add labels to issues or pull requests" }),
    ("remove_labels",
      { required := ["issues:write"],
        description := "Remove labels from issues or pull requests" }),
    ("assign_milestone",
      { required := ["issues:write"],
        description := "Assign milestones to issues" }),
    ("assign_to_user",
      { required := ["issues:write"],
        description := "Assign users to issues" }),
    ("assign_to_agent",
      { required := ["issues:write"],
        description := "Assign Copilot agents to issues" }),
    ("add_reviewer",
      { required := ["pull_requests:write"],
        description := "Request pull request reviews" }),
    ("link_sub_issue",
      { required := ["issues:write"],
        description := "Link sub-issues to parent issues" }),
    ("create_pull_request",
      { required := ["pull_requests:write", "contents:write"],
        description := "Create pull requests" }),
    ("update_pull_request",
      { required := ["pull_requests:write"],
        description := "Update pull requests" }),
    ("close_pull_request",
      { required := ["pull_requests:write"],
        description := "Close pull requests" }),
    ("mark_pull_request_as_ready_for_review",
      { required := ["pull_requests:write"],
        description := "Mark pull requests as ready for review" }),
    ("create_discussion",
      { required := ["discussions:write"],
        description := "Create discussions" }),
    ("update_discussion",
      { required := ["discussions:write"],
        description := "Update discussions" }),
    ("close_discussion",
      { required := ["discussions:write"],
        description := "Close discussions" }),
    ("create_project",
      { required := ["projects:write"],
        description := "Create GitHub Projects" }),
    ("update_project",
      { required := ["projects:write"],
        optional := some ["issues:write"],
        description := "Update GitHub Projects" }),
    ("copy_project",
      { required := ["projects:write"],
        description := "Copy GitHub Projects" }),
    ("create_project_status_update",
      { required := ["projects:write"],
        description := "Create project status updates" }),
    ("update_release",
      { required := ["contents:write"],
        description := "Update releases" }),
    ("upload_assets",
      { required := ["contents:write"],
        description := "Upload assets to orphaned branches" }) ]

/-- What the read `OPERATION_PERMISSIONS[operationType]` evaluates to. -/
inductive RegistryValue where
  | undefined
  | entry (req : OperationReq)
  | builtin (name : String)
  deriving DecidableEq, Repr

/-- Own entry of the registry under `key`, if any. -/
def registryOwn (table : List (String × OperationReq)) (key : String) : Option OperationReq :=
  match table with
  | [] => none
  | (k, r) :: rest => if k = key then some r else registryOwn rest key

/-- The read `OPERATION_PERMISSIONS[operationType]`: the registry is a plain
object literal, so a key it does not own resolves through `Object.prototype`. -/
def registryGet (operationType : String) : RegistryValue :=
  match registryOwn OPERATION_PERMISSIONS operationType with
  | some r => .entry r
  | none =>
    if operationType ∈ objectPrototypeKeys then .builtin operationType else .undefined

/-- The destructuring `const [category, level] = req.split(":")`. -/
def splitFact (req : String) : String × JSVal :=
  match jsSplit req ':' with
  | [] => ("undefined", .undefined)
  | [c] => (c, .undefined)
  | c :: l :: _ => (c, .str l)

/-- The callback of `required.some(...)` in the `requiresAny` branch. -/
def satisfiesAny (permissions : JSObj) (req : String) : Bool :=
  let category := (splitFact req).1
  let level := (splitFact req).2
  strictEq (getProp permissions category) level ||
    strictEq (getProp permissions category) (.str "write")

/-- The test guarding `missing.push(req)` and `optional.push(opt)`. -/
def isUnmet (permissions : JSObj) (req : String) : Bool :=
  let category := (splitFact req).1
  let level := (splitFact req).2
  let currentLevel := (getProp permissions category).or (.str "none")
  strictEq currentLevel (.str "none") ||
    (strictEq level (.str "write") && !strictEq currentLevel (.str "write"))

/-- A loop `for (const x of xs) if (isUnmet(x)) acc.push(x)`. -/
def pushUnmet (permissions : JSObj) (acc : List String) (xs : List String) : List String :=
  xs.foldl (fun a x => if isUnmet permissions x then a ++ [x] else a) acc

/-- The verdict returned by `validateOperationPermissions`. -/
structure Verdict where
  valid : Bool
  missing : List String
  optional : List String
  description : String
  deriving DecidableEq, Repr

/-- The function `validateOperationPermissions(permissions, operationType)`.
For an inherited member of the registry object the read of `.requiresAny`
gives `undefined`, the else branch runs and `for (... of operationReq.required)`
throws a `TypeError`. -/
def validateOperationPermissions (permissions : JSObj) (operationType : String) :
    Except String Verdict :=
  match registryGet operationType with
  | .undefined =>
    .ok { valid := true, missing := [], optional := [],
          description := "Unknown operation type: " ++ operationType }
  | .builtin _ => .error "TypeError: operationReq.required is not iterable"
  | .entry operationReq =>
    let missing : List String :=
      if operationReq.requiresAny then
        if operationReq.required.any (satisfiesAny permissions) then []
        else [] ++ operationReq.required
      else pushUnmet permissions [] operationReq.required
    let optional : List String :=
      match operationReq.optional with
      | some optionalPerms => pushUnmet permissions [] optionalPerms
      | none => []
    .ok { valid := missing.length == 0, missing := missing, optional := optional,
          description := operationReq.description }

/-- The call `s.startsWith(p)`. -/
def jsStartsWith (s p : String) : Bool := p.toList.isPrefixOf s.toList

/-- The object literal `permissions` that `mapScopesToPermissions` starts from. -/
def initialPermissions : JSObj :=
  [("contents", .str "none"), ("issues", .str "none"), ("pull_requests", .str "none"),
   ("discussions", .str "none"), ("projects", .str "none")]

/-- The body of the `switch (scope)` in `mapScopesToPermissions`.  The second
`case "public_repo"` of the source can never be reached (the first one has
already matched) and has the same body as the first. -/
def applyScope (permissions : JSObj) (scope : String) : JSObj :=
  match scope with
  | "repo" | "public_repo" =>
    setProp (setProp (setProp permissions "contents" (.str "write")) "issues" (.str "write"))
      "pull_requests" (.str "write")
  | "repo:status" => setProp permissions "contents" (.str "read")
  | "repo_deployment" => setProp permissions "contents" (.str "read")
  | "repo:invite" => permissions
  | "security_events" => permissions
  | "write:discussion" | "read:discussion" =>
    setProp permissions "discussions"
      (if jsStartsWith scope "write" then .str "write" else .str "read")
  | "project" => setProp permissions "projects" (.str "write")
  | "read:project" => setProp permissions "projects" (.str "read")
  | _ => permissions

/-- The function `mapScopesToPermissions(scopes)`. -/
def mapScopesToPermissions (scopes : List String) : JSObj :=
  scopes.foldl applyScope initialPermissions

/-- Outcome of one call of `github.rest.repos.get`: a response with its
headers, or a thrown error with the text `getErrorMessage` gives for it. -/
inductive ProbeOutcome where
  | response (headers : List (String × String))
  | failure (message : String)
  deriving DecidableEq, Repr

/-- The API client `github`: the outcome of the call of `repos.get` number
`n` (counted from 0) for the given owner and repository. -/
abbrev Github := Nat → String → String → ProbeOutcome

/-- The read `headers[name]` of a response header. -/
def headerGet (headers : List (String × String)) (name : String) : Option String :=
  match headers with
  | [] => none
  | (k, v) :: rest => if k = name then some v else headerGet rest name

/-- The value returned by `checkClassicTokenScopes`. -/
structure ScopeCheck where
  hasScopes : Bool
  scopes : List String
  error : Option String := none
  deriving DecidableEq, Repr

/-- The expression `scopesHeader.split(",").map(s => s.trim()).filter(s => s.length > 0)`. -/
def parseScopes (scopesHeader : String) : List String :=
  ((jsSplit scopesHeader ',').map jsTrim).filter (fun s => decide (s.length > 0))

/-- The function `checkClassicTokenScopes(token, owner, repo)`; `calls` is the
number of probe calls made before it, returned incremented. -/
def checkClassicTokenScopes (github : Github) (calls : Nat) (_token owner repo : String) :
    ScopeCheck × Nat :=
  match github calls owner repo with
  | .response headers =>
    let scopesHeader := (headerGet headers "x-oauth-scopes").getD ""
    let scopes := parseScopes scopesHeader
    ({ hasScopes := decide (scopes.length > 0), scopes := scopes }, calls + 1)
  | .failure message =>
    ({ hasScopes := false, scopes := [], error := some message }, calls + 1)

/-- The value returned by `checkFineGrainedTokenPermissions`. -/
structure PermissionCheck where
  permissions : JSObj
  error : Option String := none
  deriving DecidableEq, Repr

/-- The object literal built by `checkFineGrainedTokenPermissions` after a
successful probe. -/
def fineGrainedPermissions : JSObj :=
  [("metadata", .str "read"), ("contents", .str "unknown"), ("issues", .str "unknown"),
   ("pull_requests", .str "unknown"), ("discussions", .str "unknown"),
   ("projects", .str "unknown")]

/-- The function `checkFineGrainedTokenPermissions(token, owner, repo)`, which
makes a probe call of its own. -/
def checkFineGrainedTokenPermissions (github : Github) (calls : Nat)
    (_token owner repo : String) : PermissionCheck × Nat :=
  match github calls owner repo with
  | .response _ => ({ permissions := fineGrainedPermissions }, calls + 1)
  | .failure message => ({ permissions := [], error := some message }, calls + 1)

/-- An element of `results`: the object `{ operationType, ...validation }`. -/
structure OperationResult where
  operationType : String
  valid : Bool
  missing : List String
  optional : List String
  description : String
  deriving DecidableEq, Repr

/-- The value returned by `validateTokenPermissions`. -/
structure TokenValidation where
  valid : Bool
  results : List OperationResult
  permissions : JSObj
  tokenType : String
  deriving DecidableEq, Repr

/-- The loop `for (const operationType of operationTypes)` of
`validateTokenPermissions`, carrying `results` and `allValid`. -/
def validateLoop (permissions : JSObj) :
    List String → List OperationResult → Bool → Except String (List OperationResult × Bool)
  | [], results, allValid => .ok (results, allValid)
  | operationType :: rest, results, allValid =>
    match validateOperationPermissions permissions operationType with
    | .error e => .error e
    | .ok validation =>
      validateLoop permissions rest
        (results ++ [{ operationType := operationType, valid := validation.valid,
                       missing := validation.missing, optional := validation.optional,
                       description := validation.description }])
        (if !validation.valid then false else allValid)

/-- The first half of `validateTokenPermissions`: the token type, the
permission map and the number of probe calls made. -/
def resolvePermissions (github : Github) (token owner repo : String) : String × JSObj × Nat :=
  let scopeCheck := checkClassicTokenScopes github 0 token owner repo
  if scopeCheck.1.hasScopes && decide (scopeCheck.1.scopes.length > 0) then
    ("classic", mapScopesToPermissions scopeCheck.1.scopes, scopeCheck.2)
  else
    let permCheck := checkFineGrainedTokenPermissions github scopeCheck.2 token owner repo
    ("fine-grained", permCheck.1.permissions, permCheck.2)

/-- The function `validateTokenPermissions(token, owner, repo, operationTypes)`:
its result, or the exception it throws, and the number of probe calls made.
Log output through `core` is not modelled. -/
def validateTokenPermissions (github : Github) (token owner repo : String)
    (operationTypes : List String) : Except String TokenValidation × Nat :=
  let resolved := resolvePermissions github token owner repo
  let tokenType := resolved.1
  let permissions := resolved.2.1
  match validateLoop permissions operationTypes [] true with
  | .error e => (.error e, resolved.2.2)
  | .ok (results, allValid) =>
    (.ok { valid := allValid, results := results, permissions := permissions,
           tokenType := tokenType }, resolved.2.2)

/-! ## update_payload_builder.cjs -/

/-- The typedef `BuildPayloadConfig`; `none` is an unspecified property. -/
structure BuildPayloadConfig where
  defaultOperation : Option String := none
  allowTitle : Option Bool := none
  allowBody : Option Bool := none
  acceptStateAndStatus : Option Bool := none
  additionalFields : Option (List String) := none
  requireUpdates : Option Bool := none
  deriving DecidableEq, Repr

/-- The value returned by `buildUpdatePayloadData`: either
`{ success: true, data }` or `{ success: true, skipped: true, reason }`. -/
structure UpdateResult where
  success : Bool
  data : Option JSObj := none
  skipped : Option Bool := none
  reason : Option String := none
  deriving DecidableEq, Repr

/-- The loop over `additionalFields`, carrying `updateData` and `hasUpdates`. -/
def copyAdditionalFields (item : JSObj) (additionalFields : List String)
    (updateData : JSObj) (hasUpdates : Bool) : JSObj × Bool :=
  additionalFields.foldl
    (fun st fieldName =>
      if getProp item fieldName ≠ .undefined then
        (setProp st.1 fieldName (getProp item fieldName), true)
      else st)
    (updateData, hasUpdates)

/-- The state of `updateData` and `hasUpdates` after the title step. -/
def titleStep (item : JSObj) (canUpdateTitle : Bool) : JSObj × Bool :=
  if canUpdateTitle && decide (getProp item "title" ≠ .undefined) then
    (setProp [] "title" (getProp item "title"), true)
  else ([], false)

/-- The state after the body step. -/
def bodyStep (item config : JSObj) (defaultOperation : String) (canUpdateBody : Bool)
    (st : JSObj × Bool) : JSObj × Bool :=
  if canUpdateBody && decide (getProp item "body" ≠ .undefined) then
    let operation :=
      ((getProp item "operation").or (getProp config "default_operation")).or
        (.str defaultOperation)
    (setProp (setProp st.1 "_operation" operation) "_rawBody" (getProp item "body"), true)
  else st

/-- The state after the state/status step. -/
def stateStep (item : JSObj) (acceptStateAndStatus : Bool) (st : JSObj × Bool) : JSObj × Bool :=
  if getProp item "state" ≠ .undefined then
    (setProp st.1 "state" (getProp item "state"), true)
  else if acceptStateAndStatus && decide (getProp item "status" ≠ .undefined) then
    (setProp st.1 "state" (getProp item "status"), true)
  else st

/-- The function `buildUpdatePayloadData(item, config, payloadConfig)`. -/
def buildUpdatePayloadData (item config : JSObj) (payloadConfig : BuildPayloadConfig) :
    UpdateResult :=
  let defaultOperation := payloadConfig.defaultOperation.getD "append"
  let allowTitle := payloadConfig.allowTitle.getD true
  let allowBody := payloadConfig.allowBody.getD true
  let acceptStateAndStatus := payloadConfig.acceptStateAndStatus.getD false
  let additionalFields := payloadConfig.additionalFields.getD []
  let requireUpdates := payloadConfig.requireUpdates.getD false
  let canUpdateTitle := allowTitle && decide (getProp config "allow_title" ≠ .bool false)
  let canUpdateBody := allowBody && decide (getProp config "allow_body" ≠ .bool false)
  let st3 := stateStep item acceptStateAndStatus
    (bodyStep item config defaultOperation canUpdateBody (titleStep item canUpdateTitle))
  let st := copyAdditionalFields item additionalFields st3.1 st3.2
  if requireUpdates && !st.2 then
    { success := true, skipped := some true,
      reason := some "No update fields provided or all fields are disabled" }
  else { success := true, data := some st.1 }

/-! ## token_permissions.cjs: the message generators -/

/-- The call `xs.join(sep)`. -/
def jsJoin (sep : String) : List String → String
  | [] => ""
  | x :: rest => rest.foldl (fun acc y => acc ++ sep ++ y) x

/-- Whether `sub` occurs in a character list. -/
def includesChars (sub : List Char) : List Char → Bool
  | [] => sub.isPrefixOf []
  | c :: cs => sub.isPrefixOf (c :: cs) || includesChars sub cs

/-- The call `s.includes(sub)`. -/
def jsIncludes (s sub : String) : Bool := includesChars sub.toList s.toList

/-- The call `set.add(x)` on a `Set` of strings, kept as the list of its
members in insertion order. -/
def setAdd (set : List String) (x : String) : List String :=
  if x ∈ set then set else set ++ [x]

/-- The call `s.charAt(0)`. -/
def jsCharAt0 (s : String) : String := String.mk (s.toList.take 1)

/-- The call `s.slice(1)`. -/
def jsSlice1 (s : String) : String := String.mk (s.toList.drop 1)

/-- The lines pushed for one failed operation by the first loop of
`generatePermissionErrorMessage`. -/
def pushOperationLines (lines : List String) (op : OperationResult) : List String :=
  let lines1 := lines ++ ["‚Ä¢ " ++ op.description ++ " (" ++ op.operationType ++ ")"]
  let lines2 := lines1 ++ ["  Missing: " ++ jsJoin ", " op.missing]
  if op.optional.length > 0 then
    lines2 ++ ["  Optional (degraded functionality): " ++ jsJoin ", " op.optional]
  else lines2

/-- The body of the inner loop that fills `requiredScopes` for a classic
token. -/
def addRequiredScope (requiredScopes : List String) (perm : String) : List String :=
  if jsIncludes perm "issues" || jsIncludes perm "pull_requests" then
    setAdd requiredScopes "repo (full repository access)"
  else if jsIncludes perm "discussions" then setAdd requiredScopes "write:discussion"
  else if jsIncludes perm "projects" then setAdd requiredScopes "project"
  else if jsIncludes perm "contents" then setAdd requiredScopes "repo"
  else requiredScopes

/-- The set `requiredScopes` after the loops over the failed operations and
their missing permissions. -/
def collectRequiredScopes (failedOperations : List OperationResult) : List String :=
  failedOperations.foldl (fun set op => op.missing.foldl addRequiredScope set) []

/-- The set `requiredPerms` after the loops over the failed operations and
their missing permissions. -/
def collectRequiredPerms (failedOperations : List OperationResult) : List String :=
  failedOperations.foldl (fun set op => op.missing.foldl setAdd set) []

/-- The line pushed for one member of `requiredPerms`; `toUpperCase` is the
built-in `String.prototype.toUpperCase`. -/
def permissionLine (toUpperCase : String → String) (perm : String) : String :=
  let category := (splitFact perm).1
  "   - " ++ (toUpperCase (jsCharAt0 category) ++ jsSlice1 category) ++ ": Read and Write"

/-- The function `generatePermissionErrorMessage(validationResults, tokenType)`.
The built-in `String.prototype.toUpperCase` is a parameter; strings are
sequences of code points. -/
def generatePermissionErrorMessage (toUpperCase : String → String)
    (validationResults : List OperationResult) (tokenType : String) : String :=
  let failedOperations := validationResults.filter (fun r => !r.valid)
  if failedOperations.length == 0 then ""
  else
    let lines0 : List String :=
      ["‚ùå Token Missing Required Permissions", "",
       "The GitHub token lacks permissions required for the following operations:", ""]
    let lines1 := failedOperations.foldl pushOperationLines lines0
    let lines2 := lines1 ++ [""] ++ ["üìã Remediation Steps:"] ++ [""]
    let lines3 :=
      if tokenType = "classic" then
        (lines2 ++ ["For Classic Personal Access Tokens:"] ++ ["1. Go to https://github.com/settings/tokens"] ++
          ["2. Edit your token or create a new one"] ++ ["3. Enable the following scopes:"]) ++
          (collectRequiredScopes failedOperations).map (fun scope => "   - " ++ scope)
      else
        (lines2 ++ ["For Fine-Grained Personal Access Tokens:"] ++
          ["1. Go to https://github.com/settings/personal-access-tokens/new"] ++
          ["2. Select the target repository"] ++ ["3. Grant the following permissions:"]) ++
          (collectRequiredPerms failedOperations).map (permissionLine toUpperCase)
    let lines4 := lines3 ++ [""] ++ ["4. Update your workflow secret with the new token"] ++ [""] ++
      ["üìö Documentation:"] ++
      ["- Classic tokens: https://docs.github.com/en/authentication/keeping-your-account-and-data-secure/managing-your-personal-access-tokens"] ++
      ["- Fine-grained tokens: https://docs.github.com/en/authentication/keeping-your-account-and-data-secure/creating-a-personal-access-token"]
    jsJoin "\n" lines4

/-- The lines pushed for one operation by the loop of
`generatePermissionWarningMessage`. -/
def pushWarningLines (lines : List String) (op : OperationResult) : List String :=
  (lines ++ ["‚Ä¢ " ++ op.description ++ " (" ++ op.operationType ++ ")"]) ++
    ["  Optional: " ++ jsJoin ", " op.optional]

/-- The function `generatePermissionWarningMessage(validationResults)`. -/
def generatePermissionWarningMessage (validationResults : List OperationResult) : String :=
  let operationsWithOptional := validationResults.filter (fun r => decide (r.optional.length > 0))
  if operationsWithOptional.length == 0 then ""
  else
    let lines0 : List String :=
      ["‚ö†Ô∏è  Optional Permissions Missing (Degraded Functionality)", "",
       "The following operations may have reduced functionality:", ""]
    jsJoin "\n" (operationsWithOptional.foldl pushWarningLines lines0)

/-! ## sanitized_logging.cjs -/

/-- The characters after which the anchor of a multiline regular expression
matches: line feed, carriage return, U+2028 and U+2029. -/
def isLineTerminator (c : Char) : Bool :=
  c.toNat = 0xA || c.toNat = 0xD || c.toNat = 0x2028 || c.toNat = 0x2029

/-- The zero-width space U+200B. -/
def zeroWidthSpace : Char := Char.ofNat 0x200B

/-- The call `text.replace(/^::/gm, ":\u200B:")`, scanning from left to right;
`atLineStart` says whether the anchor matches at the current position. -/
def replaceLineStartColons (atLineStart : Bool) : List Char → List Char
  | [] => []
  | [c] => [c]
  | c :: d :: rest =>
    if atLineStart ∧ c = ':' ∧ d = ':' then
      ':' :: zeroWidthSpace :: ':' :: replaceLineStartColons false rest
    else c :: replaceLineStartColons (isLineTerminator c) (d :: rest)

/-- The call `text.replace(/\n::/g, "\n:\u200B:")`, scanning from left to
right. -/
def replaceNewlineColons : List Char → List Char
  | [] => []
  | [c] => [c]
  | [c, d] => [c, d]
  | c :: d :: e :: rest =>
    if c = '\n' ∧ d = ':' ∧ e = ':' then
      '\n' :: ':' :: zeroWidthSpace :: ':' :: replaceNewlineColons rest
    else c :: replaceNewlineColons (d :: e :: rest)

/-- The function `neutralizeWorkflowCommands(text)` on a string argument (for
any other argument the source returns `String(text)`). -/
def neutralizeWorkflowCommands (text : String) : String :=
  String.mk (replaceNewlineColons (replaceLineStartColons true text.toList))

/-! ## update_pull_request.cjs -/

/-- The part of `context` that `executePRUpdate` reads. -/
structure ActionsContext where
  owner : String
  repo : String
  serverUrl : String
  runId : Nat
  deriving DecidableEq, Repr

/-- The argument object of the helper `updateBody`. -/
structure UpdateBodyArgs where
  currentBody : JSVal
  newContent : JSVal
  operation : JSVal
  workflowName : String
  runUrl : String
  runId : Nat
  deriving DecidableEq, Repr

/-- Definition of the own property `key`, as done by object spread and by rest
destructuring: an existing own property is overwritten in place, a new one is
appended, whatever the key. -/
def defineProp (o : JSObj) (key : String) (v : JSVal) : JSObj :=
  match getOwn o key with
  | some _ => replaceOwn o key v
  | none => o ++ [(key, v)]

/-- The object literal spread: the own properties of `source` are defined on
`target` in order. -/
def spreadInto (target source : JSObj) : JSObj :=
  source.foldl (fun o kv => defineProp o kv.1 kv.2) target

/-- The rest object of a destructuring that names the keys `excluded`. -/
def restWithout (excluded : List String) (o : JSObj) : JSObj :=
  o.filter (fun kv => decide (kv.1 ∉ excluded))

/-- The argument object `executePRUpdate` passes to `github.rest.pulls.update`,
or the error thrown before that call.  `updateBody` is the helper of
`update_pr_description_helpers.cjs`; `pullsGet` is the outcome of
`github.rest.pulls.get`, the `body` of the fetched pull request or a thrown
error; `workflowNameEnv` is `process.env.GH_AW_WORKFLOW_NAME`. -/
def prUpdateArguments (updateBody : UpdateBodyArgs → String) (pullsGet : Except String JSVal)
    (workflowNameEnv : Option String) (context : ActionsContext) (prNumber : Int)
    (updateData : JSObj) : Except String JSObj :=
  let operation := (getProp updateData "_operation").or (.str "replace")
  let rawBody := getProp updateData "_rawBody"
  let apiData := restWithout ["_operation", "_rawBody"] updateData
  let callArguments (apiData : JSObj) : JSObj :=
    spreadInto [("owner", .str context.owner), ("repo", .str context.repo),
      ("pull_number", .num prNumber)] apiData
  if rawBody ≠ .undefined then
    match pullsGet with
    | .error e => .error e
    | .ok currentPRBody =>
      let currentBody := currentPRBody.or (.str "")
      let workflowName :=
        match workflowNameEnv with
        | some name => if name ≠ "" then name else "GitHub Agentic Workflow"
        | none => "GitHub Agentic Workflow"
      let runUrl := context.serverUrl ++ "/" ++ context.owner ++ "/" ++ context.repo ++
        "/actions/runs/" ++ toString context.runId
      .ok (callArguments (setProp apiData "body"
        (.str (updateBody { currentBody := currentBody, newContent := rawBody,
                            operation := operation, workflowName := workflowName,
                            runUrl := runUrl, runId := context.runId }))))
  else .ok (callArguments apiData)

/-- The function `executePRUpdate(github, context, prNumber, updateData)`;
`pullsUpdate` is the call `github.rest.pulls.update`, giving the updated pull
request or a thrown error.  Log output is not modelled. -/
def executePRUpdate (updateBody : UpdateBodyArgs → String) (pullsGet : Except String JSVal)
    (pullsUpdate : JSObj → Except String JSVal) (workflowNameEnv : Option String)
    (context : ActionsContext) (prNumber : Int) (updateData : JSObj) : Except String JSVal :=
  match prUpdateArguments updateBody pullsGet workflowNameEnv context prNumber updateData with
  | .error e => .error e
  | .ok callArguments => pullsUpdate callArguments

/-! ## Levels as the specification orders them -/

/-- Rank of a level name under `none < read < write`. -/
def rankOfLevel (level : String) : Nat :=
  if level = "write" then 2 else if level = "read" then 1 else 0

/-- Rank of the level a permission map grants to a category; an absent
category counts as `none`. -/
def levelIn (P : JSObj) (category : String) : Nat :=
  match getOwn P category with
  | some (.str l) => rankOfLevel l
  | _ => 0

/-- A fact `category:level` is met by `P` when the level `P` grants to the
category is at least `level`. -/
def factMet (P : JSObj) (fact : String) : Bool :=
  match splitFact fact with
  | (category, .str level) => decide (rankOfLevel level ≤ levelIn P category)
  | _ => false

/-- Every level of the map is one of `none`, `read`, `write`. -/
def WellLeveled (P : JSObj) : Prop :=
  ∀ kv ∈ P, kv.2 = JSVal.str "none" ∨ kv.2 = JSVal.str "read" ∨ kv.2 = JSVal.str "write"

instance (P : JSObj) : Decidable (WellLeveled P) := by
  unfold WellLeveled; infer_instance

/-! ## Notions used to state the properties -/

/-- The facts that occur in the registry. -/
def registryFacts : List String :=
  ["issues:write", "pull_requests:write", "contents:write", "discussions:write",
   "projects:write"]

/-- The level a single scope assigns to a category, if it assigns one. -/
def scopeAssigns (scope category : String) : Option String :=
  if category = "contents" then
    if scope = "repo" ∨ scope = "public_repo" then some "write"
    else if scope = "repo:status" ∨ scope = "repo_deployment" then some "read"
    else none
  else if category = "issues" ∨ category = "pull_requests" then
    if scope = "repo" ∨ scope = "public_repo" then some "write" else none
  else if category = "discussions" then
    if scope = "write:discussion" then some "write"
    else if scope = "read:discussion" then some "read"
    else none
  else if category = "projects" then
    if scope = "project" then some "write"
    else if scope = "read:project" then some "read"
    else none
  else none

/-- The value of a category after a scope has been processed. -/
def levelAfter (scope category : String) (old : JSVal) : JSVal :=
  match scopeAssigns scope category with
  | some l => .str l
  | none => old

/-- A permission map with exactly the five categories, in declaration order. -/
def permsOf (a b c d e : JSVal) : JSObj :=
  [("contents", a), ("issues", b), ("pull_requests", c), ("discussions", d), ("projects", e)]

/-- The value of a category after a list of scopes has been processed in
order, starting from `old`. -/
def levelAfterAll (scopes : List String) (category : String) (old : JSVal) : JSVal :=
  scopes.foldl (fun v s => levelAfter s category v) old

/-- The five permission categories. -/
def categories : List String :=
  ["contents", "issues", "pull_requests", "discussions", "projects"]

/-- Rank of a stored level value. -/
def rankOf (v : JSVal) : Nat :=
  match v with
  | .str l => rankOfLevel l
  | _ => 0

/-- A stored value is one of the three level names. -/
def IsLevel (v : JSVal) : Prop :=
  v = JSVal.str "none" ∨ v = JSVal.str "read" ∨ v = JSVal.str "write"

/-- The scopes that assign `read`: `repo:status` and `repo_deployment` to
contents, `read:discussion` to discussions, `read:project` to projects. -/
def grantsRead (scope category : String) : Bool :=
  (decide (category = "contents") &&
      (decide (scope = "repo:status") || decide (scope = "repo_deployment"))) ||
    (decide (category = "discussions") && decide (scope = "read:discussion")) ||
    (decide (category = "projects") && decide (scope = "read:project"))

/-- No category is assigned both `write` and `read` by scopes of the list. -/
def ConflictFree (S : List String) : Prop :=
  ¬ (("repo" ∈ S ∨ "public_repo" ∈ S) ∧ ("repo:status" ∈ S ∨ "repo_deployment" ∈ S)) ∧
  ¬ ("write:discussion" ∈ S ∧ "read:discussion" ∈ S) ∧
  ¬ ("project" ∈ S ∧ "read:project" ∈ S)

instance (S : List String) : Decidable (ConflictFree S) := by
  unfold ConflictFree; infer_instance

/-- The element `{ operationType, ...validation }` pushed for a verdict. -/
def tagged (operationType : String) (validation : Verdict) : OperationResult :=
  { operationType := operationType, valid := validation.valid, missing := validation.missing,
    optional := validation.optional, description := validation.description }

/-! ## Notions used to state the payload properties -/

/-- Title is allowed: `allowTitle` is true or unspecified in the payload
configuration and `allow_title` is not `false` in the toggle map. -/
def titleAllowed (config : JSObj) (pc : BuildPayloadConfig) : Bool :=
  pc.allowTitle.getD true && decide (getProp config "allow_title" ≠ .bool false)

/-- Body is allowed: `allowBody` is true or unspecified and `allow_body` is
not `false`. -/
def bodyAllowed (config : JSObj) (pc : BuildPayloadConfig) : Bool :=
  pc.allowBody.getD true && decide (getProp config "allow_body" ≠ .bool false)

/-- The title step copies: title is allowed and the instruction carries one. -/
def titleCopied (item config : JSObj) (pc : BuildPayloadConfig) : Bool :=
  titleAllowed config pc && decide (getProp item "title" ≠ .undefined)

/-- The body step copies: body is allowed and the instruction carries one. -/
def bodyCopied (item config : JSObj) (pc : BuildPayloadConfig) : Bool :=
  bodyAllowed config pc && decide (getProp item "body" ≠ .undefined)

/-- The state step copies: the instruction carries `state`, or it carries
`status` and `acceptStateAndStatus` is true. -/
def stateCopied (item : JSObj) (pc : BuildPayloadConfig) : Bool :=
  decide (getProp item "state" ≠ .undefined) ||
    (pc.acceptStateAndStatus.getD false && decide (getProp item "status" ≠ .undefined))

/-- The additional-fields step copies: some listed field reads as a value
other than `undefined` on the instruction. -/
def additionalCopied (item : JSObj) (pc : BuildPayloadConfig) : Bool :=
  (pc.additionalFields.getD []).any (fun f => decide (getProp item f ≠ .undefined))

/-- Some step copies a field. -/
def anyCopied (item config : JSObj) (pc : BuildPayloadConfig) : Bool :=
  titleCopied item config pc || bodyCopied item config pc || stateCopied item pc ||
    additionalCopied item pc

/-- The skip result `{ success: true, skipped: true, reason }`, without data. -/
def skipResult : UpdateResult :=
  { success := true, skipped := some true,
    reason := some "No update fields provided or all fields are disabled" }

/-- The first non-empty (truthy) value of a preference list, if there is one. -/
def firstNonEmpty (vs : List JSVal) : Option JSVal := vs.find? JSVal.truthy

/-- The values of `updateData` and `hasUpdates` when the final test of
`requireUpdates` is reached. -/
def payloadState (item config : JSObj) (pc : BuildPayloadConfig) : JSObj × Bool :=
  copyAdditionalFields item (pc.additionalFields.getD [])
    (stateStep item (pc.acceptStateAndStatus.getD false)
      (bodyStep item config (pc.defaultOperation.getD "append") (bodyAllowed config pc)
        (titleStep item (titleAllowed config pc)))).1
    (stateStep item (pc.acceptStateAndStatus.getD false)
      (bodyStep item config (pc.defaultOperation.getD "append") (bodyAllowed config pc)
        (titleStep item (titleAllowed config pc)))).2

/-- The labels of the `case` clauses of the `switch` in
`mapScopesToPermissions`. -/
def switchCases : List String :=
  ["repo", "public_repo", "repo:status", "repo_deployment", "repo:invite", "security_events",
   "write:discussion", "read:discussion", "project", "read:project"]

/-- A scope string without effect on any category: an unrecognised string,
`repo:invite` or `security_events`. -/
def inertScope (s : String) : Bool :=
  decide (s ∉ switchCases) || decide (s = "repo:invite") || decide (s = "security_events")

/-- The requirement part of the registry entry of a kind: required facts,
`requiresAny`, optional facts. -/
def requirementOf (kind : String) : Option (List String × Bool × Option (List String)) :=
  (registryOwn OPERATION_PERMISSIONS kind).map
    (fun r => (r.required, r.requiresAny, r.optional))

/-! ## Notions used to state the message and logging properties -/

/-- The mark that starts the line of an operation in both messages. -/
def bulletMark : String := "‚Ä¢ "

/-- The lines the error message shows for one invalid verdict: its description
and kind, its missing facts, and its optional facts when there are any. -/
def operationLines (op : OperationResult) : List String :=
  [bulletMark ++ op.description ++ " (" ++ op.operationType ++ ")",
   "  Missing: " ++ jsJoin ", " op.missing] ++
    (if op.optional ≠ [] then
      ["  Optional (degraded functionality): " ++ jsJoin ", " op.optional]
     else [])

/-- The lines the warning message shows for one verdict. -/
def warningLines (op : OperationResult) : List String :=
  [bulletMark ++ op.description ++ " (" ++ op.operationType ++ ")",
   "  Optional: " ++ jsJoin ", " op.optional]

/-- The missing facts of the invalid verdicts, in input order. -/
def missingFacts (results : List OperationResult) : List String :=
  ((results.filter (fun r => !r.valid)).map (fun r => r.missing)).flatten

/-- The permission facts `category:level` of the data model. -/
def permissionFacts : List String :=
  ["contents:none", "contents:read", "contents:write", "issues:none", "issues:read",
   "issues:write", "pull_requests:none", "pull_requests:read", "pull_requests:write",
   "discussions:none", "discussions:read", "discussions:write", "projects:none",
   "projects:read", "projects:write"]

/-- The scope named for a category in the remediation text for classic
tokens. -/
def scopeNameFor (category : String) : String :=
  if category = "issues" ∨ category = "pull_requests" then "repo (full repository access)"
  else if category = "discussions" then "write:discussion"
  else if category = "projects" then "project"
  else "repo"

/-- The distinct members of a list, each once, in order of first occurrence. -/
def firstOccurrences : List String → List String
  | [] => []
  | x :: xs => x :: (firstOccurrences xs).filter (fun y => decide (y ≠ x))

/-- The branch of `addRequiredScope` taken for a permission string: the scope
name it adds, if any. -/
def scopeChoice (perm : String) : Option String :=
  if jsIncludes perm "issues" || jsIncludes perm "pull_requests" then
    some "repo (full repository access)"
  else if jsIncludes perm "discussions" then some "write:discussion"
  else if jsIncludes perm "projects" then some "project"
  else if jsIncludes perm "contents" then some "repo"
  else none

/-- No line starts with two colons: the text does not start with `::`, and
`::` does not follow a line terminator. -/
def NoLineStartsWithColons (l : List Char) : Prop :=
  ¬ [':', ':'] <+: l ∧ ∀ t, isLineTerminator t = true → ¬ [t, ':', ':'] <:+: l

/-- Whether `::` stands at a line start of the text; `atLineStart` says
whether the text itself begins at a line start. -/
def hasLineStartColons (atLineStart : Bool) : List Char → Bool
  | [] => false
  | [_] => false
  | c :: d :: rest =>
    (atLineStart && decide (c = ':') && decide (d = ':')) ||
      hasLineStartColons (isLineTerminator c) (d :: rest)

/-- The number of line starts of the text at which `::` stands. -/
def countLineStartColons (atLineStart : Bool) : List Char → Nat
  | [] => 0
  | [_] => 0
  | c :: d :: rest =>
    (if atLineStart ∧ c = ':' ∧ d = ':' then 1 else 0) +
      countLineStartColons (isLineTerminator c) (d :: rest)

/-- The text with one U+200B put after the first colon of each `::` that
stands at a line start, read character by character as the specification
words it; `atLineStart` says whether the text itself begins at a line
start. -/
def insertZeroWidthSpaces (atLineStart : Bool) : List Char → List Char
  | [] => []
  | c :: rest =>
    if atLineStart ∧ c = ':' ∧ rest.head? = some ':' then
      c :: zeroWidthSpace :: insertZeroWidthSpaces (isLineTerminator c) rest
    else c :: insertZeroWidthSpaces (isLineTerminator c) rest

/-- The first line of the error message. -/
def errorHeader : String := "‚ùå Token Missing Required Permissions"

/-- The third line of the error message. -/
def errorIntro : String :=
  "The GitHub token lacks permissions required for the following operations:"

/-- The first line of the warning message. -/
def warningHeader : String := "‚ö†Ô∏è  Optional Permissions Missing (Degraded Functionality)"

/-- The third line of the warning message. -/
def warningIntro : String := "The following operations may have reduced functionality:"

/-- The lines of the error message up to the remediation steps: the header
lines, the lines of the invalid verdicts and the remediation heading. -/
def errorPrelude (results : List OperationResult) : List String :=
  [errorHeader, "", errorIntro, ""] ++
    ((results.filter (fun r => !r.valid)).map operationLines).flatten ++
    ["", "üìã Remediation Steps:", ""]

/-- The first three remediation lines for a classic token. -/
def classicSteps : List String :=
  ["For Classic Personal Access Tokens:", "1. Go to https://github.com/settings/tokens",
   "2. Edit your token or create a new one"]

/-- The first three remediation lines for a fine-grained token. -/
def fineGrainedSteps : List String :=
  ["For Fine-Grained Personal Access Tokens:",
   "1. Go to https://github.com/settings/personal-access-tokens/new",
   "2. Select the target repository"]

/-- The lines that close the error message. -/
def remediationFooter : List String :=
  ["", "4. Update your workflow secret with the new token", "",
   "üìö Documentation:",
   "- Classic tokens: https://docs.github.com/en/authentication/keeping-your-account-and-data-secure/managing-your-personal-access-tokens",
   "- Fine-grained tokens: https://docs.github.com/en/authentication/keeping-your-account-and-data-secure/creating-a-personal-access-token"]

/-! ## Notions used to state the last-writer and monotonicity properties -/

/-- The scopes that affect a category, as the specification lists them. -/
def affectingScopes (category : String) : List String :=
  if category = "contents" then ["repo", "public_repo", "repo:status", "repo_deployment"]
  else if category = "issues" ∨ category = "pull_requests" then ["repo", "public_repo"]
  else if category = "discussions" then ["write:discussion", "read:discussion"]
  else if category = "projects" then ["project", "read:project"]
  else []

/-- The last scope of the list that affects the category, if any. -/
def lastAffecting (scopes : List String) (category : String) : Option String :=
  scopes.reverse.find? (fun s => decide (s ∈ affectingScopes category))

/-! ## update_pull_request.cjs: the payload of a pull-request update -/

/-- The payload configuration `buildPRUpdateData` passes to the shared
builder. -/
def prPayloadConfig : BuildPayloadConfig :=
  { defaultOperation := some "replace", additionalFields := some ["base"],
    requireUpdates := some true }

/-- The function `buildPRUpdateData(item, config)`.  The test
`"skipped" in result` asks whether the result has the key `skipped`; reading
`result.data._rawBody` on a result without `data` would throw. -/
def buildPRUpdateData (item config : JSObj) : Except String UpdateResult :=
  let result := buildUpdatePayloadData item config prPayloadConfig
  if result.success && !result.skipped.isSome then
    match result.data with
    | none => .error "TypeError: Cannot read properties of undefined (reading '_rawBody')"
    | some data =>
      if getProp data "_rawBody" ≠ .undefined then
        .ok { result with data := some (setProp data "body" (getProp item "body")) }
      else .ok result
  else .ok result

/-! ## create_footer.cjs -/

/-- The value of the numeric literal `0.01`: the double nearest to 1/100. -/
def costThreshold : ℚ := 5764607523034235 / 2 ^ 59

/-- The digit string `toFixed` builds from the integer `n` for a non-zero
number of fraction digits: the decimal digits of `n`, padded on the left with
zeros to `fractionDigits + 1` characters, with a point before the last
`fractionDigits` characters. -/
def fixedDigits (n fractionDigits : Nat) : List Char :=
  let m := if n = 0 then ['0'] else Nat.toDigits 10 n
  let m := if m.length ≤ fractionDigits then
    List.replicate (fractionDigits + 1 - m.length) '0' ++ m else m
  let k := m.length
  m.take (k - fractionDigits) ++ '.' :: m.drop (k - fractionDigits)

/-- The built-in `Number.prototype.toFixed(fractionDigits)` as ECMA-262 defines
it, on a finite number `x` given by its exact value and for
`fractionDigits ≤ 100`.  `numberToString` is the built-in conversion of a
number to a string, which `toFixed` uses for a magnitude of 10^21 or more. -/
def toFixed (numberToString : ℚ → String) (x : ℚ) (fractionDigits : Nat) : String :=
  let s := if x < 0 then "-" else ""
  let x := if x < 0 then -x else x
  if (10 : ℚ) ^ 21 ≤ x then s ++ numberToString x
  else
    let n := (⌊x * 10 ^ fractionDigits + 1 / 2⌋).toNat
    if fractionDigits ≠ 0 then s ++ String.mk (fixedDigits n fractionDigits)
    else s ++ String.mk (if n = 0 then ['0'] else Nat.toDigits 10 n)

/-- The function `formatCost(cost)` on a finite number, given by its exact
value; the value NaN and the infinities are not modelled. -/
def formatCost (numberToString : ℚ → String) (cost : ℚ) : String :=
  if cost < costThreshold then "$" ++ toFixed numberToString cost 4
  else "$" ++ toFixed numberToString cost 2

/-! ## Notions used to state the cost property -/

/-- The number a string of decimal digits denotes. -/
def digitsValue (l : List Char) : Nat := l.foldl (fun acc c => 10 * acc + (c.toNat - 48)) 0

/-! ## Lemmas on objects and on the registry -/

theorem getOwn_mem {o : JSObj} {key : String} {v : JSVal} (h : getOwn o key = some v) :
    (key, v) ∈ o := by
  induction o with
  | nil => simp [getOwn] at h
  | cons kv rest ih =>
    obtain ⟨k, w⟩ := kv
    unfold getOwn at h
    split at h
    · next hk => cases h; subst hk; exact List.mem_cons_self _ _
    · exact List.mem_cons_of_mem _ (ih h)

theorem registryOwn_mem {t : List (String × OperationReq)} {key : String} {r : OperationReq}
    (h : registryOwn t key = some r) : (key, r) ∈ t := by
  induction t with
  | nil => simp [registryOwn] at h
  | cons kv rest ih =>
    obtain ⟨k, w⟩ := kv
    unfold registryOwn at h
    split at h
    · next hk => cases h; subst hk; exact List.mem_cons_self _ _
    · exact List.mem_cons_of_mem _ (ih h)

theorem pushUnmet_eq (P : JSObj) (acc xs : List String) :
    pushUnmet P acc xs = acc ++ xs.filter (isUnmet P) := by
  unfold pushUnmet
  induction xs generalizing acc with
  | nil => simp
  | cons x rest ih =>
    simp only [List.foldl_cons, List.filter_cons]
    rw [ih]
    by_cases hx : isUnmet P x = true <;> simp [hx]

theorem registry_required_facts :
    ∀ e ∈ OPERATION_PERMISSIONS, ∀ f ∈ e.2.required, f ∈ registryFacts := by decide

theorem registry_optional_facts :
    ∀ e ∈ OPERATION_PERMISSIONS, ∀ f ∈ e.2.optional.getD [], f ∈ registryFacts := by decide

theorem registryFacts_split :
    ∀ f ∈ registryFacts, ∃ c ∈ ["issues", "pull_requests", "contents", "discussions", "projects"],
      splitFact f = (c, JSVal.str "write") := by decide

theorem registry_any_required :
    ∀ e ∈ OPERATION_PERMISSIONS, e.2.requiresAny = true →
      e.2.required = ["issues:write", "pull_requests:write"] := by decide

/-- For a fact at level `read` or `write` on a category that is no inherited
member name, the code's test for an unmet fact is the negation of `factMet`. -/
theorem isUnmet_eq_not_factMet {P : JSObj} (hP : WellLeveled P) {f c l : String}
    (hf : splitFact f = (c, JSVal.str l)) (hl : l = "read" ∨ l = "write")
    (hc : c ∉ objectPrototypeKeys) : isUnmet P f = !factMet P f := by
  unfold isUnmet factMet levelIn getProp
  simp only [hf]
  cases hown : getOwn P c with
  | none =>
    rcases hl with rfl | rfl <;> simp [hc, JSVal.or, JSVal.truthy, strictEq, rankOfLevel]
  | some v =>
    have hv := hP _ (getOwn_mem hown)
    simp only at hv
    rcases hv with rfl | rfl | rfl <;> rcases hl with rfl | rfl <;>
      simp [JSVal.or, JSVal.truthy, strictEq, rankOfLevel]

/-- For a fact at level `write`, the `requiresAny` test is `factMet`. -/
theorem satisfiesAny_eq_factMet {P : JSObj} (hP : WellLeveled P) {f c : String}
    (hf : splitFact f = (c, JSVal.str "write"))
    (hc : c ∉ objectPrototypeKeys) : satisfiesAny P f = factMet P f := by
  unfold satisfiesAny factMet levelIn getProp
  simp only [hf]
  cases hown : getOwn P c with
  | none => simp [hc, strictEq, rankOfLevel]
  | some v =>
    have hv := hP _ (getOwn_mem hown)
    simp only at hv
    rcases hv with rfl | rfl | rfl <;> simp [strictEq, rankOfLevel]

theorem registryFact_category {f : String} (hf : f ∈ registryFacts) :
    ∃ c, splitFact f = (c, JSVal.str "write") ∧ c ∉ objectPrototypeKeys := by
  obtain ⟨c, hc, hs⟩ := registryFacts_split f hf
  refine ⟨c, hs, ?_⟩
  simp only [List.mem_cons, List.mem_singleton, List.not_mem_nil, or_false] at hc
  rcases hc with rfl | rfl | rfl | rfl | rfl <;> decide

theorem registryFact_isUnmet {P : JSObj} (hP : WellLeveled P) {f : String}
    (hf : f ∈ registryFacts) : isUnmet P f = !factMet P f := by
  obtain ⟨c, hs, hc⟩ := registryFact_category hf
  exact isUnmet_eq_not_factMet hP hs (Or.inr rfl) hc

theorem registryFact_satisfiesAny {P : JSObj} (hP : WellLeveled P) {f : String}
    (hf : f ∈ registryFacts) : satisfiesAny P f = factMet P f := by
  obtain ⟨c, hs, hc⟩ := registryFact_category hf
  exact satisfiesAny_eq_factMet hP hs hc

theorem filter_isUnmet_eq {P : JSObj} (hP : WellLeveled P) {fs : List String}
    (hfs : ∀ f ∈ fs, f ∈ registryFacts) :
    fs.filter (isUnmet P) = fs.filter (fun f => !factMet P f) :=
  List.filter_congr (fun f hf => registryFact_isUnmet hP (hfs f hf))

theorem any_satisfiesAny_eq {P : JSObj} (hP : WellLeveled P) {fs : List String}
    (hfs : ∀ f ∈ fs, f ∈ registryFacts) :
    fs.any (satisfiesAny P) = fs.any (factMet P) := by
  induction fs with
  | nil => rfl
  | cons x rest ih =>
    simp only [List.any_cons]
    rw [registryFact_satisfiesAny hP (hfs x (List.mem_cons_self _ _)),
      ih (fun f hf => hfs f (List.mem_cons_of_mem _ hf))]

/-- The verdict of a registered kind, with the two loops written as filters. -/
theorem validateOperationPermissions_entry (P : JSObj) {K : String} {req : OperationReq}
    (hK : registryOwn OPERATION_PERMISSIONS K = some req) :
    validateOperationPermissions P K = .ok
      { valid :=
          (if req.requiresAny then
            (if req.required.any (satisfiesAny P) then [] else req.required)
           else req.required.filter (isUnmet P)).length == 0,
        missing :=
          if req.requiresAny then
            (if req.required.any (satisfiesAny P) then [] else req.required)
          else req.required.filter (isUnmet P),
        optional := (req.optional.getD []).filter (isUnmet P),
        description := req.description } := by
  unfold validateOperationPermissions registryGet
  rw [hK]
  cases hopt : req.optional <;> simp [pushUnmet_eq, hopt]

/-- A key that the registry does not own and that is no inherited member name
is let through with the fail-open verdict. -/
theorem validateOperationPermissions_unregistered (P : JSObj) {K : String}
    (hK : registryOwn OPERATION_PERMISSIONS K = none) (hproto : K ∉ objectPrototypeKeys) :
    validateOperationPermissions P K = .ok
      { valid := true, missing := [], optional := [],
        description := "Unknown operation type: " ++ K } := by
  unfold validateOperationPermissions registryGet
  rw [hK]
  simp [hproto]

/-- An inherited member name that the registry does not own makes the
validator throw. -/
theorem validateOperationPermissions_inherited (P : JSObj) {K : String}
    (hK : registryOwn OPERATION_PERMISSIONS K = none) (hproto : K ∈ objectPrototypeKeys) :
    validateOperationPermissions P K =
      .error "TypeError: operationReq.required is not iterable" := by
  unfold validateOperationPermissions registryGet
  rw [hK]
  simp [hproto]

/-- For a fact at level `write` the code's test for an unmet fact says that
the category is not at `write`, whatever the map holds. -/
theorem isUnmet_write_iff (P : JSObj) {f c : String}
    (hf : splitFact f = (c, JSVal.str "write")) :
    isUnmet P f = true ↔ getProp P c ≠ JSVal.str "write" := by
  unfold isUnmet
  simp only [hf]
  by_cases h : getProp P c = JSVal.str "write"
  · simp [h, JSVal.or, JSVal.truthy, strictEq]
  · by_cases ht : (getProp P c).truthy = true <;> simp [h, ht, JSVal.or, strictEq]

theorem filter_not_length_eq_all (p : String → Bool) (l : List String) :
    ((l.filter (fun f => !p f)).length == 0) = l.all p := by
  induction l with
  | nil => rfl
  | cons x rest ih =>
    by_cases hx : p x = true
    · simp only [List.filter_cons, hx, Bool.not_true, Bool.false_eq_true, if_false,
        List.all_cons, Bool.true_and]
      exact ih
    · have hx2 : p x = false := by simpa using hx
      simp [List.filter_cons, hx2]

/-! ## Lemmas on the keys of a built payload -/

theorem keysOf_replaceOwn (o : JSObj) (key : String) (v : JSVal) :
    keysOf (replaceOwn o key v) = keysOf o := by
  induction o with
  | nil => rfl
  | cons kv rest ih =>
    obtain ⟨k, w⟩ := kv
    unfold replaceOwn
    split
    · rfl
    · simp only [keysOf, List.map_cons] at ih ⊢
      rw [ih]

theorem mem_keysOf_setProp {o : JSObj} {key x : String} {v : JSVal}
    (hx : x ∈ keysOf (setProp o key v)) : x = key ∨ x ∈ keysOf o := by
  unfold setProp at hx
  split at hx
  · rw [keysOf_replaceOwn] at hx
    exact Or.inr hx
  · split at hx
    · exact Or.inr hx
    · simp only [keysOf, List.map_append, List.map_cons, List.map_nil, List.mem_append,
        List.mem_singleton] at hx ⊢
      rcases hx with h | h
      · exact Or.inr h
      · exact Or.inl h

theorem mem_keysOf_foldl_copy {item : JSObj} {fields : List String} {st : JSObj × Bool}
    {x : String}
    (hx : x ∈ keysOf (fields.foldl
      (fun (st : JSObj × Bool) fieldName =>
        if getProp item fieldName ≠ JSVal.undefined then
          (setProp st.1 fieldName (getProp item fieldName), true)
        else st) st).1) : x ∈ fields ∨ x ∈ keysOf st.1 := by
  induction fields generalizing st with
  | nil => exact Or.inr hx
  | cons f rest ih =>
    simp only [List.foldl_cons] at hx
    rcases ih hx with h | h
    · exact Or.inl (List.mem_cons_of_mem _ h)
    · by_cases hf : getProp item f ≠ JSVal.undefined
      · rw [if_pos hf] at h
        rcases mem_keysOf_setProp h with h2 | h2
        · exact Or.inl (h2 ▸ List.mem_cons_self _ _)
        · exact Or.inr h2
      · rw [if_neg hf] at h
        exact Or.inr h

theorem mem_keysOf_copyAdditionalFields {item : JSObj} {fields : List String} {d : JSObj}
    {b : Bool} {x : String}
    (hx : x ∈ keysOf (copyAdditionalFields item fields d b).1) : x ∈ fields ∨ x ∈ keysOf d :=
  mem_keysOf_foldl_copy hx

theorem mem_keysOf_titleStep {item : JSObj} {can : Bool} {x : String}
    (hx : x ∈ keysOf (titleStep item can).1) : x = "title" ∧ can = true := by
  unfold titleStep at hx
  split at hx
  · next h =>
    simp only [Bool.and_eq_true] at h
    dsimp only at hx
    rcases mem_keysOf_setProp hx with h2 | h2
    · exact ⟨h2, h.1⟩
    · simp [keysOf] at h2
  · simp [keysOf] at hx

theorem mem_keysOf_bodyStep {item config : JSObj} {dflt : String} {can : Bool}
    {st : JSObj × Bool} {x : String}
    (hx : x ∈ keysOf (bodyStep item config dflt can st).1) :
    x ∈ keysOf st.1 ∨ ((x = "_operation" ∨ x = "_rawBody") ∧ can = true) := by
  unfold bodyStep at hx
  split at hx
  · next h =>
    simp only [Bool.and_eq_true] at h
    dsimp only at hx
    rcases mem_keysOf_setProp hx with h2 | h2
    · exact Or.inr ⟨Or.inr h2, h.1⟩
    · rcases mem_keysOf_setProp h2 with h3 | h3
      · exact Or.inr ⟨Or.inl h3, h.1⟩
      · exact Or.inl h3
  · exact Or.inl hx

theorem mem_keysOf_stateStep {item : JSObj} {acc : Bool} {st : JSObj × Bool} {x : String}
    (hx : x ∈ keysOf (stateStep item acc st).1) : x ∈ keysOf st.1 ∨ x = "state" := by
  unfold stateStep at hx
  split at hx
  · dsimp only at hx
    rcases mem_keysOf_setProp hx with h | h
    · exact Or.inr h
    · exact Or.inl h
  · split at hx
    · dsimp only at hx
      rcases mem_keysOf_setProp hx with h | h
      · exact Or.inr h
      · exact Or.inl h
    · exact Or.inl hx

/-- Every key of a built payload is `title` (title allowed), `_operation` or
`_rawBody` (body allowed), `state`, or a member of `additionalFields`. -/
theorem mem_keysOf_payload {item config : JSObj} {pc : BuildPayloadConfig} {d : JSObj}
    (hd : (buildUpdatePayloadData item config pc).data = some d) {x : String}
    (hx : x ∈ keysOf d) :
    (x = "title" ∧
      (pc.allowTitle.getD true && decide (getProp config "allow_title" ≠ .bool false)) = true) ∨
    ((x = "_operation" ∨ x = "_rawBody") ∧
      (pc.allowBody.getD true && decide (getProp config "allow_body" ≠ .bool false)) = true) ∨
    x = "state" ∨ x ∈ pc.additionalFields.getD [] := by
  unfold buildUpdatePayloadData at hd
  simp only at hd
  split at hd
  · simp at hd
  · simp only [Option.some.injEq] at hd
    subst hd
    rcases mem_keysOf_copyAdditionalFields hx with h | h
    · exact Or.inr (Or.inr (Or.inr h))
    · rcases mem_keysOf_stateStep h with h2 | h2
      · rcases mem_keysOf_bodyStep h2 with h3 | h3
        · exact Or.inl (mem_keysOf_titleStep h3)
        · exact Or.inr (Or.inl h3)
      · exact Or.inr (Or.inr (Or.inl h2))

/-! ## Lemmas on `mapScopesToPermissions` -/

theorem applyScope_permsOf (a b c d e : JSVal) (scope : String) :
    applyScope (permsOf a b c d e) scope =
      permsOf (levelAfter scope "contents" a) (levelAfter scope "issues" b)
        (levelAfter scope "pull_requests" c) (levelAfter scope "discussions" d)
        (levelAfter scope "projects" e) := by
  unfold applyScope
  split <;>
    simp_all [permsOf, setProp, getOwn, replaceOwn, levelAfter, scopeAssigns, jsStartsWith]

theorem foldl_applyScope_permsOf (S : List String) (a b c d e : JSVal) :
    S.foldl applyScope (permsOf a b c d e) =
      permsOf (levelAfterAll S "contents" a) (levelAfterAll S "issues" b)
        (levelAfterAll S "pull_requests" c) (levelAfterAll S "discussions" d)
        (levelAfterAll S "projects" e) := by
  induction S generalizing a b c d e with
  | nil => rfl
  | cons s rest ih =>
    simp only [List.foldl_cons, applyScope_permsOf, ih, levelAfterAll]

theorem mapScopesToPermissions_eq (S : List String) :
    mapScopesToPermissions S =
      permsOf (levelAfterAll S "contents" (.str "none")) (levelAfterAll S "issues" (.str "none"))
        (levelAfterAll S "pull_requests" (.str "none"))
        (levelAfterAll S "discussions" (.str "none"))
        (levelAfterAll S "projects" (.str "none")) :=
  foldl_applyScope_permsOf S _ _ _ _ _

theorem levelAfterAll_append (S : List String) (s category : String) (old : JSVal) :
    levelAfterAll (S ++ [s]) category old = levelAfter s category (levelAfterAll S category old) := by
  simp [levelAfterAll, List.foldl_append]

theorem levelIn_mapScopesToPermissions (S : List String) (category : String) :
    levelIn (mapScopesToPermissions S) category =
      if category ∈ categories then rankOf (levelAfterAll S category (.str "none")) else 0 := by
  rw [mapScopesToPermissions_eq]
  by_cases h1 : category = "contents"
  · subst h1; simp [levelIn, permsOf, getOwn, categories, rankOf]; split <;> simp_all
  by_cases h2 : category = "issues"
  · subst h2; simp [levelIn, permsOf, getOwn, categories, rankOf]; split <;> simp_all
  by_cases h3 : category = "pull_requests"
  · subst h3; simp [levelIn, permsOf, getOwn, categories, rankOf]; split <;> simp_all
  by_cases h4 : category = "discussions"
  · subst h4; simp [levelIn, permsOf, getOwn, categories, rankOf]; split <;> simp_all
  by_cases h5 : category = "projects"
  · subst h5; simp [levelIn, permsOf, getOwn, categories, rankOf]; split <;> simp_all
  simp [levelIn, permsOf, getOwn, categories, h1, h2, h3, h4, h5, Ne.symm h1, Ne.symm h2,
    Ne.symm h3, Ne.symm h4, Ne.symm h5]

theorem scopeAssigns_cases (s c : String) :
    scopeAssigns s c = none ∨ scopeAssigns s c = some "read" ∨ scopeAssigns s c = some "write" := by
  unfold scopeAssigns
  split_ifs <;> simp

theorem isLevel_levelAfter {v : JSVal} (h : IsLevel v) (s c : String) :
    IsLevel (levelAfter s c v) := by
  unfold levelAfter
  rcases scopeAssigns_cases s c with h1 | h1 | h1 <;> rw [h1] <;> simp [IsLevel, h]
  exact h

theorem isLevel_levelAfterAll {v : JSVal} (h : IsLevel v) (S : List String) (c : String) :
    IsLevel (levelAfterAll S c v) := by
  unfold levelAfterAll
  induction S generalizing v with
  | nil => exact h
  | cons s rest ih => exact ih (isLevel_levelAfter h s c)

theorem rankOf_le_two {v : JSVal} (h : IsLevel v) : rankOf v ≤ 2 := by
  rcases h with rfl | rfl | rfl <;> decide

theorem rankOf_le_one {v : JSVal} (h : IsLevel v) (hne : rankOf v ≠ 2) : rankOf v ≤ 1 := by
  rcases h with rfl | rfl | rfl
  · decide
  · decide
  · exact absurd (by decide) hne

theorem grantsRead_iff (s c : String) :
    grantsRead s c = true ↔ scopeAssigns s c = some "read" := by
  unfold grantsRead scopeAssigns
  split_ifs <;> simp_all <;> aesop

theorem scopeAssigns_agree {S : List String} (hS : ConflictFree S) {x y c lx ly : String}
    (hx : x ∈ S) (hy : y ∈ S) (h1 : scopeAssigns x c = some lx)
    (h2 : scopeAssigns y c = some ly) : lx = ly := by
  unfold ConflictFree at hS
  unfold scopeAssigns at h1 h2
  split_ifs at h1 h2 <;> simp_all <;> aesop

theorem levelAfter_comm {S : List String} (hS : ConflictFree S) {x y : String}
    (hx : x ∈ S) (hy : y ∈ S) (c : String) (z : JSVal) :
    levelAfter y c (levelAfter x c z) = levelAfter x c (levelAfter y c z) := by
  unfold levelAfter
  cases h1 : scopeAssigns x c <;> cases h2 : scopeAssigns y c <;> simp
  exact scopeAssigns_agree hS hy hx h2 h1

theorem levelAfterAll_perm {S S' : List String} (hperm : S'.Perm S) (hS : ConflictFree S)
    (c : String) (v : JSVal) : levelAfterAll S' c v = levelAfterAll S c v := by
  unfold levelAfterAll
  refine (List.Perm.foldl_eq' hperm.symm ?_ v).symm
  intro x hx y hy z
  exact levelAfter_comm hS hx hy c z

theorem getProp_ne_of_own {o : JSObj} {w : String} (h : ∀ kv ∈ o, kv.2 ≠ JSVal.str w)
    (c : String) : getProp o c ≠ JSVal.str w := by
  unfold getProp
  cases hown : getOwn o c with
  | none => by_cases hc : c ∈ objectPrototypeKeys <;> simp [hc]
  | some v => exact h _ (getOwn_mem hown)

/-! ## Lemmas on the batch loop -/

theorem registryOwn_inherited_none :
    ∀ k ∈ objectPrototypeKeys, registryOwn OPERATION_PERMISSIONS k = none := by decide

/-- The validator returns a verdict for every kind that is no inherited
member name. -/
theorem validateOperationPermissions_returns (P : JSObj) {K : String}
    (hK : K ∉ objectPrototypeKeys) : ∃ v, validateOperationPermissions P K = .ok v := by
  cases hown : registryOwn OPERATION_PERMISSIONS K with
  | none => exact ⟨_, validateOperationPermissions_unregistered P hown hK⟩
  | some req => exact ⟨_, validateOperationPermissions_entry P hown⟩

/-- When every kind of the batch gets a verdict, the loop returns the tagged
verdicts in batch order and the conjunction of their `valid`. -/
theorem validateLoop_spec (P : JSObj) (kinds : List String) (vs : List Verdict)
    (h : List.Forall₂ (fun k v => validateOperationPermissions P k = .ok v) kinds vs)
    (acc : List OperationResult) (b : Bool) :
    validateLoop P kinds acc b =
      .ok (acc ++ List.zipWith tagged kinds vs, b && vs.all (fun v => v.valid)) := by
  induction h generalizing acc b with
  | nil => simp [validateLoop]
  | @cons k v ks vs' hkv _ ih =>
    unfold validateLoop
    rw [hkv]
    simp only
    rw [ih]
    cases hv : v.valid <;> simp [tagged, hv]

theorem exists_verdicts (P : JSObj) (kinds : List String)
    (h : ∀ k ∈ kinds, k ∉ objectPrototypeKeys) :
    ∃ vs, List.Forall₂ (fun k v => validateOperationPermissions P k = .ok v) kinds vs := by
  induction kinds with
  | nil => exact ⟨[], List.Forall₂.nil⟩
  | cons k rest ih =>
    obtain ⟨v, hv⟩ := validateOperationPermissions_returns P (h k (List.mem_cons_self _ _))
    obtain ⟨vs, hvs⟩ := ih (fun x hx => h x (List.mem_cons_of_mem _ hx))
    exact ⟨v :: vs, List.Forall₂.cons hv hvs⟩

/-- The loop returns for every batch without an inherited member name. -/
theorem validateLoop_returns (P : JSObj) (kinds : List String)
    (h : ∀ k ∈ kinds, k ∉ objectPrototypeKeys) (acc : List OperationResult) (b : Bool) :
    ∃ r, validateLoop P kinds acc b = .ok r := by
  obtain ⟨vs, hvs⟩ := exists_verdicts P kinds h
  exact ⟨_, validateLoop_spec P kinds vs hvs acc b⟩

/-- The loop throws for every batch that holds an inherited member name. -/
theorem validateLoop_throws (P : JSObj) (kinds : List String)
    (h : ∃ k ∈ kinds, k ∈ objectPrototypeKeys) (acc : List OperationResult) (b : Bool) :
    validateLoop P kinds acc b = .error "TypeError: operationReq.required is not iterable" := by
  induction kinds generalizing acc b with
  | nil => obtain ⟨k, hk, _⟩ := h; cases hk
  | cons k rest ih =>
    unfold validateLoop
    by_cases hk : k ∈ objectPrototypeKeys
    · rw [validateOperationPermissions_inherited P (registryOwn_inherited_none k hk) hk]
    · obtain ⟨v, hv⟩ := validateOperationPermissions_returns P hk
      rw [hv]
      simp only
      apply ih
      obtain ⟨x, hx, hxp⟩ := h
      rcases List.mem_cons.1 hx with rfl | hx2
      · exact absurd hxp hk
      · exact ⟨x, hx2, hxp⟩

/-! ## Properties of `validateOperationPermissions` -/

/-- C1. For a permission map with levels among none/read/write and a registered
kind whose entry does not set `requiresAny`, the verdict is valid exactly when
every required fact is met under `none < read < write`, and `missing` is the
list of the unmet required facts in declaration order. -/
theorem validate_all_combinator (P : JSObj) (K : String) (req : OperationReq)
    (hP : WellLeveled P) (hK : registryOwn OPERATION_PERMISSIONS K = some req)
    (hAll : req.requiresAny = false) :
    ∃ v, validateOperationPermissions P K = .ok v ∧
      (v.valid = true ↔ ∀ f ∈ req.required, factMet P f = true) ∧
      v.missing = req.required.filter (fun f => !factMet P f) := by
  have hfacts : ∀ f ∈ req.required, f ∈ registryFacts :=
    registry_required_facts (K, req) (registryOwn_mem hK)
  refine ⟨_, validateOperationPermissions_entry P hK, ?_, ?_⟩
  · simp only [hAll, Bool.false_eq_true, if_false, filter_isUnmet_eq hP hfacts]
    simp [List.filter_eq_nil_iff]
  · simp only [hAll, Bool.false_eq_true, if_false, filter_isUnmet_eq hP hfacts]

/-- Witness for C1: `create_pull_request` with pull_requests at write and
contents at read misses exactly `contents:write`. -/
theorem validate_all_combinator_witness :
    ∃ v, validateOperationPermissions
        [("pull_requests", JSVal.str "write"), ("contents", JSVal.str "read")]
        "create_pull_request" = .ok v ∧
      (v.valid = true ↔ ∀ f ∈ ["pull_requests:write", "contents:write"],
        factMet [("pull_requests", JSVal.str "write"), ("contents", JSVal.str "read")] f = true) ∧
      v.missing = ["contents:write"] :=
  validate_all_combinator
    [("pull_requests", JSVal.str "write"), ("contents", JSVal.str "read")]
    "create_pull_request"
    { required := ["pull_requests:write", "contents:write"],
      description := "Create pull requests" }
    (by decide) (by decide) rfl

/-- C2. For a permission map with levels among none/read/write and a registered
kind whose entry sets `requiresAny` (add_comment, hide_comment), the verdict is
valid exactly when at least one required fact is met; `missing` is empty when
valid and is the whole required list `[issues:write, pull_requests:write]`
when not. -/
theorem validate_any_combinator (P : JSObj) (K : String) (req : OperationReq)
    (hP : WellLeveled P) (hK : registryOwn OPERATION_PERMISSIONS K = some req)
    (hAny : req.requiresAny = true) :
    (K = "add_comment" ∨ K = "hide_comment") ∧
    req.required = ["issues:write", "pull_requests:write"] ∧
    ∃ v, validateOperationPermissions P K = .ok v ∧
      (v.valid = true ↔ ∃ f ∈ req.required, factMet P f = true) ∧
      (v.valid = true → v.missing = []) ∧
      (v.valid = false → v.missing = ["issues:write", "pull_requests:write"]) := by
  have hmem := registryOwn_mem hK
  have hfacts : ∀ f ∈ req.required, f ∈ registryFacts :=
    registry_required_facts (K, req) hmem
  have hreq : req.required = ["issues:write", "pull_requests:write"] :=
    registry_any_required (K, req) hmem hAny
  have hkind : ∀ e ∈ OPERATION_PERMISSIONS, e.2.requiresAny = true →
      (e.1 = "add_comment" ∨ e.1 = "hide_comment") := by decide
  refine ⟨hkind (K, req) hmem hAny, hreq, _, validateOperationPermissions_entry P hK, ?_, ?_, ?_⟩
  · simp only [hAny, if_true, any_satisfiesAny_eq hP hfacts]
    by_cases h : req.required.any (factMet P) = true
    · simp only [h, if_true, List.length_nil, beq_self_eq_true, true_iff]
      simpa using h
    · have h2 : ¬ ∃ f ∈ req.required, factMet P f = true := by simpa using h
      have hlen : (req.required.length == 0) = false := by rw [hreq]; rfl
      rw [if_neg h, hlen]
      exact ⟨fun hh => Bool.noConfusion hh, fun hh => absurd hh h2⟩
  · simp only [hAny, if_true, any_satisfiesAny_eq hP hfacts]
    by_cases h : req.required.any (factMet P) = true
    · simp [h]
    · simp [h, hreq]
  · simp only [hAny, if_true, any_satisfiesAny_eq hP hfacts]
    by_cases h : req.required.any (factMet P) = true
    · simp [h]
    · simp [h, hreq]

/-- Witness for C2: `add_comment` with issues at none and pull_requests at
write. -/
theorem validate_any_combinator_witness :
    ("add_comment" = "add_comment" ∨ "add_comment" = "hide_comment") ∧
    ["issues:write", "pull_requests:write"] = ["issues:write", "pull_requests:write"] ∧
    ∃ v, validateOperationPermissions
        [("issues", JSVal.str "none"), ("pull_requests", JSVal.str "write")] "add_comment" = .ok v ∧
      (v.valid = true ↔ ∃ f ∈ ["issues:write", "pull_requests:write"],
        factMet [("issues", JSVal.str "none"), ("pull_requests", JSVal.str "write")] f = true) ∧
      (v.valid = true → v.missing = []) ∧
      (v.valid = false → v.missing = ["issues:write", "pull_requests:write"]) :=
  validate_any_combinator
    [("issues", JSVal.str "none"), ("pull_requests", JSVal.str "write")]
    "add_comment"
    { required := ["issues:write", "pull_requests:write"], requiresAny := true,
      description := "Add comments to issues or pull requests" }
    (by decide) (by decide) rfl

/-- C3 (code defect). The key `constructor` is not a registered kind, yet the
registry read finds the member inherited from `Object.prototype`, so the
validator throws instead of returning the fail-open verdict, for every
permission map. -/
theorem validate_unregistered_constructor_throws :
    registryOwn OPERATION_PERMISSIONS "constructor" = none ∧
    ∀ P : JSObj, validateOperationPermissions P "constructor" =
      .error "TypeError: operationReq.required is not iterable" :=
  ⟨by decide, fun P => validateOperationPermissions_inherited P (by decide) (by decide)⟩

/-- C8. For a permission map with levels among none/read/write and a registered
kind, `optional` is the list of declared optional facts that are not met, in
declared order, and `valid` is computed from the required facts alone.  For
`update_project`, valid holds exactly when projects is at write, and
`optional` is `[issues:write]` exactly when issues is not at write. -/
theorem validate_optional_gaps (P : JSObj) (K : String) (req : OperationReq)
    (hP : WellLeveled P) (hK : registryOwn OPERATION_PERMISSIONS K = some req) :
    (∃ v, validateOperationPermissions P K = .ok v ∧
      v.optional = (req.optional.getD []).filter (fun f => !factMet P f) ∧
      v.valid = (if req.requiresAny then req.required.any (factMet P)
                 else req.required.all (factMet P))) ∧
    (∃ u, validateOperationPermissions P "update_project" = .ok u ∧
      (u.valid = true ↔ getProp P "projects" = JSVal.str "write") ∧
      (u.optional = ["issues:write"] ↔ getProp P "issues" ≠ JSVal.str "write") ∧
      (u.optional = [] ↔ getProp P "issues" = JSVal.str "write")) := by
  have hmem := registryOwn_mem hK
  have hfacts : ∀ f ∈ req.required, f ∈ registryFacts :=
    registry_required_facts (K, req) hmem
  have hopts : ∀ f ∈ req.optional.getD [], f ∈ registryFacts :=
    registry_optional_facts (K, req) hmem
  constructor
  · refine ⟨_, validateOperationPermissions_entry P hK, filter_isUnmet_eq hP hopts, ?_⟩
    by_cases hAny : req.requiresAny = true
    · have hreq : req.required = ["issues:write", "pull_requests:write"] :=
        registry_any_required (K, req) hmem hAny
      have hlen : (req.required.length == 0) = false := by rw [hreq]; rfl
      simp only [hAny, if_true, any_satisfiesAny_eq hP hfacts]
      by_cases h : req.required.any (factMet P) = true
      · rw [if_pos h, h]; rfl
      · rw [if_neg h, hlen]
        simpa using h
    · have hAll : req.requiresAny = false := by simpa using hAny
      simp only [hAll, Bool.false_eq_true, if_false, filter_isUnmet_eq hP hfacts]
      exact filter_not_length_eq_all _ _
  · have hproj : splitFact "projects:write" = ("projects", JSVal.str "write") := by decide
    have hiss : splitFact "issues:write" = ("issues", JSVal.str "write") := by decide
    have hentry := validateOperationPermissions_entry P
      (show registryOwn OPERATION_PERMISSIONS "update_project" = some
        { required := ["projects:write"], optional := some ["issues:write"],
          description := "Update GitHub Projects" } by decide)
    refine ⟨_, hentry, ?_, ?_, ?_⟩
    · by_cases h : isUnmet P "projects:write" = true
      · have h2 := (isUnmet_write_iff P hproj).1 h
        simp [List.filter_cons, h, h2]
      · have h2 : getProp P "projects" = JSVal.str "write" := by
          by_contra hne
          exact h ((isUnmet_write_iff P hproj).2 hne)
        have h3 : isUnmet P "projects:write" = false := by simpa using h
        simp [List.filter_cons, h3, h2]
    · by_cases h : isUnmet P "issues:write" = true
      · have h2 := (isUnmet_write_iff P hiss).1 h
        simp [List.filter_cons, h, h2]
      · have h2 : getProp P "issues" = JSVal.str "write" := by
          by_contra hne
          exact h ((isUnmet_write_iff P hiss).2 hne)
        have h3 : isUnmet P "issues:write" = false := by simpa using h
        simp [List.filter_cons, h3, h2]
    · by_cases h : isUnmet P "issues:write" = true
      · have h2 := (isUnmet_write_iff P hiss).1 h
        simp [List.filter_cons, h, h2]
      · have h2 : getProp P "issues" = JSVal.str "write" := by
          by_contra hne
          exact h ((isUnmet_write_iff P hiss).2 hne)
        have h3 : isUnmet P "issues:write" = false := by simpa using h
        simp [List.filter_cons, h3, h2]

/-- Witness for C8: `update_project` with projects at write and issues at
none is valid and reports the optional gap. -/
theorem validate_optional_gaps_witness :
    (∃ v, validateOperationPermissions
        [("projects", JSVal.str "write"), ("issues", JSVal.str "none")] "update_project" = .ok v ∧
      v.optional = ["issues:write"] ∧ v.valid = true) ∧
    (∃ u, validateOperationPermissions
        [("projects", JSVal.str "write"), ("issues", JSVal.str "none")] "update_project" = .ok u ∧
      (u.valid = true ↔
        getProp [("projects", JSVal.str "write"), ("issues", JSVal.str "none")] "projects"
          = JSVal.str "write") ∧
      (u.optional = ["issues:write"] ↔
        getProp [("projects", JSVal.str "write"), ("issues", JSVal.str "none")] "issues"
          ≠ JSVal.str "write") ∧
      (u.optional = [] ↔
        getProp [("projects", JSVal.str "write"), ("issues", JSVal.str "none")] "issues"
          = JSVal.str "write")) :=
  validate_optional_gaps
    [("projects", JSVal.str "write"), ("issues", JSVal.str "none")]
    "update_project"
    { required := ["projects:write"], optional := some ["issues:write"],
      description := "Update GitHub Projects" }
    (by decide) (by decide)

/-! ## Properties of `buildUpdatePayloadData` -/

/-- C4 (code defect). With title disallowed by both the payload
configuration and the toggle, an `additionalFields` list that names `title`
still copies the title into the payload: the loop over `additionalFields` has
no allow test, while the title step, run on the same input without the list,
leaves the title out.  In the same way a listed `_rawBody` is copied with body
disallowed. -/
theorem payload_title_via_additionalFields :
    buildUpdatePayloadData [("title", JSVal.str "T")] [("allow_title", JSVal.bool false)]
        { allowTitle := some false, additionalFields := some ["title"] } =
      { success := true, data := some [("title", JSVal.str "T")] } ∧
    buildUpdatePayloadData [("title", JSVal.str "T")] [("allow_title", JSVal.bool false)]
        { allowTitle := some false } =
      { success := true, data := some [] } ∧
    buildUpdatePayloadData [("_rawBody", JSVal.str "B")] [("allow_body", JSVal.bool false)]
        { allowBody := some false, additionalFields := some ["_rawBody"] } =
      { success := true, data := some [("_rawBody", JSVal.str "B")] } := by
  decide

/-- When title is disallowed (`allowTitle = false` in the payload
configuration or `allow_title = false` in the toggle, whatever the other one
says) and `additionalFields` does not name `title`, the payload has no `title`
key; when body is disallowed, the payload has no `_operation` key unless
`additionalFields` names it, and no `_rawBody` key unless `additionalFields`
names it. -/
theorem payload_omits_disallowed (item config : JSObj) (pc : BuildPayloadConfig) (d : JSObj)
    (hd : (buildUpdatePayloadData item config pc).data = some d) :
    ((pc.allowTitle = some false ∨ getProp config "allow_title" = JSVal.bool false) →
      "title" ∉ pc.additionalFields.getD [] → "title" ∉ keysOf d) ∧
    ((pc.allowBody = some false ∨ getProp config "allow_body" = JSVal.bool false) →
      ("_operation" ∉ pc.additionalFields.getD [] → "_operation" ∉ keysOf d) ∧
      ("_rawBody" ∉ pc.additionalFields.getD [] → "_rawBody" ∉ keysOf d)) := by
  refine ⟨fun hdis hadd hx => ?_, fun hdis => ⟨fun hadd hx => ?_, fun hadd hx => ?_⟩⟩
  · rcases mem_keysOf_payload hd hx with h | h | h | h
    · rcases hdis with h2 | h2 <;> simp [h2] at h
    · rcases h.1 with h2 | h2 <;> exact absurd h2 (by decide)
    · exact absurd h (by decide)
    · exact hadd h
  · rcases mem_keysOf_payload hd hx with h | h | h | h
    · exact absurd h.1 (by decide)
    · rcases hdis with h2 | h2 <;> simp [h2] at h
    · exact absurd h (by decide)
    · exact hadd h
  · rcases mem_keysOf_payload hd hx with h | h | h | h
    · exact absurd h.1 (by decide)
    · rcases hdis with h2 | h2 <;> simp [h2] at h
    · exact absurd h (by decide)
    · exact hadd h

/-- An instance of `payload_omits_disallowed`: title and body on the
instruction, title switched off by the toggle, no additional fields. -/
theorem payload_omits_disallowed_witness :
    (((none : Option Bool) = some false ∨
        getProp [("allow_title", JSVal.bool false)] "allow_title" = JSVal.bool false) →
      "title" ∉ (none : Option (List String)).getD [] →
      "title" ∉ keysOf [("_operation", JSVal.str "append"), ("_rawBody", JSVal.str "B")]) ∧
    (((none : Option Bool) = some false ∨
        getProp [("allow_title", JSVal.bool false)] "allow_body" = JSVal.bool false) →
      ("_operation" ∉ (none : Option (List String)).getD [] →
        "_operation" ∉ keysOf [("_operation", JSVal.str "append"), ("_rawBody", JSVal.str "B")]) ∧
      ("_rawBody" ∉ (none : Option (List String)).getD [] →
        "_rawBody" ∉ keysOf [("_operation", JSVal.str "append"), ("_rawBody", JSVal.str "B")])) :=
  payload_omits_disallowed
    [("title", JSVal.str "T"), ("body", JSVal.str "B")]
    [("allow_title", JSVal.bool false)] {}
    [("_operation", JSVal.str "append"), ("_rawBody", JSVal.str "B")] (by decide)

/-! ## Properties of `mapScopesToPermissions` -/

/-- C5, as stated, fails: after `repo` has put contents at write, processing
`repo:status` leaves contents at read. -/
theorem mapScopes_repo_status_lowers_contents :
    levelIn (mapScopesToPermissions ["repo"]) "contents" = 2 ∧
    levelIn (mapScopesToPermissions (["repo"] ++ ["repo:status"])) "contents" = 1 ∧
    ¬ (levelIn (mapScopesToPermissions ["repo"]) "contents" ≤
        levelIn (mapScopesToPermissions (["repo"] ++ ["repo:status"])) "contents") := by
  decide

/-- C5, amended. Processing one more scope `s` after the list `S` never lowers
a category, except that a scope assigning read (`repo:status`,
`repo_deployment`, `read:discussion`, `read:project`) puts its category at
read also when `S` had brought it to write. -/
theorem mapScopes_append_level (S : List String) (s category : String) :
    (grantsRead s category = true →
      levelIn (mapScopesToPermissions (S ++ [s])) category = 1) ∧
    (¬ (grantsRead s category = true ∧ levelIn (mapScopesToPermissions S) category = 2) →
      levelIn (mapScopesToPermissions S) category ≤
        levelIn (mapScopesToPermissions (S ++ [s])) category) := by
  rw [levelIn_mapScopesToPermissions, levelIn_mapScopesToPermissions, levelAfterAll_append]
  have ha := isLevel_levelAfterAll (Or.inl rfl : IsLevel (.str "none")) S category
  generalize levelAfterAll S category (.str "none") = a at ha
  rw [grantsRead_iff]
  by_cases hcat : category ∈ categories
  · simp only [hcat, if_true]
    rcases scopeAssigns_cases s category with h | h | h
    · simp [levelAfter, h]
    · refine ⟨fun _ => by simp [levelAfter, h, rankOf, rankOfLevel], fun hn => ?_⟩
      have hne : rankOf a ≠ 2 := fun h2 => hn ⟨h, h2⟩
      have h1 := rankOf_le_one ha hne
      simpa [levelAfter, h, rankOf, rankOfLevel] using h1
    · refine ⟨fun hr => by simp [h] at hr, fun _ => ?_⟩
      have h2 := rankOf_le_two ha
      simpa [levelAfter, h, rankOf, rankOfLevel] using h2
  · have hnone : scopeAssigns s category = none := by
      unfold scopeAssigns
      simp only [categories, List.mem_cons, List.mem_singleton, List.not_mem_nil, or_false,
        not_or] at hcat
      simp [hcat]
    simp [hcat, hnone]

/-- Witness for C5 amended at `S = [repo]`, `s = repo:status`, contents. -/
theorem mapScopes_append_level_witness :
    (grantsRead "repo:status" "contents" = true →
      levelIn (mapScopesToPermissions (["repo"] ++ ["repo:status"])) "contents" = 1) ∧
    (¬ (grantsRead "repo:status" "contents" = true ∧
        levelIn (mapScopesToPermissions ["repo"]) "contents" = 2) →
      levelIn (mapScopesToPermissions ["repo"]) "contents" ≤
        levelIn (mapScopesToPermissions (["repo"] ++ ["repo:status"])) "contents") :=
  mapScopes_append_level ["repo"] "repo:status" "contents"

/-- C6, as stated, fails: `[repo, repo:status]` and its permutation
`[repo:status, repo]` give different maps (contents at read, resp. write). -/
theorem mapScopes_order_matters :
    List.Perm ["repo:status", "repo"] ["repo", "repo:status"] ∧
    mapScopesToPermissions ["repo:status", "repo"] ≠
      mapScopesToPermissions ["repo", "repo:status"] :=
  ⟨List.Perm.swap _ _ _, by decide⟩

/-- C6, amended. When no category is assigned both write and read by scopes of
`S` (no `repo` or `public_repo` together with `repo:status` or
`repo_deployment`, no `write:discussion` with `read:discussion`, no `project`
with `read:project`), every permutation of `S` gives the same map. -/
theorem mapScopes_perm (S S' : List String) (hperm : S'.Perm S) (hS : ConflictFree S) :
    mapScopesToPermissions S' = mapScopesToPermissions S := by
  rw [mapScopesToPermissions_eq, mapScopesToPermissions_eq]
  simp only [levelAfterAll_perm hperm hS]

/-- Witness for C6 amended. -/
theorem mapScopes_perm_witness :
    mapScopesToPermissions ["read:discussion", "repo", "project"] =
      mapScopesToPermissions ["repo", "project", "read:discussion"] :=
  mapScopes_perm ["repo", "project", "read:discussion"] ["read:discussion", "repo", "project"]
    (by decide) (by decide)

/-! ## Properties of `validateTokenPermissions` -/

/-- C7 (code defect). Whatever the probe answers, the batch
`[create_issue, constructor]` gets no results at all: the validator throws on
`constructor` and the exception leaves `validateTokenPermissions`. -/
theorem validateTokenPermissions_batch_throws (github : Github) (token owner repo : String) :
    (validateTokenPermissions github token owner repo ["create_issue", "constructor"]).1 =
      .error "TypeError: operationReq.required is not iterable" := by
  simp only [validateTokenPermissions,
    validateLoop_throws _ ["create_issue", "constructor"] ⟨"constructor", by decide, by decide⟩]

/-- C10 (code defect). With a failing probe `checkClassicTokenScopes` returns
its error value without raising, but `validateTokenPermissions` does not
return a result for the batch `[constructor]`: it throws. -/
theorem validateTokenPermissions_probe_failure_throws (message token owner repo : String) :
    (checkClassicTokenScopes (fun _ _ _ => .failure message) 0 token owner repo).1 =
      { hasScopes := false, scopes := [], error := some message } ∧
    (validateTokenPermissions (fun _ _ _ => .failure message) token owner repo
      ["constructor"]).1 = .error "TypeError: operationReq.required is not iterable" := by
  refine ⟨rfl, ?_⟩
  simp only [validateTokenPermissions,
    validateLoop_throws _ ["constructor"] ⟨"constructor", by decide, by decide⟩]

/-- With a failing first probe and a batch without inherited member names,
`validateTokenPermissions` returns a fine-grained result whose permission map
has no category at write. -/
theorem probe_failure_gives_fine_grained (github : Github) (token owner repo : String)
    (kinds : List String) (message : String)
    (hprobe : github 0 owner repo = .failure message)
    (hkinds : ∀ k ∈ kinds, k ∉ objectPrototypeKeys) :
    ∃ r, (validateTokenPermissions github token owner repo kinds).1 = .ok r ∧
      r.tokenType = "fine-grained" ∧ ∀ c, getProp r.permissions c ≠ JSVal.str "write" := by
  have hres : resolvePermissions github token owner repo =
      ("fine-grained", (checkFineGrainedTokenPermissions github 1 token owner repo).1.permissions,
        (checkFineGrainedTokenPermissions github 1 token owner repo).2) := by
    simp [resolvePermissions, checkClassicTokenScopes, hprobe]
  obtain ⟨⟨results, allValid⟩, hloop⟩ := validateLoop_returns
    (checkFineGrainedTokenPermissions github 1 token owner repo).1.permissions kinds hkinds [] true
  have hval : (validateTokenPermissions github token owner repo kinds).1 =
      .ok { valid := allValid, results := results,
            permissions :=
              (checkFineGrainedTokenPermissions github 1 token owner repo).1.permissions,
            tokenType := "fine-grained" } := by
    simp only [validateTokenPermissions, hres, hloop]
  refine ⟨_, hval, rfl, ?_⟩
  intro c
  simp only
  unfold checkFineGrainedTokenPermissions
  cases github 1 owner repo with
  | response hdrs =>
    exact getProp_ne_of_own
      (by decide : ∀ kv ∈ fineGrainedPermissions, kv.2 ≠ JSVal.str "write") c
  | failure m =>
    exact getProp_ne_of_own (fun kv hkv => absurd hkv (List.not_mem_nil kv)) c

/-- C9, as stated, fails: the header `x-oauth-scopes` is present and non-empty
(a single blank), yet no scope remains after trimming and the token is
reported as fine-grained. -/
theorem validateTokenPermissions_blank_scopes_header :
    (" " : String) ≠ "" ∧
    (validateTokenPermissions (fun _ _ _ => .response [("x-oauth-scopes", " ")]) "t" "o" "r" []).1 =
      .ok { valid := true, results := [], permissions := fineGrainedPermissions,
            tokenType := "fine-grained" } := by
  decide

/-- C9, amended. After a successful first probe and for a batch without
inherited member names, the result is `classic` with the map of the parsed
scopes exactly when the header yields at least one non-empty trimmed scope;
otherwise it is `fine-grained`, with the conservative map when the second
probe succeeds and with the empty map when the second probe fails. -/
theorem validateTokenPermissions_token_type (github : Github) (token owner repo : String)
    (kinds : List String) (headers : List (String × String))
    (hprobe : github 0 owner repo = .response headers)
    (hkinds : ∀ k ∈ kinds, k ∉ objectPrototypeKeys) :
    ∃ r, (validateTokenPermissions github token owner repo kinds).1 = .ok r ∧
      (parseScopes ((headerGet headers "x-oauth-scopes").getD "") ≠ [] →
        r.tokenType = "classic" ∧
        r.permissions =
          mapScopesToPermissions (parseScopes ((headerGet headers "x-oauth-scopes").getD ""))) ∧
      (parseScopes ((headerGet headers "x-oauth-scopes").getD "") = [] →
        r.tokenType = "fine-grained" ∧
        ((∃ h2, github 1 owner repo = .response h2) → r.permissions = fineGrainedPermissions) ∧
        ((∃ m, github 1 owner repo = .failure m) → r.permissions = [])) := by
  by_cases hs : parseScopes ((headerGet headers "x-oauth-scopes").getD "") = []
  · have hres : resolvePermissions github token owner repo =
        ("fine-grained",
          (checkFineGrainedTokenPermissions github 1 token owner repo).1.permissions,
          (checkFineGrainedTokenPermissions github 1 token owner repo).2) := by
      simp [resolvePermissions, checkClassicTokenScopes, hprobe, hs]
    obtain ⟨⟨results, allValid⟩, hloop⟩ := validateLoop_returns
      (checkFineGrainedTokenPermissions github 1 token owner repo).1.permissions kinds hkinds
      [] true
    have hval : (validateTokenPermissions github token owner repo kinds).1 =
        .ok { valid := allValid, results := results,
              permissions :=
                (checkFineGrainedTokenPermissions github 1 token owner repo).1.permissions,
              tokenType := "fine-grained" } := by
      simp only [validateTokenPermissions, hres, hloop]
    refine ⟨_, hval, fun h => absurd hs h, fun _ => ⟨rfl, ?_, ?_⟩⟩
    · rintro ⟨h2, hh2⟩
      simp [checkFineGrainedTokenPermissions, hh2]
    · rintro ⟨m, hm⟩
      simp [checkFineGrainedTokenPermissions, hm]
  · have hlen : 0 < (parseScopes ((headerGet headers "x-oauth-scopes").getD "")).length :=
      List.length_pos.2 hs
    have hres : resolvePermissions github token owner repo =
        ("classic",
          mapScopesToPermissions (parseScopes ((headerGet headers "x-oauth-scopes").getD "")),
          1) := by
      simp [resolvePermissions, checkClassicTokenScopes, hprobe, hlen]
    obtain ⟨⟨results, allValid⟩, hloop⟩ := validateLoop_returns
      (mapScopesToPermissions (parseScopes ((headerGet headers "x-oauth-scopes").getD "")))
      kinds hkinds [] true
    have hval : (validateTokenPermissions github token owner repo kinds).1 =
        .ok { valid := allValid, results := results,
              permissions := mapScopesToPermissions
                (parseScopes ((headerGet headers "x-oauth-scopes").getD "")),
              tokenType := "classic" } := by
      simp only [validateTokenPermissions, hres, hloop]
    exact ⟨_, hval, fun _ => ⟨rfl, rfl⟩, fun h => absurd h hs⟩

/-- Witness for C9 amended: a classic token advertising `repo, project` and
the batch `[create_issue]`. -/
theorem validateTokenPermissions_token_type_witness :
    ∃ r, (validateTokenPermissions
        (fun _ _ _ => .response [("x-oauth-scopes", "repo, project")]) "t" "o" "r"
        ["create_issue"]).1 = .ok r ∧
      (parseScopes ((headerGet [("x-oauth-scopes", "repo, project")] "x-oauth-scopes").getD "")
          ≠ [] →
        r.tokenType = "classic" ∧
        r.permissions = mapScopesToPermissions (parseScopes
          ((headerGet [("x-oauth-scopes", "repo, project")] "x-oauth-scopes").getD ""))) ∧
      (parseScopes ((headerGet [("x-oauth-scopes", "repo, project")] "x-oauth-scopes").getD "")
          = [] →
        r.tokenType = "fine-grained" ∧
        ((∃ h2, (fun (_ : Nat) (_ _ : String) =>
            ProbeOutcome.response [("x-oauth-scopes", "repo, project")]) 1 "o" "r"
              = .response h2) → r.permissions = fineGrainedPermissions) ∧
        ((∃ m, (fun (_ : Nat) (_ _ : String) =>
            ProbeOutcome.response [("x-oauth-scopes", "repo, project")]) 1 "o" "r"
              = .failure m) → r.permissions = [])) :=
  validateTokenPermissions_token_type
    (fun _ _ _ => .response [("x-oauth-scopes", "repo, project")]) "t" "o" "r"
    ["create_issue"] [("x-oauth-scopes", "repo, project")] rfl (by decide)

/-! ## Lemmas on property writes -/

theorem getOwn_replaceOwn_same {o : JSObj} {key : String} {w : JSVal} (v : JSVal)
    (h : getOwn o key = some w) : getOwn (replaceOwn o key v) key = some v := by
  induction o with
  | nil => simp [getOwn] at h
  | cons kv rest ih =>
    obtain ⟨k, u⟩ := kv
    unfold replaceOwn
    by_cases hk : k = key
    · simp [hk, getOwn]
    · have h2 : getOwn rest key = some w := by simpa [getOwn, hk] using h
      simp [hk, getOwn, ih h2]

theorem getOwn_replaceOwn_other {o : JSObj} {key k : String} (v : JSVal) (h : k ≠ key) :
    getOwn (replaceOwn o key v) k = getOwn o k := by
  induction o with
  | nil => rfl
  | cons kv rest ih =>
    obtain ⟨k2, u⟩ := kv
    unfold replaceOwn
    by_cases hk : k2 = key
    · have hk2 : ¬ k2 = k := fun e => h (e.symm.trans hk)
      simp [hk, getOwn, hk2, Ne.symm h]
    · by_cases hk3 : k2 = k
      · subst hk3
        simp [h, getOwn]
      · simp [hk, getOwn, hk3, ih]

theorem getOwn_append_same {o : JSObj} {key : String} (v : JSVal) (h : getOwn o key = none) :
    getOwn (o ++ [(key, v)]) key = some v := by
  induction o with
  | nil => simp [getOwn]
  | cons kv rest ih =>
    obtain ⟨k, u⟩ := kv
    by_cases hk : k = key
    · simp [getOwn, hk] at h
    · have h2 : getOwn rest key = none := by simpa [getOwn, hk] using h
      simp [getOwn, hk, ih h2]

theorem getOwn_append_other {o : JSObj} {key k : String} (v : JSVal) (h : k ≠ key) :
    getOwn (o ++ [(key, v)]) k = getOwn o k := by
  induction o with
  | nil => simp [getOwn, Ne.symm h]
  | cons kv rest ih =>
    obtain ⟨k2, u⟩ := kv
    by_cases hk : k2 = k
    · simp [getOwn, hk]
    · simp [getOwn, hk, ih]

/-- After the write `o[key] = v` the own property `key` holds `v`, for every
key other than `__proto__`. -/
theorem getOwn_setProp_same (o : JSObj) {key : String} (v : JSVal) (h : key ≠ "__proto__") :
    getOwn (setProp o key v) key = some v := by
  unfold setProp
  cases hown : getOwn o key with
  | none => simp [h, getOwn_append_same v hown]
  | some w => simp [getOwn_replaceOwn_same v hown]

/-- The write `o[key] = v` leaves every other own property as it was. -/
theorem getOwn_setProp_other (o : JSObj) {key k : String} (v : JSVal) (h : k ≠ key) :
    getOwn (setProp o key v) k = getOwn o k := by
  unfold setProp
  cases hown : getOwn o key with
  | none =>
    by_cases hp : key = "__proto__"
    · simp [hp]
    · simp [hp, getOwn_append_other v h]
  | some w => simp [getOwn_replaceOwn_other v h]

/-! ## Lemmas on the steps of `buildUpdatePayloadData` -/

theorem copyAdditionalFields_nil (item d : JSObj) (b : Bool) :
    copyAdditionalFields item [] d b = (d, b) := rfl

theorem copyAdditionalFields_cons (item : JSObj) (f : String) (rest : List String) (d : JSObj)
    (b : Bool) :
    copyAdditionalFields item (f :: rest) d b =
      if getProp item f ≠ JSVal.undefined then
        copyAdditionalFields item rest (setProp d f (getProp item f)) true
      else copyAdditionalFields item rest d b := by
  unfold copyAdditionalFields
  simp only [List.foldl_cons]
  split <;> rfl

theorem copyAdditionalFields_flag (item : JSObj) (fields : List String) (d : JSObj) (b : Bool) :
    (copyAdditionalFields item fields d b).2 =
      (b || fields.any (fun f => decide (getProp item f ≠ JSVal.undefined))) := by
  induction fields generalizing d b with
  | nil => simp [copyAdditionalFields_nil]
  | cons f rest ih =>
    rw [copyAdditionalFields_cons]
    by_cases hf : getProp item f ≠ JSVal.undefined
    · rw [if_pos hf, ih]
      simp [hf]
    · rw [if_neg hf, ih]
      have hf2 : getProp item f = JSVal.undefined := not_not.mp hf
      simp [hf2]

theorem copyAdditionalFields_none (item : JSObj) (fields : List String) (d : JSObj) (b : Bool)
    (h : fields.any (fun f => decide (getProp item f ≠ JSVal.undefined)) = false) :
    (copyAdditionalFields item fields d b).1 = d := by
  induction fields generalizing d b with
  | nil => rfl
  | cons f rest ih =>
    simp only [List.any_cons, Bool.or_eq_false_iff, decide_eq_false_iff_not] at h
    rw [copyAdditionalFields_cons, if_neg h.1]
    exact ih d b h.2

/-- The loop leaves the own property `k` as it was when it either does not
write `k` or writes the value `k` already has. -/
theorem copyAdditionalFields_getOwn_stable (item : JSObj) (fields : List String) (k : String)
    (d : JSObj) (b : Bool)
    (h : k ∈ fields → getProp item k ≠ JSVal.undefined →
      k ≠ "__proto__" ∧ getOwn d k = some (getProp item k)) :
    getOwn (copyAdditionalFields item fields d b).1 k = getOwn d k := by
  induction fields generalizing d b with
  | nil => rfl
  | cons f rest ih =>
    rw [copyAdditionalFields_cons]
    by_cases hf : getProp item f ≠ JSVal.undefined
    · rw [if_pos hf]
      by_cases hfk : k = f
      · subst hfk
        obtain ⟨hp, hd⟩ := h (List.mem_cons_self _ _) hf
        have hset : getOwn (setProp d k (getProp item k)) k = getOwn d k := by
          rw [getOwn_setProp_same d _ hp, hd]
        rw [ih _ true (fun _ _ => ⟨hp, by rw [hset]; exact hd⟩), hset]
      · have hset : getOwn (setProp d f (getProp item f)) k = getOwn d k :=
          getOwn_setProp_other d _ hfk
        rw [ih _ true (fun hk hv => by
          rw [hset]; exact h (List.mem_cons_of_mem _ hk) hv), hset]
    · rw [if_neg hf]
      by_cases hfk : k = f
      · subst hfk
        exact ih d b (fun _ hv => absurd hv hf)
      · exact ih d b (fun hk hv => h (List.mem_cons_of_mem _ hk) hv)

/-- Every listed field other than `__proto__` that reads as a value other than
`undefined` on the instruction is an own property of the result, with that
value. -/
theorem copyAdditionalFields_getOwn_copied (item : JSObj) (fields : List String) (f : String)
    (d : JSObj) (b : Bool) (hf : f ∈ fields) (hv : getProp item f ≠ JSVal.undefined)
    (hp : f ≠ "__proto__") :
    getOwn (copyAdditionalFields item fields d b).1 f = some (getProp item f) := by
  induction fields generalizing d b with
  | nil => cases hf
  | cons g rest ih =>
    rw [copyAdditionalFields_cons]
    by_cases hrest : f ∈ rest
    · split
      · exact ih _ _ hrest
      · exact ih _ _ hrest
    · have hg : f = g := by
        rcases List.mem_cons.1 hf with h | h
        · exact h
        · exact absurd h hrest
      subst hg
      rw [if_pos hv, copyAdditionalFields_getOwn_stable item rest f _ true
        (fun hk _ => absurd hk hrest)]
      exact getOwn_setProp_same d _ hp

/-- A key of the result of the loop was a key before it, or is a listed field
that reads as a value other than `undefined` on the instruction. -/
theorem mem_keysOf_copy_present {item : JSObj} {fields : List String} {d : JSObj} {b : Bool}
    {x : String} (hx : x ∈ keysOf (copyAdditionalFields item fields d b).1) :
    x ∈ keysOf d ∨ (x ∈ fields ∧ getProp item x ≠ JSVal.undefined) := by
  induction fields generalizing d b with
  | nil => exact Or.inl hx
  | cons f rest ih =>
    rw [copyAdditionalFields_cons] at hx
    by_cases hf : getProp item f ≠ JSVal.undefined
    · rw [if_pos hf] at hx
      rcases ih hx with h | h
      · rcases mem_keysOf_setProp h with h2 | h2
        · exact Or.inr ⟨h2 ▸ List.mem_cons_self _ _, h2 ▸ hf⟩
        · exact Or.inl h2
      · exact Or.inr ⟨List.mem_cons_of_mem _ h.1, h.2⟩
    · rw [if_neg hf] at hx
      rcases ih hx with h | h
      · exact Or.inl h
      · exact Or.inr ⟨List.mem_cons_of_mem _ h.1, h.2⟩

theorem titleStep_flag (item : JSObj) (can : Bool) :
    (titleStep item can).2 = (can && decide (getProp item "title" ≠ JSVal.undefined)) := by
  unfold titleStep
  split <;> simp_all

theorem bodyStep_flag (item config : JSObj) (dflt : String) (can : Bool) (st : JSObj × Bool) :
    (bodyStep item config dflt can st).2 =
      (st.2 || (can && decide (getProp item "body" ≠ JSVal.undefined))) := by
  unfold bodyStep
  split <;> simp_all

theorem stateStep_flag (item : JSObj) (acc : Bool) (st : JSObj × Bool) :
    (stateStep item acc st).2 =
      (st.2 || (decide (getProp item "state" ≠ JSVal.undefined) ||
        (acc && decide (getProp item "status" ≠ JSVal.undefined)))) := by
  unfold stateStep
  split
  · simp_all
  · split <;> simp_all

/-- The function in terms of the state reached before its final test. -/
theorem buildUpdatePayloadData_eq (item config : JSObj) (pc : BuildPayloadConfig) :
    buildUpdatePayloadData item config pc =
      if (pc.requireUpdates.getD false && !(payloadState item config pc).2) = true then skipResult
      else { success := true, data := some (payloadState item config pc).1 } := rfl

/-- The flag `hasUpdates` is set exactly when some step copies. -/
theorem payloadState_flag (item config : JSObj) (pc : BuildPayloadConfig) :
    (payloadState item config pc).2 = anyCopied item config pc := by
  unfold payloadState anyCopied titleCopied bodyCopied stateCopied additionalCopied
  rw [copyAdditionalFields_flag, stateStep_flag, bodyStep_flag, titleStep_flag]

theorem titleStep_getOwn_title (item : JSObj) {can : Bool} (hcan : can = true)
    (ht : getProp item "title" ≠ JSVal.undefined) :
    getOwn (titleStep item can).1 "title" = some (getProp item "title") := by
  unfold titleStep
  simp only [hcan, ht, ne_eq, not_false_eq_true, decide_True, Bool.and_self, if_true]
  exact getOwn_setProp_same [] _ (by decide)

theorem titleStep_none (item : JSObj) {can : Bool}
    (h : (can && decide (getProp item "title" ≠ JSVal.undefined)) = false) :
    titleStep item can = ([], false) := by
  unfold titleStep
  rw [h]
  rfl

theorem bodyStep_none (item config : JSObj) (dflt : String) {can : Bool} (st : JSObj × Bool)
    (h : (can && decide (getProp item "body" ≠ JSVal.undefined)) = false) :
    bodyStep item config dflt can st = st := by
  unfold bodyStep
  rw [h]
  rfl

theorem bodyStep_getOwn_rawBody (item config : JSObj) (dflt : String) {can : Bool}
    (st : JSObj × Bool) (hcan : can = true) (hb : getProp item "body" ≠ JSVal.undefined) :
    getOwn (bodyStep item config dflt can st).1 "_rawBody" = some (getProp item "body") := by
  unfold bodyStep
  simp only [hcan, hb, ne_eq, not_false_eq_true, decide_True, Bool.and_self, if_true]
  exact getOwn_setProp_same _ _ (by decide)

theorem bodyStep_getOwn_operation (item config : JSObj) (dflt : String) {can : Bool}
    (st : JSObj × Bool) (hcan : can = true) (hb : getProp item "body" ≠ JSVal.undefined) :
    getOwn (bodyStep item config dflt can st).1 "_operation" =
      some (((getProp item "operation").or (getProp config "default_operation")).or
        (JSVal.str dflt)) := by
  unfold bodyStep
  simp only [hcan, hb, ne_eq, not_false_eq_true, decide_True, Bool.and_self, if_true]
  rw [getOwn_setProp_other _ _ (by decide : "_operation" ≠ "_rawBody")]
  exact getOwn_setProp_same _ _ (by decide)

theorem bodyStep_getOwn_other (item config : JSObj) (dflt : String) (can : Bool)
    (st : JSObj × Bool) {k : String} (h1 : k ≠ "_operation") (h2 : k ≠ "_rawBody") :
    getOwn (bodyStep item config dflt can st).1 k = getOwn st.1 k := by
  unfold bodyStep
  split
  · simp only
    rw [getOwn_setProp_other _ _ h2, getOwn_setProp_other _ _ h1]
  · rfl

theorem stateStep_none (item : JSObj) {acc : Bool} (st : JSObj × Bool)
    (hs : getProp item "state" = JSVal.undefined)
    (h : (acc && decide (getProp item "status" ≠ JSVal.undefined)) = false) :
    stateStep item acc st = st := by
  unfold stateStep
  rw [h]
  simp [hs]

theorem stateStep_getOwn_state (item : JSObj) (acc : Bool) (st : JSObj × Bool)
    (hs : getProp item "state" ≠ JSVal.undefined) :
    getOwn (stateStep item acc st).1 "state" = some (getProp item "state") := by
  unfold stateStep
  rw [if_pos hs]
  exact getOwn_setProp_same _ _ (by decide)

theorem stateStep_getOwn_status (item : JSObj) {acc : Bool} (st : JSObj × Bool)
    (hs : getProp item "state" = JSVal.undefined) (hacc : acc = true)
    (hst : getProp item "status" ≠ JSVal.undefined) :
    getOwn (stateStep item acc st).1 "state" = some (getProp item "status") := by
  unfold stateStep
  simp only [hs, ne_eq, not_true_eq_false, if_false, hacc, hst, not_false_eq_true, decide_True,
    Bool.and_self, if_true]
  exact getOwn_setProp_same _ _ (by decide)

theorem stateStep_getOwn_other (item : JSObj) (acc : Bool) (st : JSObj × Bool) {k : String}
    (h : k ≠ "state") : getOwn (stateStep item acc st).1 k = getOwn st.1 k := by
  unfold stateStep
  split
  · exact getOwn_setProp_other _ _ h
  · split
    · exact getOwn_setProp_other _ _ h
    · rfl

/-- When no step copies, `updateData` is still the empty object. -/
theorem payloadState_nothing (item config : JSObj) (pc : BuildPayloadConfig)
    (h : anyCopied item config pc = false) : (payloadState item config pc).1 = [] := by
  unfold anyCopied at h
  simp only [Bool.or_eq_false_iff] at h
  obtain ⟨⟨⟨ht, hb⟩, hs⟩, ha⟩ := h
  unfold stateCopied at hs
  simp only [Bool.or_eq_false_iff, decide_eq_false_iff_not, not_not] at hs
  unfold payloadState
  rw [titleStep_none item ht, bodyStep_none item config _ _ hb, stateStep_none item _ hs.1 hs.2]
  exact copyAdditionalFields_none item _ [] false ha

/-- The result when some step copies: a payload. -/
theorem buildUpdatePayloadData_copied (item config : JSObj) (pc : BuildPayloadConfig)
    (h : anyCopied item config pc = true) :
    buildUpdatePayloadData item config pc =
      { success := true, data := some (payloadState item config pc).1 } := by
  rw [buildUpdatePayloadData_eq, payloadState_flag, h]
  simp

theorem or_or_eq_of_firstNonEmpty (a b c : JSVal) :
    (∀ v, firstNonEmpty [a, b, c] = some v → (a.or b).or c = v) ∧
    (firstNonEmpty [a, b, c] = none → (a.or b).or c = c) := by
  unfold firstNonEmpty JSVal.or
  cases ha : a.truthy <;> cases hb : b.truthy <;> cases hc : c.truthy <;>
    simp [List.find?, ha, hb, hc]

theorem bodyAllowed_of (config : JSObj) (pc : BuildPayloadConfig)
    (h : (pc.allowBody = none ∨ pc.allowBody = some true) ∧
      getProp config "allow_body" ≠ JSVal.bool false) : bodyAllowed config pc = true := by
  unfold bodyAllowed
  rcases h with ⟨h1 | h1, h2⟩ <;> simp [h1, h2]

theorem titleAllowed_of (config : JSObj) (pc : BuildPayloadConfig)
    (h : (pc.allowTitle = none ∨ pc.allowTitle = some true) ∧
      getProp config "allow_title" ≠ JSVal.bool false) : titleAllowed config pc = true := by
  unfold titleAllowed
  rcases h with ⟨h1 | h1, h2⟩ <;> simp [h1, h2]

/-! ## Further properties of `buildUpdatePayloadData` -/

/-- C11. When the instruction carries a body, body is allowed and
`additionalFields` names neither `_operation` nor `_rawBody`, the result is a
payload with `_rawBody = item.body` and with `_operation` the first non-empty
value among `item.operation`, `config.default_operation` and
`payloadConfig.defaultOperation`; an unspecified `defaultOperation` counts as
`append`, so that such a value exists. -/
theorem payload_body_and_operation (item config : JSObj) (pc : BuildPayloadConfig)
    (hbody : getProp item "body" ≠ JSVal.undefined)
    (hallow : (pc.allowBody = none ∨ pc.allowBody = some true) ∧
      getProp config "allow_body" ≠ JSVal.bool false)
    (hop : "_operation" ∉ pc.additionalFields.getD [])
    (hraw : "_rawBody" ∉ pc.additionalFields.getD []) :
    ∃ d, buildUpdatePayloadData item config pc = { success := true, data := some d } ∧
      getOwn d "_rawBody" = some (getProp item "body") ∧
      (∀ v, firstNonEmpty [getProp item "operation", getProp config "default_operation",
          JSVal.str (pc.defaultOperation.getD "append")] = some v →
        getOwn d "_operation" = some v) ∧
      (firstNonEmpty [getProp item "operation", getProp config "default_operation",
          JSVal.str (pc.defaultOperation.getD "append")] = none →
        getOwn d "_operation" = some (JSVal.str (pc.defaultOperation.getD "append"))) ∧
      (pc.defaultOperation = none →
        ∃ v, firstNonEmpty [getProp item "operation", getProp config "default_operation",
          JSVal.str "append"] = some v ∧ getOwn d "_operation" = some v) := by
  have hcan := bodyAllowed_of config pc hallow
  have hany : anyCopied item config pc = true := by
    simp [anyCopied, bodyCopied, hcan, hbody]
  have hopv : getOwn (payloadState item config pc).1 "_operation" =
      some (((getProp item "operation").or (getProp config "default_operation")).or
        (JSVal.str (pc.defaultOperation.getD "append"))) := by
    unfold payloadState
    rw [copyAdditionalFields_getOwn_stable item _ "_operation" _ _ (fun hk _ => absurd hk hop),
      stateStep_getOwn_other item _ _ (by decide),
      bodyStep_getOwn_operation item config _ _ hcan hbody]
  have hspec := or_or_eq_of_firstNonEmpty (getProp item "operation")
    (getProp config "default_operation") (JSVal.str (pc.defaultOperation.getD "append"))
  refine ⟨_, buildUpdatePayloadData_copied item config pc hany, ?_, ?_, ?_, ?_⟩
  · unfold payloadState
    rw [copyAdditionalFields_getOwn_stable item _ "_rawBody" _ _ (fun hk _ => absurd hk hraw),
      stateStep_getOwn_other item _ _ (by decide),
      bodyStep_getOwn_rawBody item config _ _ hcan hbody]
  · intro v hv
    rw [hopv, hspec.1 v hv]
  · intro hnone
    rw [hopv, hspec.2 hnone]
  · intro hd
    rw [hd] at hopv hspec
    simp only [Option.getD_none] at hopv hspec
    cases hf : firstNonEmpty [getProp item "operation", getProp config "default_operation",
        JSVal.str "append"] with
    | none =>
      exfalso
      unfold firstNonEmpty at hf
      have := List.find?_eq_none.1 hf (JSVal.str "append") (by simp)
      exact this (by decide)
    | some v => exact ⟨v, rfl, by rw [hopv, hspec.1 v hf]⟩

/-- Witness for C11: the toggle gives `replace-island`, the instruction gives
no operation. -/
theorem payload_body_and_operation_witness :
    ∃ d, buildUpdatePayloadData [("body", JSVal.str "B")]
        [("default_operation", JSVal.str "replace-island")] { defaultOperation := some "append" }
        = { success := true, data := some d } ∧
      getOwn d "_rawBody" = some (getProp [("body", JSVal.str "B")] "body") ∧
      (∀ v, firstNonEmpty [getProp [("body", JSVal.str "B")] "operation",
          getProp [("default_operation", JSVal.str "replace-island")] "default_operation",
          JSVal.str ((some "append" : Option String).getD "append")] = some v →
        getOwn d "_operation" = some v) ∧
      (firstNonEmpty [getProp [("body", JSVal.str "B")] "operation",
          getProp [("default_operation", JSVal.str "replace-island")] "default_operation",
          JSVal.str ((some "append" : Option String).getD "append")] = none →
        getOwn d "_operation" =
          some (JSVal.str ((some "append" : Option String).getD "append"))) ∧
      ((some "append" : Option String) = none →
        ∃ v, firstNonEmpty [getProp [("body", JSVal.str "B")] "operation",
          getProp [("default_operation", JSVal.str "replace-island")] "default_operation",
          JSVal.str "append"] = some v ∧ getOwn d "_operation" = some v) :=
  payload_body_and_operation [("body", JSVal.str "B")]
    [("default_operation", JSVal.str "replace-island")] { defaultOperation := some "append" }
    (by decide) (by decide) (by decide) (by decide)

/-- C12. When the instruction carries `state`, the result is a payload, never
a skip, whose `state` is `item.state`, whatever the toggles, the payload
configuration and the `status` of the instruction are. -/
theorem payload_state_from_item (item config : JSObj) (pc : BuildPayloadConfig)
    (hstate : getProp item "state" ≠ JSVal.undefined) :
    ∃ d, buildUpdatePayloadData item config pc = { success := true, data := some d } ∧
      getOwn d "state" = some (getProp item "state") := by
  have hany : anyCopied item config pc = true := by
    simp [anyCopied, stateCopied, hstate]
  refine ⟨_, buildUpdatePayloadData_copied item config pc hany, ?_⟩
  unfold payloadState
  rw [copyAdditionalFields_getOwn_stable item _ "state" _ _
    (fun _ _ => ⟨by decide, stateStep_getOwn_state item _ _ hstate⟩)]
  exact stateStep_getOwn_state item _ _ hstate

/-- Witness for C12: state and status both present, title and body switched
off, `requireUpdates` set. -/
theorem payload_state_from_item_witness :
    ∃ d, buildUpdatePayloadData [("state", JSVal.str "open"), ("status", JSVal.str "closed")]
        [("allow_title", JSVal.bool false), ("allow_body", JSVal.bool false)]
        { acceptStateAndStatus := some true, requireUpdates := some true }
        = { success := true, data := some d } ∧
      getOwn d "state" =
        some (getProp [("state", JSVal.str "open"), ("status", JSVal.str "closed")] "state") :=
  payload_state_from_item [("state", JSVal.str "open"), ("status", JSVal.str "closed")]
    [("allow_title", JSVal.bool false), ("allow_body", JSVal.bool false)]
    { acceptStateAndStatus := some true, requireUpdates := some true } (by decide)

/-- C13. The result is the skip result exactly when `requireUpdates` is true
and no step copied a title, a body, a state or status, or an additional field.
When `requireUpdates` is false or unspecified the result is a payload, and the
payload is empty when nothing was copied. -/
theorem skip_iff_nothing_copied (item config : JSObj) (pc : BuildPayloadConfig) :
    (buildUpdatePayloadData item config pc = skipResult ↔
      (pc.requireUpdates = some true ∧ anyCopied item config pc = false)) ∧
    (buildUpdatePayloadData item config pc ≠ skipResult →
      ∃ d, buildUpdatePayloadData item config pc = { success := true, data := some d }) ∧
    (pc.requireUpdates ≠ some true →
      ∃ d, buildUpdatePayloadData item config pc = { success := true, data := some d } ∧
        (anyCopied item config pc = false → d = [])) := by
  have hne : ∀ d : JSObj, ({ success := true, data := some d } : UpdateResult) ≠ skipResult := by
    intro d h
    have := congrArg UpdateResult.data h
    simp [skipResult] at this
  rw [buildUpdatePayloadData_eq, payloadState_flag]
  by_cases hreq : pc.requireUpdates = some true
  · cases hany : anyCopied item config pc
    · simp [hreq]
    · simp [hreq, hne]
  · have hfalse : pc.requireUpdates.getD false = false := by
      cases hr : pc.requireUpdates with
      | none => rfl
      | some b =>
        cases b
        · rfl
        · exact absurd hr hreq
    simp only [hfalse, Bool.false_and, Bool.false_eq_true, if_false]
    refine ⟨⟨fun h => absurd h (hne _), fun h => absurd h.1 hreq⟩, fun _ => ⟨_, rfl⟩,
      fun _ => ⟨_, rfl, fun h => payloadState_nothing item config pc h⟩⟩

/-- C14. When the instruction carries a title and title is allowed, the result
is a payload, also with `requireUpdates` set, whose `title` is `item.title`. -/
theorem payload_title_copied (item config : JSObj) (pc : BuildPayloadConfig)
    (htitle : getProp item "title" ≠ JSVal.undefined)
    (hallow : (pc.allowTitle = none ∨ pc.allowTitle = some true) ∧
      getProp config "allow_title" ≠ JSVal.bool false) :
    ∃ d, buildUpdatePayloadData item config pc = { success := true, data := some d } ∧
      getOwn d "title" = some (getProp item "title") := by
  have hcan := titleAllowed_of config pc hallow
  have hany : anyCopied item config pc = true := by
    simp [anyCopied, titleCopied, hcan, htitle]
  have h0 : getOwn (stateStep item (pc.acceptStateAndStatus.getD false)
      (bodyStep item config (pc.defaultOperation.getD "append") (bodyAllowed config pc)
        (titleStep item (titleAllowed config pc)))).1 "title" = some (getProp item "title") := by
    rw [stateStep_getOwn_other item _ _ (by decide),
      bodyStep_getOwn_other item config _ _ _ (by decide) (by decide)]
    exact titleStep_getOwn_title item hcan htitle
  refine ⟨_, buildUpdatePayloadData_copied item config pc hany, ?_⟩
  unfold payloadState
  rw [copyAdditionalFields_getOwn_stable item _ "title" _ _ (fun _ _ => ⟨by decide, h0⟩)]
  exact h0

/-- Witness for C14: a title alone, with `requireUpdates` set. -/
theorem payload_title_copied_witness :
    ∃ d, buildUpdatePayloadData [("title", JSVal.str "New Title")] []
        { requireUpdates := some true } = { success := true, data := some d } ∧
      getOwn d "title" = some (getProp [("title", JSVal.str "New Title")] "title") :=
  payload_title_copied [("title", JSVal.str "New Title")] [] { requireUpdates := some true }
    (by decide) (by decide)

/-- Witness for C13: an empty instruction with `requireUpdates` set is
skipped. -/
theorem skip_iff_nothing_copied_witness :
    buildUpdatePayloadData [] [] { requireUpdates := some true } = skipResult :=
  (skip_iff_nothing_copied [] [] { requireUpdates := some true }).1.2 (by decide)

/-- C15. For an instruction without `state`: when `acceptStateAndStatus` is
true and the instruction carries `status`, the result is a payload whose
`state` is `item.status`; otherwise the state step copies nothing, no returned
payload has a `state` key, and when no other step copies either the result is
the skip result under `requireUpdates` and the empty payload without it. -/
theorem payload_state_from_status (item config : JSObj) (pc : BuildPayloadConfig)
    (hno : getProp item "state" = JSVal.undefined) :
    (pc.acceptStateAndStatus = some true → getProp item "status" ≠ JSVal.undefined →
      ∃ d, buildUpdatePayloadData item config pc = { success := true, data := some d } ∧
        getOwn d "state" = some (getProp item "status")) ∧
    (¬ (pc.acceptStateAndStatus = some true ∧ getProp item "status" ≠ JSVal.undefined) →
      stateCopied item pc = false ∧
      (∀ d, (buildUpdatePayloadData item config pc).data = some d → "state" ∉ keysOf d) ∧
      (titleCopied item config pc = false → bodyCopied item config pc = false →
        additionalCopied item pc = false →
        buildUpdatePayloadData item config pc =
          if pc.requireUpdates = some true then skipResult
          else { success := true, data := some [] })) := by
  constructor
  · intro hacc hst
    have hany : anyCopied item config pc = true := by
      simp [anyCopied, stateCopied, hacc, hst]
    have h0 : getOwn (stateStep item (pc.acceptStateAndStatus.getD false)
        (bodyStep item config (pc.defaultOperation.getD "append") (bodyAllowed config pc)
          (titleStep item (titleAllowed config pc)))).1 "state" =
        some (getProp item "status") :=
      stateStep_getOwn_status item _ hno (by rw [hacc]; rfl) hst
    refine ⟨_, buildUpdatePayloadData_copied item config pc hany, ?_⟩
    unfold payloadState
    rw [copyAdditionalFields_getOwn_stable item _ "state" _ _ (fun _ hv => absurd hno hv)]
    exact h0
  · intro hnot
    have hstep : (pc.acceptStateAndStatus.getD false &&
        decide (getProp item "status" ≠ JSVal.undefined)) = false := by
      cases hacc : pc.acceptStateAndStatus with
      | none => rfl
      | some b =>
        cases b
        · rfl
        · have : ¬ getProp item "status" ≠ JSVal.undefined := fun h => hnot ⟨hacc, h⟩
          simp [this]
    have hsc : stateCopied item pc = false := by
      unfold stateCopied
      rw [hstep]
      simp [hno]
    refine ⟨hsc, ?_, ?_⟩
    · intro d hd hx
      rw [buildUpdatePayloadData_eq] at hd
      split at hd
      · simp [skipResult] at hd
      · simp only [Option.some.injEq] at hd
        subst hd
        unfold payloadState at hx
        rcases mem_keysOf_copy_present hx with h | h
        · rw [stateStep_none item _ hno hstep] at h
          rcases mem_keysOf_bodyStep h with h2 | h2
          · exact absurd (mem_keysOf_titleStep h2).1 (by decide)
          · rcases h2.1 with h3 | h3 <;> exact absurd h3 (by decide)
        · exact h.2 hno
    · intro ht hb ha
      have hany : anyCopied item config pc = false := by
        simp [anyCopied, ht, hb, hsc, ha]
      rw [buildUpdatePayloadData_eq, payloadState_flag, hany,
        payloadState_nothing item config pc hany]
      cases hr : pc.requireUpdates with
      | none => simp
      | some b => cases b <;> simp

/-- Witness for C15: only `status` on the instruction and `requireUpdates`
set. -/
theorem payload_state_from_status_witness :
    buildUpdatePayloadData [("status", JSVal.str "closed")] [] { requireUpdates := some true } =
      skipResult :=
  ((payload_state_from_status [("status", JSVal.str "closed")] []
    { requireUpdates := some true } (by decide)).2 (by decide)).2.2
    (by decide) (by decide) (by decide)

/-- C16 (code defect). A listed field that the instruction does not carry can
still become a key of the payload: `constructor` on the empty instruction
reads as the member inherited from `Object.prototype` and is copied.  And a
listed field that the instruction does carry can fail to be copied: the own
property `__proto__` of a parsed instruction counts as an update, yet the
payload stays empty. -/
theorem payload_copies_inherited_member :
    getOwn ([] : JSObj) "constructor" = none ∧
    buildUpdatePayloadData [] [] { additionalFields := some ["constructor"] } =
      { success := true, data := some [("constructor", JSVal.builtin "constructor")] } ∧
    getOwn [("__proto__", JSVal.str "x")] "__proto__" = some (JSVal.str "x") ∧
    buildUpdatePayloadData [("__proto__", JSVal.str "x")] []
        { additionalFields := some ["__proto__"], requireUpdates := some true } =
      { success := true, data := some [] } := by
  decide

/-- Every listed field other than `__proto__` that reads as a value other
than `undefined` on the instruction is copied with that value, and the result
is a payload. -/
theorem payload_additional_copied (item config : JSObj) (pc : BuildPayloadConfig) (f : String)
    (hf : f ∈ pc.additionalFields.getD []) (hv : getProp item f ≠ JSVal.undefined)
    (hp : f ≠ "__proto__") :
    ∃ d, buildUpdatePayloadData item config pc = { success := true, data := some d } ∧
      getOwn d f = some (getProp item f) := by
  have hany : anyCopied item config pc = true := by
    have : additionalCopied item pc = true := by
      unfold additionalCopied
      exact List.any_eq_true.2 ⟨f, hf, by simp [hv]⟩
    simp [anyCopied, this]
  exact ⟨_, buildUpdatePayloadData_copied item config pc hany,
    copyAdditionalFields_getOwn_copied item _ f _ _ hf hv hp⟩

/-- A field that reads as `undefined` on the instruction and is none of
`title`, `state`, `_operation`, `_rawBody` is not a key of the payload. -/
theorem payload_additional_absent (item config : JSObj) (pc : BuildPayloadConfig) (f : String)
    (hv : getProp item f = JSVal.undefined)
    (hnames : f ≠ "title" ∧ f ≠ "state" ∧ f ≠ "_operation" ∧ f ≠ "_rawBody")
    (d : JSObj) (hd : (buildUpdatePayloadData item config pc).data = some d) :
    f ∉ keysOf d := by
  intro hx
  rw [buildUpdatePayloadData_eq] at hd
  split at hd
  · simp [skipResult] at hd
  · simp only [Option.some.injEq] at hd
    subst hd
    unfold payloadState at hx
    rcases mem_keysOf_copy_present hx with h | h
    · rcases mem_keysOf_stateStep h with h2 | h2
      · rcases mem_keysOf_bodyStep h2 with h3 | h3
        · exact hnames.1 (mem_keysOf_titleStep h3).1
        · rcases h3.1 with h4 | h4
          · exact hnames.2.2.1 h4
          · exact hnames.2.2.2 h4
      · exact hnames.2.1 h2
    · exact h.2 hv

theorem copyAdditionalFields_congr (item1 item2 : JSObj) (fields : List String) (d : JSObj)
    (b : Bool) (h : ∀ f ∈ fields, getProp item1 f = getProp item2 f) :
    copyAdditionalFields item1 fields d b = copyAdditionalFields item2 fields d b := by
  induction fields generalizing d b with
  | nil => rfl
  | cons f rest ih =>
    rw [copyAdditionalFields_cons, copyAdditionalFields_cons, h f (List.mem_cons_self _ _)]
    have hrest : ∀ g ∈ rest, getProp item1 g = getProp item2 g :=
      fun g hg => h g (List.mem_cons_of_mem _ hg)
    rw [ih _ _ hrest, ih _ _ hrest]

/-- The state before the final test depends on the instruction only through
the reads of `title`, `body`, `operation`, `state`, `status` and of the fields
listed in `additionalFields`. -/
theorem payloadState_congr (item1 item2 config : JSObj) (pc : BuildPayloadConfig)
    (h : ∀ k ∈ ["title", "body", "operation", "state", "status"] ++ pc.additionalFields.getD [],
      getProp item1 k = getProp item2 k) :
    payloadState item1 config pc = payloadState item2 config pc := by
  have ht := h "title" (by simp)
  have hb := h "body" (by simp)
  have ho := h "operation" (by simp)
  have hs := h "state" (by simp)
  have hu := h "status" (by simp)
  have hf : ∀ f ∈ pc.additionalFields.getD [], getProp item1 f = getProp item2 f :=
    fun f hf => h f (List.mem_append_right _ hf)
  unfold payloadState
  rw [copyAdditionalFields_congr item1 item2 _ _ _ hf]
  unfold stateStep bodyStep titleStep
  rw [ht, hb, ho, hs, hu]

/-- C17. Every key of a returned payload is `title`, `_operation`, `_rawBody`,
`state` or a member of `additionalFields`; and two instructions that agree on
`title`, `body`, `operation`, `state`, `status` and on every field named in
`additionalFields` give equal results. -/
theorem payload_depends_on_named_fields (item1 item2 config : JSObj) (pc : BuildPayloadConfig)
    (h : ∀ k ∈ ["title", "body", "operation", "state", "status"] ++ pc.additionalFields.getD [],
      getProp item1 k = getProp item2 k) :
    buildUpdatePayloadData item1 config pc = buildUpdatePayloadData item2 config pc ∧
    ∀ d, (buildUpdatePayloadData item1 config pc).data = some d → ∀ x ∈ keysOf d,
      x ∈ ["title", "_operation", "_rawBody", "state"] ++ pc.additionalFields.getD [] := by
  constructor
  · rw [buildUpdatePayloadData_eq, buildUpdatePayloadData_eq,
      payloadState_congr item1 item2 config pc h]
  · intro d hd x hx
    rcases mem_keysOf_payload hd hx with h1 | h1 | h1 | h1
    · simp [h1.1]
    · rcases h1.1 with h2 | h2 <;> simp [h2]
    · simp [h1]
    · exact List.mem_append_right _ h1

/-- Witness for C17: an extra key `note` on the instruction changes nothing. -/
theorem payload_depends_on_named_fields_witness :
    buildUpdatePayloadData
        [("title", JSVal.str "T"), ("note", JSVal.str "x"), ("labels", JSVal.ref 1)] []
        { additionalFields := some ["labels"] } =
      buildUpdatePayloadData [("title", JSVal.str "T"), ("labels", JSVal.ref 1)] []
        { additionalFields := some ["labels"] } ∧
    ∀ d, (buildUpdatePayloadData
        [("title", JSVal.str "T"), ("note", JSVal.str "x"), ("labels", JSVal.ref 1)] []
        { additionalFields := some ["labels"] }).data = some d → ∀ x ∈ keysOf d,
      x ∈ ["title", "_operation", "_rawBody", "state"] ++
        (some ["labels"] : Option (List String)).getD [] :=
  payload_depends_on_named_fields
    [("title", JSVal.str "T"), ("note", JSVal.str "x"), ("labels", JSVal.ref 1)]
    [("title", JSVal.str "T"), ("labels", JSVal.ref 1)] []
    { additionalFields := some ["labels"] } (by decide)

/-! ## Further properties of `mapScopesToPermissions` and of the registry -/

theorem applyScope_inert (P : JSObj) {s : String} (h : inertScope s = true) :
    applyScope P s = P := by
  unfold applyScope
  split <;> first | rfl | (exfalso; revert h; decide)

theorem foldl_applyScope_filter (S : List String) (P : JSObj) :
    (S.filter (fun s => !inertScope s)).foldl applyScope P = S.foldl applyScope P := by
  induction S generalizing P with
  | nil => rfl
  | cons s rest ih =>
    cases hs : inertScope s
    · simp only [List.filter_cons, hs, Bool.not_false, if_true, List.foldl_cons]
      exact ih _
    · simp only [List.filter_cons, hs, Bool.not_true, Bool.false_eq_true, if_false,
        List.foldl_cons, applyScope_inert P hs]
      exact ih _

theorem keysOf_permsOf (a b c d e : JSVal) : keysOf (permsOf a b c d e) = categories := rfl

/-- C18. The map of a single scope: contents, issues and pull_requests at
write for `repo` and for `public_repo`; contents at read for `repo:status` and
`repo_deployment`; discussions at write for `write:discussion` and at read for
`read:discussion`; projects at write for `project` and at read for
`read:project`; every category at none for any other string. -/
theorem mapScopes_single (s : String) :
    mapScopesToPermissions [s] =
      if s = "repo" ∨ s = "public_repo" then
        permsOf (.str "write") (.str "write") (.str "write") (.str "none") (.str "none")
      else if s = "repo:status" ∨ s = "repo_deployment" then
        permsOf (.str "read") (.str "none") (.str "none") (.str "none") (.str "none")
      else if s = "write:discussion" then
        permsOf (.str "none") (.str "none") (.str "none") (.str "write") (.str "none")
      else if s = "read:discussion" then
        permsOf (.str "none") (.str "none") (.str "none") (.str "read") (.str "none")
      else if s = "project" then
        permsOf (.str "none") (.str "none") (.str "none") (.str "none") (.str "write")
      else if s = "read:project" then
        permsOf (.str "none") (.str "none") (.str "none") (.str "none") (.str "read")
      else
        permsOf (.str "none") (.str "none") (.str "none") (.str "none") (.str "none") := by
  by_cases h1 : s = "repo"
  · subst h1; decide
  by_cases h2 : s = "public_repo"
  · subst h2; decide
  by_cases h3 : s = "repo:status"
  · subst h3; decide
  by_cases h4 : s = "repo_deployment"
  · subst h4; decide
  by_cases h5 : s = "write:discussion"
  · subst h5; decide
  by_cases h6 : s = "read:discussion"
  · subst h6; decide
  by_cases h7 : s = "project"
  · subst h7; decide
  by_cases h8 : s = "read:project"
  · subst h8; decide
  rw [mapScopesToPermissions_eq]
  simp [levelAfterAll, levelAfter, scopeAssigns, h1, h2, h3, h4, h5, h6, h7, h8]

/-- C19. The function returns a map with the five categories for every list
of scopes; dropping every string that is unrecognised or is `repo:invite` or
`security_events` leaves the map unchanged; a list made only of such strings
maps every category to none. -/
theorem mapScopes_ignores_inert (S : List String) :
    keysOf (mapScopesToPermissions S) = categories ∧
    mapScopesToPermissions (S.filter (fun s => !inertScope s)) = mapScopesToPermissions S ∧
    ((∀ s ∈ S, inertScope s = true) →
      mapScopesToPermissions S =
        permsOf (.str "none") (.str "none") (.str "none") (.str "none") (.str "none")) := by
  refine ⟨?_, foldl_applyScope_filter S initialPermissions, fun h => ?_⟩
  · rw [mapScopesToPermissions_eq]
    rfl
  · have hnil : S.filter (fun s => !inertScope s) = [] := by
      rw [List.filter_eq_nil_iff]
      intro s hs
      simp [h s hs]
    have := foldl_applyScope_filter S initialPermissions
    rw [hnil] at this
    exact this.symm

/-- Witness for C19 on a list mixing inert and effective scopes. -/
theorem mapScopes_ignores_inert_witness :
    mapScopesToPermissions ["repo:invite", "repo", "gist", "security_events"] =
      mapScopesToPermissions ["repo"] :=
  (mapScopes_ignores_inert ["repo:invite", "repo", "gist", "security_events"]).2.1.symm

/-- C20. The registry holds exactly the 25 kinds of the table, with the listed
required facts, `requiresAny` for `add_comment` and `hide_comment` only, an
optional list (`issues:write`) for `update_project` only, and a non-empty
required list and a description in every entry. -/
theorem registry_matches_table :
    OPERATION_PERMISSIONS.map Prod.fst =
      ["create_issue", "update_issue", "close_issue", "add_comment", "hide_comment",
       "add_labels", "remove_labels", "assign_milestone", "assign_to_user", "assign_to_agent",
       "add_reviewer", "link_sub_issue", "create_pull_request", "update_pull_request",
       "close_pull_request", "mark_pull_request_as_ready_for_review", "create_discussion",
       "update_discussion", "close_discussion", "create_project", "update_project",
       "copy_project", "create_project_status_update", "update_release", "upload_assets"] ∧
    OPERATION_PERMISSIONS.length = 25 ∧
    (OPERATION_PERMISSIONS.map Prod.fst).Nodup ∧
    (∀ k ∈ ["create_issue", "update_issue", "close_issue", "add_labels", "remove_labels",
        "assign_milestone", "assign_to_user", "assign_to_agent", "link_sub_issue"],
      requirementOf k = some (["issues:write"], false, none)) ∧
    (∀ k ∈ ["add_comment", "hide_comment"],
      requirementOf k = some (["issues:write", "pull_requests:write"], true, none)) ∧
    (∀ k ∈ ["add_reviewer", "update_pull_request", "close_pull_request",
        "mark_pull_request_as_ready_for_review"],
      requirementOf k = some (["pull_requests:write"], false, none)) ∧
    requirementOf "create_pull_request" =
      some (["pull_requests:write", "contents:write"], false, none) ∧
    (∀ k ∈ ["create_discussion", "update_discussion", "close_discussion"],
      requirementOf k = some (["discussions:write"], false, none)) ∧
    (∀ k ∈ ["create_project", "copy_project", "create_project_status_update"],
      requirementOf k = some (["projects:write"], false, none)) ∧
    requirementOf "update_project" = some (["projects:write"], false, some ["issues:write"]) ∧
    (∀ k ∈ ["update_release", "upload_assets"],
      requirementOf k = some (["contents:write"], false, none)) ∧
    (∀ e ∈ OPERATION_PERMISSIONS, e.2.required ≠ [] ∧ e.2.description ≠ "") := by
  refine ⟨?_, ?_, ?_, ?_, ?_, ?_, ?_, ?_, ?_, ?_, ?_, ?_⟩ <;> decide

/-! ## Properties of the verdicts -/

/-- C21. Every verdict returned by `validateOperationPermissions` has `missing`
empty exactly when `valid` is true; a verdict is returned for every kind,
registered or not, that is no inherited member name. -/
theorem verdict_missing_empty_iff_valid (P : JSObj) (K : String) :
    (∀ v, validateOperationPermissions P K = .ok v → (v.missing = [] ↔ v.valid = true)) ∧
    (K ∉ objectPrototypeKeys →
      ∃ v, validateOperationPermissions P K = .ok v ∧ (v.missing = [] ↔ v.valid = true)) := by
  have hmain : ∀ v, validateOperationPermissions P K = .ok v →
      (v.missing = [] ↔ v.valid = true) := by
    intro v hv
    cases hown : registryOwn OPERATION_PERMISSIONS K with
    | none =>
      unfold validateOperationPermissions registryGet at hv
      rw [hown] at hv
      by_cases hp : K ∈ objectPrototypeKeys
      · simp [hp] at hv
      · simp only [hp, if_false, Except.ok.injEq] at hv
        subst hv
        simp
    | some req =>
      rw [validateOperationPermissions_entry P hown] at hv
      simp only [Except.ok.injEq] at hv
      subst hv
      simp [List.length_eq_zero]
  refine ⟨hmain, fun hK => ?_⟩
  obtain ⟨v, hv⟩ := validateOperationPermissions_returns P hK
  exact ⟨v, hv, hmain v hv⟩

/-- Witness for C21 on a registered kind with an unmet fact. -/
theorem verdict_missing_empty_iff_valid_witness :
    ∃ v, validateOperationPermissions [("issues", JSVal.str "read")] "create_issue" = .ok v ∧
      (v.missing = [] ↔ v.valid = true) :=
  (verdict_missing_empty_iff_valid [("issues", JSVal.str "read")] "create_issue").2 (by decide)

/-- C22 (code defect). For the names `constructor`, `toString` and `__proto__`
the validator throws for every permission map; for the empty string it returns
the fail-open verdict. -/
theorem validate_throws_on_inherited_names (P : JSObj) :
    validateOperationPermissions P "constructor" =
      .error "TypeError: operationReq.required is not iterable" ∧
    validateOperationPermissions P "toString" =
      .error "TypeError: operationReq.required is not iterable" ∧
    validateOperationPermissions P "__proto__" =
      .error "TypeError: operationReq.required is not iterable" ∧
    validateOperationPermissions P "" =
      .ok { valid := true, missing := [], optional := [],
            description := "Unknown operation type: " } :=
  ⟨validateOperationPermissions_inherited P (by decide) (by decide),
   validateOperationPermissions_inherited P (by decide) (by decide),
   validateOperationPermissions_inherited P (by decide) (by decide),
   validateOperationPermissions_unregistered P (by decide) (by decide)⟩

/-! ## Lemmas on the message generators -/

theorem foldl_join_eq (sep : String) (rest : List String) (acc : String) :
    rest.foldl (fun a y => a ++ sep ++ y) acc =
      acc ++ rest.foldl (fun a y => a ++ sep ++ y) "" := by
  induction rest generalizing acc with
  | nil => simp
  | cons y ys ih =>
    simp only [List.foldl_cons]
    rw [ih (acc ++ sep ++ y), ih ("" ++ sep ++ y)]
    simp [String.append_assoc]

/-- A joined non-empty list begins with its first member. -/
theorem jsJoin_cons (sep x : String) (rest : List String) :
    jsJoin sep (x :: rest) = x ++ rest.foldl (fun a y => a ++ sep ++ y) "" := by
  unfold jsJoin
  exact foldl_join_eq sep rest x

theorem append_ne_empty (a b : String) (h : a ≠ "") : a ++ b ≠ "" := by
  intro hab
  have hl := congrArg String.length hab
  rw [String.length_append] at hl
  have ha : a.length = 0 := by
    have : ("" : String).length = 0 := rfl
    omega
  cases a with
  | mk d =>
    have hd : d = [] := List.length_eq_zero.1 ha
    subst hd
    exact h rfl

theorem pushOperationLines_eq (lines : List String) (op : OperationResult) :
    pushOperationLines lines op = lines ++ operationLines op := by
  unfold pushOperationLines operationLines bulletMark
  cases hopt : op.optional <;> simp

theorem foldl_pushOperationLines (ops : List OperationResult) (lines : List String) :
    ops.foldl pushOperationLines lines = lines ++ (ops.map operationLines).flatten := by
  induction ops generalizing lines with
  | nil => simp
  | cons op rest ih =>
    simp only [List.foldl_cons, List.map_cons, List.flatten_cons]
    rw [pushOperationLines_eq, ih, List.append_assoc]

theorem pushWarningLines_eq (lines : List String) (op : OperationResult) :
    pushWarningLines lines op = lines ++ warningLines op := by
  unfold pushWarningLines warningLines bulletMark
  simp

theorem foldl_pushWarningLines (ops : List OperationResult) (lines : List String) :
    ops.foldl pushWarningLines lines = lines ++ (ops.map warningLines).flatten := by
  induction ops generalizing lines with
  | nil => simp
  | cons op rest ih =>
    simp only [List.foldl_cons, List.map_cons, List.flatten_cons]
    rw [pushWarningLines_eq, ih, List.append_assoc]

theorem filter_invalid_eq_nil_iff (results : List OperationResult) :
    results.filter (fun r => !r.valid) = [] ↔ ∀ r ∈ results, r.valid = true := by
  simp [List.filter_eq_nil_iff]

/-- The error message for a batch with an invalid verdict, as the joined list
of its lines: the header lines, the lines of the invalid verdicts, and the
remediation lines. -/
theorem generatePermissionErrorMessage_lines (up : String → String)
    (results : List OperationResult) (tokenType : String)
    (h : results.filter (fun r => !r.valid) ≠ []) :
    ∃ tail, generatePermissionErrorMessage up results tokenType =
      jsJoin "\n" ([errorHeader, "", errorIntro, ""] ++
        ((results.filter (fun r => !r.valid)).map operationLines).flatten ++ tail) := by
  have hlen : ((results.filter (fun r => !r.valid)).length == 0) = false := by
    cases hf : results.filter (fun r => !r.valid) with
    | nil => exact absurd hf h
    | cons a l => rfl
  unfold generatePermissionErrorMessage
  simp only [hlen, Bool.false_eq_true, if_false, foldl_pushOperationLines]
  by_cases ht : tokenType = "classic"
  · simp only [ht, if_true]
    exact ⟨_, by simp only [List.append_assoc, errorHeader, errorIntro]; rfl⟩
  · simp only [ht, if_false]
    exact ⟨_, by simp only [List.append_assoc, errorHeader, errorIntro]; rfl⟩

theorem generatePermissionErrorMessage_nil (up : String → String)
    (results : List OperationResult) (tokenType : String)
    (h : results.filter (fun r => !r.valid) = []) :
    generatePermissionErrorMessage up results tokenType = "" := by
  unfold generatePermissionErrorMessage
  simp [h]

theorem exists_invalid_iff (results : List OperationResult) :
    results.filter (fun r => !r.valid) ≠ [] ↔ ∃ r ∈ results, r.valid = false := by
  rw [Ne, filter_invalid_eq_nil_iff]
  constructor
  · intro h
    by_contra hne
    exact h (fun r hr => by
      cases hv : r.valid
      · exact absurd ⟨r, hr, hv⟩ hne
      · rfl)
  · rintro ⟨r, hr, hv⟩ h
    rw [h r hr] at hv
    cases hv

theorem filter_optional_congr (results : List OperationResult) :
    results.filter (fun r => decide (r.optional.length > 0)) =
      results.filter (fun r => decide (r.optional ≠ [])) := by
  apply List.filter_congr
  intro r _
  cases r.optional <;> simp

/-! ## Properties of the message generators -/

/-- C23. The error message is the empty string exactly when no verdict is
invalid; with an invalid verdict it is non-empty and begins with the header
line, which reads `Token Missing Required Permissions` after its mark. -/
theorem errorMessage_empty_iff (up : String → String) (results : List OperationResult)
    (tokenType : String) :
    (generatePermissionErrorMessage up results tokenType = "" ↔
      ∀ r ∈ results, r.valid = true) ∧
    ((∃ r ∈ results, r.valid = false) →
      generatePermissionErrorMessage up results tokenType ≠ "" ∧
      ∃ tail, generatePermissionErrorMessage up results tokenType = errorHeader ++ tail) ∧
    errorHeader = "‚ùå " ++ "Token Missing Required Permissions" := by
  have hne : errorHeader ≠ "" := by decide
  have hbegin : results.filter (fun r => !r.valid) ≠ [] →
      ∃ tail, generatePermissionErrorMessage up results tokenType = errorHeader ++ tail := by
    intro hf
    obtain ⟨tail, ht⟩ := generatePermissionErrorMessage_lines up results tokenType hf
    rw [ht]
    simp only [List.cons_append, jsJoin_cons]
    exact ⟨_, rfl⟩
  refine ⟨?_, fun hex => ?_, by decide⟩
  · by_cases hf : results.filter (fun r => !r.valid) = []
    · rw [generatePermissionErrorMessage_nil up results tokenType hf]
      exact ⟨fun _ => (filter_invalid_eq_nil_iff results).1 hf, fun _ => rfl⟩
    · obtain ⟨tail, ht⟩ := hbegin hf
      constructor
      · intro h0
        rw [ht] at h0
        exact absurd h0 (append_ne_empty _ _ hne)
      · intro hall
        exact absurd ((filter_invalid_eq_nil_iff results).2 hall) hf
  · have hf := (exists_invalid_iff results).2 hex
    obtain ⟨tail, ht⟩ := hbegin hf
    exact ⟨by rw [ht]; exact append_ne_empty _ _ hne, tail, ht⟩

/-- Witness for C23 on one invalid verdict. -/
theorem errorMessage_empty_iff_witness :
    generatePermissionErrorMessage (fun s => s)
      [{ operationType := "create_issue", valid := false, missing := ["issues:write"],
         optional := [], description := "Create issues" }] "classic" ≠ "" :=
  ((errorMessage_empty_iff (fun s => s)
    [{ operationType := "create_issue", valid := false, missing := ["issues:write"],
       optional := [], description := "Create issues" }] "classic").2.1
    ⟨_, List.mem_singleton.2 rfl, rfl⟩).1

/-- C24. With an invalid verdict in the batch, the message is the joined list
of the header lines, then, for each invalid verdict in input order, the line
of its description and kind, the line of its missing facts and, exactly when it
has optional facts, the line of its optional facts, and then the remediation
lines; valid verdicts contribute no line. -/
theorem errorMessage_operation_lines (up : String → String) (results : List OperationResult)
    (tokenType : String) (h : ∃ r ∈ results, r.valid = false) :
    ∃ tail, generatePermissionErrorMessage up results tokenType =
      jsJoin "\n" ([errorHeader, "", errorIntro, ""] ++
        ((results.filter (fun r => !r.valid)).map operationLines).flatten ++ tail) :=
  generatePermissionErrorMessage_lines up results tokenType ((exists_invalid_iff results).2 h)

/-- Witness for C24: a valid verdict between two invalid ones. -/
theorem errorMessage_operation_lines_witness :
    ∃ tail, generatePermissionErrorMessage (fun s => s)
      [{ operationType := "update_project", valid := false, missing := ["projects:write"],
         optional := ["issues:write"], description := "Update GitHub Projects" },
       { operationType := "create_issue", valid := true, missing := [], optional := [],
         description := "Create issues" },
       { operationType := "create_pull_request", valid := false,
         missing := ["pull_requests:write", "contents:write"], optional := [],
         description := "Create pull requests" }] "classic" =
      jsJoin "\n" ([errorHeader, "", errorIntro, ""] ++
        [bulletMark ++ "Update GitHub Projects (update_project)",
         "  Missing: projects:write",
         "  Optional (degraded functionality): issues:write",
         bulletMark ++ "Create pull requests (create_pull_request)",
         "  Missing: pull_requests:write, contents:write"] ++ tail) :=
  errorMessage_operation_lines (fun s => s)
    [{ operationType := "update_project", valid := false, missing := ["projects:write"],
       optional := ["issues:write"], description := "Update GitHub Projects" },
     { operationType := "create_issue", valid := true, missing := [], optional := [],
       description := "Create issues" },
     { operationType := "create_pull_request", valid := false,
       missing := ["pull_requests:write", "contents:write"], optional := [],
       description := "Create pull requests" }] "classic"
    ⟨_, List.mem_cons_self _ _, rfl⟩

/-- C27. The warning message is the empty string exactly when no verdict has
optional facts; otherwise it is the joined list of the header lines followed,
for each verdict with optional facts in input order, valid or not, by the line
of its description and kind and the line of its optional facts. -/
theorem warningMessage_spec (results : List OperationResult) :
    (generatePermissionWarningMessage results = "" ↔ ∀ r ∈ results, r.optional = []) ∧
    ((∃ r ∈ results, r.optional ≠ []) →
      generatePermissionWarningMessage results =
        jsJoin "\n" ([warningHeader, "", warningIntro, ""] ++
          ((results.filter (fun r => decide (r.optional ≠ []))).map warningLines).flatten)) ∧
    warningHeader = "‚ö†Ô∏è  " ++ "Optional Permissions Missing" ++ " (Degraded Functionality)" := by
  have hne : warningHeader ≠ "" := by decide
  have hlines : results.filter (fun r => decide (r.optional ≠ [])) ≠ [] →
      generatePermissionWarningMessage results =
        jsJoin "\n" ([warningHeader, "", warningIntro, ""] ++
          ((results.filter (fun r => decide (r.optional ≠ []))).map warningLines).flatten) := by
    intro hf
    have hlen : ((results.filter (fun r => decide (r.optional ≠ []))).length == 0) = false := by
      cases hl : results.filter (fun r => decide (r.optional ≠ [])) with
      | nil => exact absurd hl hf
      | cons a l => rfl
    unfold generatePermissionWarningMessage
    simp only [filter_optional_congr, hlen, Bool.false_eq_true, if_false,
      foldl_pushWarningLines]
    rfl
  have hnil : results.filter (fun r => decide (r.optional ≠ [])) = [] ↔
      ∀ r ∈ results, r.optional = [] := by
    simp [List.filter_eq_nil_iff]
  refine ⟨?_, fun hex => ?_, by decide⟩
  · by_cases hf : results.filter (fun r => decide (r.optional ≠ [])) = []
    · have h0 : generatePermissionWarningMessage results = "" := by
        unfold generatePermissionWarningMessage
        simp only [filter_optional_congr, hf]
        rfl
      rw [h0]
      exact ⟨fun _ => hnil.1 hf, fun _ => rfl⟩
    · constructor
      · intro h0
        rw [hlines hf] at h0
        simp only [List.cons_append, jsJoin_cons] at h0
        exact absurd h0 (append_ne_empty _ _ hne)
      · intro hall
        exact absurd (hnil.2 hall) hf
  · apply hlines
    intro hf
    obtain ⟨r, hr, hopt⟩ := hex
    exact hopt (hnil.1 hf r hr)

/-- Witness for C27 with the verdict of scenario F. -/
theorem warningMessage_spec_witness :
    generatePermissionWarningMessage
      [{ operationType := "update_project", valid := true, missing := [],
         optional := ["issues:write"], description := "Update GitHub Projects" }] =
      jsJoin "\n" [warningHeader, "", warningIntro, "",
        bulletMark ++ "Update GitHub Projects (update_project)", "  Optional: issues:write"] :=
  (warningMessage_spec
    [{ operationType := "update_project", valid := true, missing := [],
       optional := ["issues:write"], description := "Update GitHub Projects" }]).2.1
    ⟨_, List.mem_singleton.2 rfl, by decide⟩

/-- The error message for a batch with an invalid verdict, with its
remediation section: the scope lines for a classic token, the permission lines
for any other token type. -/
theorem generatePermissionErrorMessage_remediation (up : String → String)
    (results : List OperationResult) (tokenType : String)
    (h : results.filter (fun r => !r.valid) ≠ []) :
    generatePermissionErrorMessage up results tokenType =
      jsJoin "\n" (errorPrelude results ++
        (if tokenType = "classic" then
          classicSteps ++ ["3. Enable the following scopes:"] ++
            (collectRequiredScopes (results.filter (fun r => !r.valid))).map
              (fun scope => "   - " ++ scope)
         else
          fineGrainedSteps ++ ["3. Grant the following permissions:"] ++
            (collectRequiredPerms (results.filter (fun r => !r.valid))).map
              (permissionLine up)) ++
        remediationFooter) := by
  have hlen : ((results.filter (fun r => !r.valid)).length == 0) = false := by
    cases hf : results.filter (fun r => !r.valid) with
    | nil => exact absurd hf h
    | cons a l => rfl
  unfold generatePermissionErrorMessage
  simp only [hlen, Bool.false_eq_true, if_false, foldl_pushOperationLines]
  by_cases ht : tokenType = "classic"
  · simp only [ht, if_true, errorPrelude, classicSteps, remediationFooter, errorHeader,
      errorIntro, List.append_assoc]
    rfl
  · simp only [ht, if_false, errorPrelude, fineGrainedSteps, remediationFooter, errorHeader,
      errorIntro, List.append_assoc]
    rfl

theorem addRequiredScope_eq (set : List String) (perm : String) :
    addRequiredScope set perm =
      match scopeChoice perm with
      | some name => setAdd set name
      | none => set := by
  unfold addRequiredScope scopeChoice
  split_ifs <;> rfl

theorem scopeChoice_permissionFact :
    ∀ f ∈ permissionFacts, scopeChoice f = some (scopeNameFor (splitFact f).1) := by
  decide

theorem permissionFact_category :
    ∀ f ∈ permissionFacts, (splitFact f).1 ∈ categories := by
  decide

theorem foldl_addRequiredScope (facts : List String) (hfacts : ∀ f ∈ facts, f ∈ permissionFacts)
    (acc : List String) :
    facts.foldl addRequiredScope acc =
      (facts.map (fun f => scopeNameFor (splitFact f).1)).foldl setAdd acc := by
  induction facts generalizing acc with
  | nil => rfl
  | cons f rest ih =>
    simp only [List.foldl_cons, List.map_cons]
    rw [addRequiredScope_eq, scopeChoice_permissionFact f (hfacts f (List.mem_cons_self _ _))]
    exact ih (fun g hg => hfacts g (List.mem_cons_of_mem _ hg)) _

/-- Adding the members of a list to a set one by one appends, in order of
first occurrence, the distinct members that the set does not hold yet. -/
theorem foldl_setAdd (l : List String) (acc : List String) :
    l.foldl setAdd acc = acc ++ (firstOccurrences l).filter (fun y => decide (y ∉ acc)) := by
  induction l generalizing acc with
  | nil => simp [firstOccurrences]
  | cons x xs ih =>
    simp only [List.foldl_cons, firstOccurrences]
    by_cases hx : x ∈ acc
    · have hset : setAdd acc x = acc := by simp [setAdd, hx]
      rw [hset, ih, List.filter_cons]
      simp only [hx, not_true_eq_false, decide_False, Bool.false_eq_true, if_false,
        List.filter_filter]
      congr 1
      apply List.filter_congr
      intro y _
      by_cases hy : y ∈ acc
      · simp [hy]
      · have : y ≠ x := fun e => hy (e ▸ hx)
        simp [hy, this]
    · have hset : setAdd acc x = acc ++ [x] := by simp [setAdd, hx]
      rw [hset, ih, List.filter_cons]
      simp only [hx, not_false_eq_true, decide_True, if_true, List.filter_filter,
        List.append_assoc, List.singleton_append]
      congr 2
      apply List.filter_congr
      intro y _
      by_cases hy : y ∈ acc <;> by_cases hyx : y = x <;> simp [hy, hyx]

theorem foldl_setAdd_nil (l : List String) : l.foldl setAdd [] = firstOccurrences l := by
  rw [foldl_setAdd]
  simp

theorem mem_firstOccurrences (l : List String) (x : String) :
    x ∈ firstOccurrences l ↔ x ∈ l := by
  induction l with
  | nil => simp [firstOccurrences]
  | cons y ys ih =>
    simp only [firstOccurrences, List.mem_cons, List.mem_filter, ih, decide_eq_true_eq]
    by_cases h : x = y <;> simp [h]

theorem nodup_firstOccurrences (l : List String) : (firstOccurrences l).Nodup := by
  induction l with
  | nil => simp [firstOccurrences]
  | cons y ys ih =>
    simp only [firstOccurrences, List.nodup_cons, List.mem_filter, decide_eq_true_eq]
    exact ⟨fun h => h.2 rfl, ih.filter _⟩

theorem collectRequiredScopes_eq (failed : List OperationResult) :
    collectRequiredScopes failed =
      ((failed.map (fun r => r.missing)).flatten).foldl addRequiredScope [] := by
  unfold collectRequiredScopes
  rw [List.foldl_flatten, List.foldl_map]

theorem collectRequiredPerms_eq (failed : List OperationResult) :
    collectRequiredPerms failed =
      firstOccurrences ((failed.map (fun r => r.missing)).flatten) := by
  unfold collectRequiredPerms
  rw [← foldl_setAdd_nil, List.foldl_flatten, List.foldl_map]

/-- C25. For a classic token and a batch with an invalid verdict whose missing
facts are permission facts of the five categories, the lines under
`3. Enable the following scopes:` are the distinct scope names of the missing
facts of the invalid verdicts, each once, in order of first occurrence. -/
theorem classic_scope_lines (up : String → String) (results : List OperationResult)
    (hinv : ∃ r ∈ results, r.valid = false)
    (hfacts : ∀ f ∈ missingFacts results, f ∈ permissionFacts) :
    generatePermissionErrorMessage up results "classic" =
      jsJoin "\n" (errorPrelude results ++ (classicSteps ++
        ["3. Enable the following scopes:"] ++
        (firstOccurrences
          ((missingFacts results).map (fun f => scopeNameFor (splitFact f).1))).map
            (fun scope => "   - " ++ scope)) ++ remediationFooter) ∧
    (firstOccurrences
      ((missingFacts results).map (fun f => scopeNameFor (splitFact f).1))).Nodup ∧
    (∀ scope, scope ∈ firstOccurrences
        ((missingFacts results).map (fun f => scopeNameFor (splitFact f).1)) ↔
      ∃ f ∈ missingFacts results, scopeNameFor (splitFact f).1 = scope) := by
  refine ⟨?_, nodup_firstOccurrences _, fun scope => ?_⟩
  · rw [generatePermissionErrorMessage_remediation up results "classic"
      ((exists_invalid_iff results).2 hinv)]
    simp only [if_true]
    have hm : ((results.filter (fun r => !r.valid)).map (fun r => r.missing)).flatten =
        missingFacts results := rfl
    rw [collectRequiredScopes_eq, hm, foldl_addRequiredScope _ hfacts, foldl_setAdd_nil]
  · rw [mem_firstOccurrences]
    simp [List.mem_map]

/-- Witness for C25: two operations that both miss `pull_requests:write`. -/
theorem classic_scope_lines_witness :
    generatePermissionErrorMessage (fun s => s)
      [{ operationType := "create_pull_request", valid := false,
         missing := ["pull_requests:write", "contents:write"], optional := [],
         description := "Create pull requests" },
       { operationType := "add_reviewer", valid := false, missing := ["pull_requests:write"],
         optional := [], description := "Request pull request reviews" }] "classic" =
      jsJoin "\n" (errorPrelude
        [{ operationType := "create_pull_request", valid := false,
           missing := ["pull_requests:write", "contents:write"], optional := [],
           description := "Create pull requests" },
         { operationType := "add_reviewer", valid := false, missing := ["pull_requests:write"],
           optional := [], description := "Request pull request reviews" }] ++
        (classicSteps ++ ["3. Enable the following scopes:"] ++
          ["   - repo (full repository access)", "   - repo"]) ++ remediationFooter) :=
  (classic_scope_lines (fun s => s)
    [{ operationType := "create_pull_request", valid := false,
       missing := ["pull_requests:write", "contents:write"], optional := [],
       description := "Create pull requests" },
     { operationType := "add_reviewer", valid := false, missing := ["pull_requests:write"],
       optional := [], description := "Request pull request reviews" }]
    ⟨_, List.mem_cons_self _ _, rfl⟩ (by decide)).1

/-- The lines under `3. Grant the following permissions:` are one line per
distinct missing fact of the invalid verdicts, in order of first occurrence. -/
theorem fineGrained_permission_lines (up : String → String) (results : List OperationResult)
    (tokenType : String) (hinv : ∃ r ∈ results, r.valid = false)
    (ht : tokenType ≠ "classic") :
    generatePermissionErrorMessage up results tokenType =
      jsJoin "\n" (errorPrelude results ++ (fineGrainedSteps ++
        ["3. Grant the following permissions:"] ++
        (firstOccurrences (missingFacts results)).map (permissionLine up)) ++
        remediationFooter) := by
  rw [generatePermissionErrorMessage_remediation up results tokenType
    ((exists_invalid_iff results).2 hinv)]
  simp only [ht, if_false]
  rw [collectRequiredPerms_eq]
  rfl

/-- C26 (code defect). A verdict that misses `issues:write` and `issues:read`
gets the category `issues` listed twice, whatever `toUpperCase` does: the set
is keyed by the fact, not by the category. -/
theorem fineGrained_lists_category_twice (up : String → String) :
    generatePermissionErrorMessage up
      [{ operationType := "create_issue", valid := false,
         missing := ["issues:write", "issues:read"], optional := [],
         description := "Create issues" }] "fine-grained" =
      jsJoin "\n" (errorPrelude
        [{ operationType := "create_issue", valid := false,
           missing := ["issues:write", "issues:read"], optional := [],
           description := "Create issues" }] ++
        (fineGrainedSteps ++ ["3. Grant the following permissions:"] ++
          ["   - " ++ (up "i" ++ "ssues") ++ ": Read and Write",
           "   - " ++ (up "i" ++ "ssues") ++ ": Read and Write"]) ++ remediationFooter) := by
  rw [fineGrained_permission_lines up _ "fine-grained" ⟨_, List.mem_singleton.2 rfl, rfl⟩
    (by decide)]
  rfl

/-! ## Lemmas on object spread and rest -/

theorem getOwn_eq_none_iff (o : JSObj) (k : String) : getOwn o k = none ↔ k ∉ keysOf o := by
  induction o with
  | nil => simp [getOwn, keysOf]
  | cons kv rest ih =>
    obtain ⟨k2, v⟩ := kv
    by_cases hk : k2 = k
    · simp [getOwn, keysOf, hk]
    · have hk2 : ¬ k = k2 := fun e => hk e.symm
      simp only [getOwn, hk, if_false, ih, keysOf, List.map_cons, List.mem_cons, hk2, false_or]

theorem getOwn_defineProp_same (o : JSObj) (key : String) (v : JSVal) :
    getOwn (defineProp o key v) key = some v := by
  unfold defineProp
  cases hown : getOwn o key with
  | none => simp [getOwn_append_same v hown]
  | some w => simp [getOwn_replaceOwn_same v hown]

theorem getOwn_defineProp_other (o : JSObj) {key k : String} (v : JSVal) (h : k ≠ key) :
    getOwn (defineProp o key v) k = getOwn o k := by
  unfold defineProp
  cases hown : getOwn o key with
  | none => simp [getOwn_append_other v h]
  | some w => simp [getOwn_replaceOwn_other v h]

theorem mem_keysOf_defineProp {o : JSObj} {key x : String} {v : JSVal}
    (hx : x ∈ keysOf (defineProp o key v)) : x = key ∨ x ∈ keysOf o := by
  unfold defineProp at hx
  split at hx
  · rw [keysOf_replaceOwn] at hx
    exact Or.inr hx
  · simp only [keysOf, List.map_append, List.map_cons, List.map_nil, List.mem_append,
      List.mem_singleton] at hx ⊢
    rcases hx with h | h
    · exact Or.inr h
    · exact Or.inl h

theorem mem_keysOf_spreadInto {target source : JSObj} {x : String}
    (hx : x ∈ keysOf (spreadInto target source)) : x ∈ keysOf target ∨ x ∈ keysOf source := by
  unfold spreadInto at hx
  induction source generalizing target with
  | nil => exact Or.inl hx
  | cons kv rest ih =>
    simp only [List.foldl_cons] at hx
    rcases ih hx with h | h
    · rcases mem_keysOf_defineProp h with h2 | h2
      · exact Or.inr (by simp [keysOf, h2])
      · exact Or.inl h2
    · exact Or.inr (by
        simp only [keysOf, List.map_cons, List.mem_cons]
        exact Or.inr h)

theorem getOwn_spreadInto_of_not_mem (target source : JSObj) {k : String}
    (h : k ∉ keysOf source) : getOwn (spreadInto target source) k = getOwn target k := by
  unfold spreadInto
  induction source generalizing target with
  | nil => rfl
  | cons kv rest ih =>
    simp only [keysOf, List.map_cons, List.mem_cons, not_or] at h
    simp only [List.foldl_cons]
    rw [ih _ (by simpa [keysOf] using h.2), getOwn_defineProp_other _ _ h.1]

/-- Spreading an object with distinct keys defines each of its own properties
with its value. -/
theorem getOwn_spreadInto_of_nodup (target source : JSObj) {k : String} {v : JSVal}
    (hnodup : (keysOf source).Nodup) (h : getOwn source k = some v) :
    getOwn (spreadInto target source) k = some v := by
  induction source generalizing target with
  | nil => simp [getOwn] at h
  | cons kv rest ih =>
    obtain ⟨k2, w⟩ := kv
    simp only [keysOf, List.map_cons, List.nodup_cons] at hnodup
    have hstep : spreadInto target ((k2, w) :: rest) = spreadInto (defineProp target k2 w) rest :=
      rfl
    rw [hstep]
    by_cases hk : k2 = k
    · subst hk
      have hv : w = v := by simpa [getOwn] using h
      subst hv
      rw [getOwn_spreadInto_of_not_mem _ rest (by simpa [keysOf] using hnodup.1)]
      exact getOwn_defineProp_same _ _ _
    · have h2 : getOwn rest k = some v := by simpa [getOwn, hk] using h
      exact ih _ (by simpa [keysOf] using hnodup.2) h2

theorem keysOf_restWithout (excluded : List String) (o : JSObj) :
    keysOf (restWithout excluded o) = (keysOf o).filter (fun k => decide (k ∉ excluded)) := by
  unfold restWithout keysOf
  induction o with
  | nil => rfl
  | cons kv rest ih =>
    by_cases hk : kv.1 ∈ excluded <;> simpa [List.filter_cons, hk] using ih

theorem getOwn_restWithout (excluded : List String) (o : JSObj) {k : String}
    (h : k ∉ excluded) : getOwn (restWithout excluded o) k = getOwn o k := by
  unfold restWithout
  induction o with
  | nil => rfl
  | cons kv rest ih =>
    obtain ⟨k2, w⟩ := kv
    by_cases hk : k2 = k
    · subst hk
      simp [List.filter_cons, h, getOwn]
    · by_cases hex : k2 ∈ excluded
      · simpa [List.filter_cons, hex, getOwn, hk] using ih
      · simpa [List.filter_cons, hex, getOwn, hk] using ih

theorem nodup_keysOf_setProp {o : JSObj} (h : (keysOf o).Nodup) (key : String) (v : JSVal) :
    (keysOf (setProp o key v)).Nodup := by
  unfold setProp
  cases hown : getOwn o key with
  | some w => simpa [keysOf_replaceOwn] using h
  | none =>
    by_cases hp : key = "__proto__"
    · simpa [hp] using h
    · have hk : key ∉ keysOf o := (getOwn_eq_none_iff o key).1 hown
      simp only [hp, if_false, keysOf, List.map_append, List.map_cons, List.map_nil]
      rw [List.nodup_append]
      refine ⟨h, by simp, ?_⟩
      intro a ha hb
      simp only [List.mem_singleton] at hb
      subst hb
      exact hk ha

theorem nodup_keysOf_restWithout {o : JSObj} (h : (keysOf o).Nodup) (excluded : List String) :
    (keysOf (restWithout excluded o)).Nodup := by
  rw [keysOf_restWithout]
  exact h.filter _

/-- The keys of the argument object of the update call: `owner`, `repo`,
`pull_number`, `body` and the keys of the payload other than the two reserved
ones. -/
theorem mem_keysOf_callArguments {context : ActionsContext} {prNumber : Int}
    {apiData : JSObj} {x : String}
    (hx : x ∈ keysOf (spreadInto [("owner", JSVal.str context.owner),
      ("repo", JSVal.str context.repo), ("pull_number", JSVal.num prNumber)] apiData)) :
    x ∈ ["owner", "repo", "pull_number"] ∨ x ∈ keysOf apiData := by
  rcases mem_keysOf_spreadInto hx with h | h
  · exact Or.inl (by simpa [keysOf] using h)
  · exact Or.inr h

/-! ## Properties of `executePRUpdate` -/

/-- C28. For a payload with distinct keys, whenever the update call is reached
(the fetch of the current pull request, made when `_rawBody` is present, has
succeeded), its argument object has neither `_operation` nor `_rawBody`; every
other payload field is passed with its value, except that `body`, when
`_rawBody` is present, is the result of `updateBody` on the fetched current
body, the raw new body and the operation, which is `replace` when `_operation`
is absent or empty. -/
theorem pr_update_arguments (updateBody : UpdateBodyArgs → String)
    (pullsGet : Except String JSVal) (pullsUpdate : JSObj → Except String JSVal)
    (workflowNameEnv : Option String) (context : ActionsContext) (prNumber : Int)
    (updateData : JSObj) (current : JSVal)
    (hnodup : (keysOf updateData).Nodup)
    (hget : getProp updateData "_rawBody" ≠ JSVal.undefined → pullsGet = .ok current) :
    ∃ args,
      prUpdateArguments updateBody pullsGet workflowNameEnv context prNumber updateData
        = .ok args ∧
      executePRUpdate updateBody pullsGet pullsUpdate workflowNameEnv context prNumber updateData
        = pullsUpdate args ∧
      "_operation" ∉ keysOf args ∧ "_rawBody" ∉ keysOf args ∧
      (∀ k v, k ≠ "_operation" → k ≠ "_rawBody" →
        (k = "body" → getProp updateData "_rawBody" = JSVal.undefined) →
        getOwn updateData k = some v → getOwn args k = some v) ∧
      (getProp updateData "_rawBody" ≠ JSVal.undefined →
        ∃ workflowName runUrl, getOwn args "body" = some (JSVal.str (updateBody
          { currentBody := current.or (JSVal.str ""),
            newContent := getProp updateData "_rawBody",
            operation := (getProp updateData "_operation").or (JSVal.str "replace"),
            workflowName := workflowName, runUrl := runUrl, runId := context.runId }))) := by
  have hrest := nodup_keysOf_restWithout hnodup ["_operation", "_rawBody"]
  have hkeys : ∀ x, x ∈ keysOf (restWithout ["_operation", "_rawBody"] updateData) →
      x ≠ "_operation" ∧ x ≠ "_rawBody" := by
    intro x hx
    rw [keysOf_restWithout] at hx
    have := (List.mem_filter.1 hx).2
    simpa using this
  have hpass : ∀ k v, k ≠ "_operation" → k ≠ "_rawBody" → getOwn updateData k = some v →
      getOwn (restWithout ["_operation", "_rawBody"] updateData) k = some v := by
    intro k v h1 h2 hv
    rw [getOwn_restWithout _ _ (by simp [h1, h2])]
    exact hv
  by_cases hraw : getProp updateData "_rawBody" = JSVal.undefined
  · have hargs : prUpdateArguments updateBody pullsGet workflowNameEnv context prNumber
        updateData = .ok (spreadInto [("owner", JSVal.str context.owner),
          ("repo", JSVal.str context.repo), ("pull_number", JSVal.num prNumber)]
          (restWithout ["_operation", "_rawBody"] updateData)) := by
      unfold prUpdateArguments
      simp [hraw]
    refine ⟨_, hargs, by simp only [executePRUpdate, hargs], ?_, ?_, ?_, fun h => absurd hraw h⟩
    · intro hx
      rcases mem_keysOf_callArguments hx with h | h
      · exact absurd h (by decide)
      · exact (hkeys _ h).1 rfl
    · intro hx
      rcases mem_keysOf_callArguments hx with h | h
      · exact absurd h (by decide)
      · exact (hkeys _ h).2 rfl
    · intro k v h1 h2 _ hv
      exact getOwn_spreadInto_of_nodup _ _ hrest (hpass k v h1 h2 hv)
  · have hcur := hget hraw
    obtain ⟨B, hargs⟩ : ∃ B : UpdateBodyArgs,
        prUpdateArguments updateBody pullsGet workflowNameEnv context prNumber updateData =
          .ok (spreadInto [("owner", JSVal.str context.owner),
            ("repo", JSVal.str context.repo), ("pull_number", JSVal.num prNumber)]
            (setProp (restWithout ["_operation", "_rawBody"] updateData) "body"
              (JSVal.str (updateBody B)))) ∧
        B.currentBody = current.or (JSVal.str "") ∧
        B.newContent = getProp updateData "_rawBody" ∧
        B.operation = (getProp updateData "_operation").or (JSVal.str "replace") ∧
        B.runId = context.runId := by
      unfold prUpdateArguments
      simp only [hraw, ne_eq, not_false_eq_true, if_true, hcur]
      exact ⟨_, rfl, rfl, rfl, rfl, rfl⟩
    obtain ⟨hargs, hB1, hB2, hB3, hB4⟩ := hargs
    have hnd := nodup_keysOf_setProp hrest "body" (JSVal.str (updateBody B))
    refine ⟨_, hargs, by simp only [executePRUpdate, hargs], ?_, ?_, ?_, fun _ => ?_⟩
    · intro hx
      rcases mem_keysOf_callArguments hx with h | h
      · exact absurd h (by decide)
      · rcases mem_keysOf_setProp h with h2 | h2
        · exact absurd h2 (by decide)
        · exact (hkeys _ h2).1 rfl
    · intro hx
      rcases mem_keysOf_callArguments hx with h | h
      · exact absurd h (by decide)
      · rcases mem_keysOf_setProp h with h2 | h2
        · exact absurd h2 (by decide)
        · exact (hkeys _ h2).2 rfl
    · intro k v h1 h2 hbody hv
      have hkb : k ≠ "body" := fun e => hraw (hbody e)
      apply getOwn_spreadInto_of_nodup _ _ hnd
      rw [getOwn_setProp_other _ _ hkb]
      exact hpass k v h1 h2 hv
    · refine ⟨B.workflowName, B.runUrl, ?_⟩
      have hBeq : B =
          { currentBody := current.or (JSVal.str ""),
            newContent := getProp updateData "_rawBody",
            operation := (getProp updateData "_operation").or (JSVal.str "replace"),
            workflowName := B.workflowName, runUrl := B.runUrl, runId := context.runId } := by
        cases B
        simp only at hB1 hB2 hB3 hB4
        simp [hB1, hB2, hB3, hB4]
      rw [← hBeq]
      apply getOwn_spreadInto_of_nodup _ _ hnd
      exact getOwn_setProp_same _ _ (by decide)

/-- Witness for C28: a payload with title, reserved keys and an old body. -/
theorem pr_update_arguments_witness :
    ∃ args,
      prUpdateArguments (fun _ => "merged") (.ok (JSVal.str "old")) none
        { owner := "o", repo := "r", serverUrl := "https://github.com", runId := 7 } 5
        [("title", JSVal.str "T"), ("_operation", JSVal.str "append"),
         ("_rawBody", JSVal.str "B"), ("body", JSVal.str "B")] = .ok args ∧
      executePRUpdate (fun _ => "merged") (.ok (JSVal.str "old")) (fun _ => .ok JSVal.null) none
        { owner := "o", repo := "r", serverUrl := "https://github.com", runId := 7 } 5
        [("title", JSVal.str "T"), ("_operation", JSVal.str "append"),
         ("_rawBody", JSVal.str "B"), ("body", JSVal.str "B")]
        = (fun _ => .ok JSVal.null) args ∧
      "_operation" ∉ keysOf args ∧ "_rawBody" ∉ keysOf args ∧
      (∀ k v, k ≠ "_operation" → k ≠ "_rawBody" →
        (k = "body" → getProp [("title", JSVal.str "T"), ("_operation", JSVal.str "append"),
          ("_rawBody", JSVal.str "B"), ("body", JSVal.str "B")] "_rawBody" = JSVal.undefined) →
        getOwn [("title", JSVal.str "T"), ("_operation", JSVal.str "append"),
          ("_rawBody", JSVal.str "B"), ("body", JSVal.str "B")] k = some v →
        getOwn args k = some v) ∧
      (getProp [("title", JSVal.str "T"), ("_operation", JSVal.str "append"),
          ("_rawBody", JSVal.str "B"), ("body", JSVal.str "B")] "_rawBody" ≠ JSVal.undefined →
        ∃ workflowName runUrl, getOwn args "body" = some (JSVal.str ((fun _ => "merged")
          ({ currentBody := (JSVal.str "old").or (JSVal.str ""),
             newContent := getProp [("title", JSVal.str "T"), ("_operation", JSVal.str "append"),
               ("_rawBody", JSVal.str "B"), ("body", JSVal.str "B")] "_rawBody",
             operation := (getProp [("title", JSVal.str "T"),
               ("_operation", JSVal.str "append"), ("_rawBody", JSVal.str "B"),
               ("body", JSVal.str "B")] "_operation").or (JSVal.str "replace"),
             workflowName := workflowName, runUrl := runUrl, runId := 7 } : UpdateBodyArgs)))) :=
  pr_update_arguments (fun _ => "merged") (.ok (JSVal.str "old")) (fun _ => .ok JSVal.null) none
    { owner := "o", repo := "r", serverUrl := "https://github.com", runId := 7 } 5
    [("title", JSVal.str "T"), ("_operation", JSVal.str "append"),
     ("_rawBody", JSVal.str "B"), ("body", JSVal.str "B")] (JSVal.str "old")
    (by decide) (fun _ => rfl)

/-! ## Lemmas on `neutralizeWorkflowCommands` -/

theorem replaceLineStartColons_false_cons (d : Char) (rest : List Char) :
    replaceLineStartColons false (d :: rest) = d :: replaceLineStartColons (isLineTerminator d) rest := by
  cases rest with
  | nil => simp [replaceLineStartColons]
  | cons e r => simp [replaceLineStartColons]

theorem hasLineStartColons_false_cons (d : Char) (rest : List Char) :
    hasLineStartColons false (d :: rest) = hasLineStartColons (isLineTerminator d) rest := by
  cases rest with
  | nil => simp [hasLineStartColons]
  | cons e r => simp [hasLineStartColons]

theorem countLineStartColons_false_cons (d : Char) (rest : List Char) :
    countLineStartColons false (d :: rest) = countLineStartColons (isLineTerminator d) rest := by
  cases rest with
  | nil => simp [countLineStartColons]
  | cons e r => simp [countLineStartColons]

theorem isLineTerminator_colon : isLineTerminator ':' = false := by decide

theorem isLineTerminator_zeroWidthSpace : isLineTerminator zeroWidthSpace = false := by decide

theorem zeroWidthSpace_ne_colon : zeroWidthSpace ≠ ':' := by decide

/-- After the first replacement no `::` stands at a line start. -/
theorem hasLineStartColons_replace (b : Bool) (l : List Char) :
    hasLineStartColons b (replaceLineStartColons b l) = false := by
  induction l generalizing b with
  | nil => simp [replaceLineStartColons, hasLineStartColons]
  | cons c l ih =>
    cases l with
    | nil => simp [replaceLineStartColons, hasLineStartColons]
    | cons d rest =>
      by_cases hcond : b = true ∧ c = ':' ∧ d = ':'
      · obtain ⟨hb, hc, hd⟩ := hcond
        subst hc hd
        have h0 := ih false
        rw [replaceLineStartColons_false_cons, hasLineStartColons_false_cons,
          isLineTerminator_colon] at h0
        simp only [replaceLineStartColons, hb, and_self, if_true]
        simp only [hasLineStartColons, zeroWidthSpace_ne_colon, decide_False, Bool.and_false,
          Bool.false_or, isLineTerminator_colon]
        rw [isLineTerminator_zeroWidthSpace, hasLineStartColons_false_cons,
          isLineTerminator_colon]
        simpa using h0
      · simp only [replaceLineStartColons, hcond, if_false]
        have h1 := ih (isLineTerminator c)
        cases hX : replaceLineStartColons (isLineTerminator c) (d :: rest) with
        | nil => simp [hasLineStartColons]
        | cons x X =>
          rw [hX] at h1
          simp only [hasLineStartColons, h1, Bool.or_false]
          by_cases hc : c = ':'
          · subst hc
            rw [isLineTerminator_colon, replaceLineStartColons_false_cons] at hX
            have hx : x = d := by
              have := (List.cons.inj hX).1
              exact this.symm
            subst hx
            cases hb : b
            · simp
            · have hd : ¬ x = ':' := fun e => hcond ⟨hb, rfl, e⟩
              simp [hd]
          · simp [hc]

/-- A text without `::` at a line start is left as it is by the first
replacement. -/
theorem replaceLineStartColons_id (b : Bool) (l : List Char)
    (h : hasLineStartColons b l = false) : replaceLineStartColons b l = l := by
  induction l generalizing b with
  | nil => rfl
  | cons c l ih =>
    cases l with
    | nil => rfl
    | cons d rest =>
      simp only [hasLineStartColons, Bool.or_eq_false_iff] at h
      have hcond : ¬ (b = true ∧ c = ':' ∧ d = ':') := by
        rintro ⟨hb, hc, hd⟩
        have h1 := h.1
        simp [hb, hc, hd] at h1
      simp only [replaceLineStartColons, hcond, if_false, ih _ h.2]

/-- The test `hasLineStartColons` decides whether `::` stands at a line
start. -/
theorem hasLineStartColons_eq_false_iff (b : Bool) (l : List Char) :
    hasLineStartColons b l = false ↔
      (b = true → ¬ [':', ':'] <+: l) ∧
        ∀ t, isLineTerminator t = true → ¬ [t, ':', ':'] <:+: l := by
  induction l generalizing b with
  | nil => simp [hasLineStartColons]
  | cons c l ih =>
    cases l with
    | nil => simp [hasLineStartColons, List.infix_cons_iff]
    | cons d rest =>
      rw [hasLineStartColons, Bool.or_eq_false_iff, ih (isLineTerminator c)]
      have hp : [':', ':'] <+: c :: d :: rest ↔ (c = ':' ∧ d = ':') := by
        simp [eq_comm]
      have hi : ∀ t, [t, ':', ':'] <:+: c :: d :: rest ↔
          (t = c ∧ [':', ':'] <+: d :: rest) ∨ [t, ':', ':'] <:+: d :: rest := by
        intro t
        rw [List.infix_cons_iff, List.cons_prefix_cons]
      constructor
      · rintro ⟨h1, h2, h3⟩
        refine ⟨fun hb hpre => ?_, fun t ht hin => ?_⟩
        · obtain ⟨hc, hd⟩ := hp.1 hpre
          simp [hb, hc, hd] at h1
        · rcases (hi t).1 hin with ⟨rfl, hpre⟩ | hin2
          · exact h2 ht hpre
          · exact h3 t ht hin2
      · rintro ⟨h1, h2⟩
        refine ⟨?_, fun hc hpre => ?_, fun t ht hin => ?_⟩
        · rw [Bool.eq_false_iff]
          intro h
          simp only [Bool.and_eq_true, decide_eq_true_eq] at h
          exact h1 h.1.1 (hp.2 ⟨h.1.2, h.2⟩)
        · exact h2 c hc ((hi c).2 (Or.inl ⟨rfl, hpre⟩))
        · exact h2 t ht ((hi t).2 (Or.inr hin))

theorem hasLineStartColons_iff_noLineStart (l : List Char) :
    hasLineStartColons true l = false ↔ NoLineStartsWithColons l := by
  rw [hasLineStartColons_eq_false_iff, NoLineStartsWithColons]
  simp

/-- A text without a line feed followed by `::` is left as it is by the
second replacement. -/
theorem replaceNewlineColons_id (l : List Char) :
    ¬ ['\n', ':', ':'] <:+: l → replaceNewlineColons l = l := by
  induction l with
  | nil => intro _; rfl
  | cons c l ih =>
    intro h
    cases l with
    | nil => rfl
    | cons d l2 =>
      cases l2 with
      | nil => rfl
      | cons e rest =>
        have hcond : ¬ (c = '\n' ∧ d = ':' ∧ e = ':') := by
          rintro ⟨rfl, rfl, rfl⟩
          exact h ⟨[], rest, rfl⟩
        simp only [replaceNewlineColons, hcond, if_false]
        rw [ih (fun hin => h (List.infix_cons_iff.2 (Or.inr hin)))]

/-- The second replacement finds nothing left to replace after the first. -/
theorem neutralizeWorkflowCommands_toList (text : String) :
    (neutralizeWorkflowCommands text).toList = replaceLineStartColons true text.toList := by
  have h := (hasLineStartColons_eq_false_iff true _).1
    (hasLineStartColons_replace true text.toList)
  show replaceNewlineColons (replaceLineStartColons true text.toList) = _
  exact replaceNewlineColons_id _ (h.2 '\n' (by decide))

/-- The regular-expression replacement does what the character-by-character
reading says. -/
theorem replaceLineStartColons_eq_insert (b : Bool) (l : List Char) :
    replaceLineStartColons b l = insertZeroWidthSpaces b l := by
  induction l generalizing b with
  | nil => rfl
  | cons c l ih =>
    cases l with
    | nil => simp [replaceLineStartColons, insertZeroWidthSpaces]
    | cons d rest =>
      by_cases hcond : b = true ∧ c = ':' ∧ d = ':'
      · obtain ⟨hb, hc, hd⟩ := hcond
        subst hb hc hd
        have h0 := ih false
        rw [replaceLineStartColons_false_cons, isLineTerminator_colon] at h0
        simp only [replaceLineStartColons, insertZeroWidthSpaces, List.head?_cons, and_self,
          if_true, isLineTerminator_colon, h0]
      · have hcond2 : ¬ (b = true ∧ c = ':' ∧ (d :: rest).head? = some ':') := by
          simpa using hcond
        rw [insertZeroWidthSpaces, if_neg hcond2, replaceLineStartColons, if_neg hcond, ih]

theorem replaceLineStartColons_length (b : Bool) (l : List Char) :
    (replaceLineStartColons b l).length = l.length + countLineStartColons b l := by
  induction l generalizing b with
  | nil => rfl
  | cons c l ih =>
    cases l with
    | nil => rfl
    | cons d rest =>
      by_cases hcond : b = true ∧ c = ':' ∧ d = ':'
      · obtain ⟨hb, hc, hd⟩ := hcond
        subst hb hc hd
        have h0 := ih false
        rw [replaceLineStartColons_false_cons, isLineTerminator_colon] at h0
        simp only [replaceLineStartColons, countLineStartColons, and_self, if_true,
          isLineTerminator_colon, List.length_cons] at h0 ⊢
        omega
      · simp only [replaceLineStartColons, countLineStartColons, if_neg hcond,
          List.length_cons, ih]
        omega

theorem sublist_replaceLineStartColons (b : Bool) (l : List Char) :
    List.Sublist l (replaceLineStartColons b l) := by
  induction l generalizing b with
  | nil => exact List.Sublist.refl _
  | cons c l ih =>
    cases l with
    | nil => exact List.Sublist.refl _
    | cons d rest =>
      by_cases hcond : b = true ∧ c = ':' ∧ d = ':'
      · obtain ⟨hb, hc, hd⟩ := hcond
        subst hb hc hd
        have h0 := ih false
        rw [replaceLineStartColons_false_cons, isLineTerminator_colon] at h0
        simp only [replaceLineStartColons, and_self, if_true]
        exact List.Sublist.cons₂ _ (List.Sublist.cons _ h0)
      · simp only [replaceLineStartColons, if_neg hcond]
        exact List.Sublist.cons₂ _ (ih _)

/-! ## Claims on `neutralizeWorkflowCommands` -/

/-- C29. For every string `text`, no line of `neutralizeWorkflowCommands text`
begins with `::`: the output does not start with `::`, no line terminator in
it (a line feed in particular) is immediately followed by `::`, and the
output is the input with `:` + U+200B + `:` in place of each `::` at a line
start. -/
theorem neutralize_no_line_start_colons (text : String) :
    NoLineStartsWithColons (neutralizeWorkflowCommands text).toList ∧
    ¬ [':', ':'] <+: (neutralizeWorkflowCommands text).toList ∧
    ¬ ['\n', ':', ':'] <:+: (neutralizeWorkflowCommands text).toList ∧
    (neutralizeWorkflowCommands text).toList = insertZeroWidthSpaces true text.toList := by
  have hno : NoLineStartsWithColons (neutralizeWorkflowCommands text).toList := by
    rw [neutralizeWorkflowCommands_toList]
    exact (hasLineStartColons_iff_noLineStart _).1 (hasLineStartColons_replace true _)
  refine ⟨hno, hno.1, hno.2 '\n' (by decide), ?_⟩
  rw [neutralizeWorkflowCommands_toList, replaceLineStartColons_eq_insert]

/-- Witness for C29: a text with `::` at its start and after a line feed. -/
theorem neutralize_no_line_start_colons_witness :
    NoLineStartsWithColons
      (neutralizeWorkflowCommands "::set-output name=x::y\n::warning::z").toList :=
  (neutralize_no_line_start_colons "::set-output name=x::y\n::warning::z").1

/-- C30. For every string `text` in which `::` stands neither at the start
nor immediately after a line terminator, `neutralizeWorkflowCommands text` is
`text`; and for every `text` the output is the input with one U+200B put
between the two colons of each `::` at a line start: it is as much longer as
there are such line starts, and the input is a subsequence of it. -/
theorem neutralize_fixes_clean_text (text : String) :
    (NoLineStartsWithColons text.toList → neutralizeWorkflowCommands text = text) ∧
    (neutralizeWorkflowCommands text).toList = insertZeroWidthSpaces true text.toList ∧
    (neutralizeWorkflowCommands text).length
      = text.length + countLineStartColons true text.toList ∧
    List.Sublist text.toList (neutralizeWorkflowCommands text).toList := by
  refine ⟨fun h => ?_, ?_, ?_, ?_⟩
  · exact String.ext ((neutralizeWorkflowCommands_toList text).trans
      (replaceLineStartColons_id true _ ((hasLineStartColons_iff_noLineStart _).2 h)))
  · rw [neutralizeWorkflowCommands_toList, replaceLineStartColons_eq_insert]
  · show (neutralizeWorkflowCommands text).toList.length = _
    rw [neutralizeWorkflowCommands_toList, replaceLineStartColons_length]
    rfl
  · rw [neutralizeWorkflowCommands_toList]
    exact sublist_replaceLineStartColons true _

/-- Witness for C30: `::` after leading whitespace and inside a line. -/
theorem neutralize_fixes_clean_text_witness :
    NoLineStartsWithColons "  ::notice a::b\n x::y".toList ∧
    neutralizeWorkflowCommands "  ::notice a::b\n x::y" = "  ::notice a::b\n x::y" :=
  ⟨(hasLineStartColons_iff_noLineStart _).1 (by decide),
   (neutralize_fixes_clean_text "  ::notice a::b\n x::y").1
     ((hasLineStartColons_iff_noLineStart _).1 (by decide))⟩

/-! ## The number of probe calls -/

theorem resolvePermissions_calls (github : Github) (token owner repo : String) :
    (resolvePermissions github token owner repo).2.2 =
      if (checkClassicTokenScopes github 0 token owner repo).1.scopes ≠ [] then 1 else 2 := by
  unfold resolvePermissions checkClassicTokenScopes checkFineGrainedTokenPermissions
  cases h0 : github 0 owner repo with
  | failure m => cases h1 : github (0 + 1) owner repo <;> simp [h1]
  | response headers =>
    by_cases hs : parseScopes ((headerGet headers "x-oauth-scopes").getD "") = []
    · cases h1 : github (0 + 1) owner repo <;> simp [hs, h1]
    · have hlen : 0 < (parseScopes ((headerGet headers "x-oauth-scopes").getD "")).length :=
        List.length_pos.2 hs
      simp [hs, hlen]

theorem validateTokenPermissions_calls (github : Github) (token owner repo : String)
    (kinds : List String) :
    (validateTokenPermissions github token owner repo kinds).2 =
      (resolvePermissions github token owner repo).2.2 := by
  unfold validateTokenPermissions
  dsimp only
  split <;> rfl

theorem resolvePermissions_tokenType (github : Github) (token owner repo : String) :
    (resolvePermissions github token owner repo).1 =
      if (checkClassicTokenScopes github 0 token owner repo).1.scopes ≠ [] then "classic"
      else "fine-grained" := by
  unfold resolvePermissions checkClassicTokenScopes
  cases h0 : github 0 owner repo with
  | failure m => simp
  | response headers =>
    by_cases hs : parseScopes ((headerGet headers "x-oauth-scopes").getD "") = []
    · simp [hs]
    · have hlen : 0 < (parseScopes ((headerGet headers "x-oauth-scopes").getD "")).length :=
        List.length_pos.2 hs
      simp [hs, hlen]

theorem validateTokenPermissions_tokenType (github : Github) (token owner repo : String)
    (kinds : List String) (r : TokenValidation)
    (h : (validateTokenPermissions github token owner repo kinds).1 = .ok r) :
    r.tokenType = (resolvePermissions github token owner repo).1 ∧
    r.permissions = (resolvePermissions github token owner repo).2.1 := by
  unfold validateTokenPermissions at h
  dsimp only at h
  split at h
  · cases h
  · simp only [Except.ok.injEq] at h
    subst h
    exact ⟨rfl, rfl⟩

/-- C31, as stated, fails: when the first response advertises no scope, the
probe is called a second time, by `checkFineGrainedTokenPermissions`. -/
theorem probe_called_twice_without_scopes :
    validateTokenPermissions (fun _ _ _ => .response []) "t" "o" "r" ["create_issue"] =
      (.ok { valid := false,
             results := [{ operationType := "create_issue", valid := false,
                           missing := ["issues:write"], optional := [],
                           description := "Create issues" }],
             permissions := fineGrainedPermissions, tokenType := "fine-grained" }, 2) := by
  decide

/-- C31, amended. The probe is called once when the first response advertises
at least one scope (the classic family) and twice otherwise (the fine-grained
family: once by `checkClassicTokenScopes`, once by
`checkFineGrainedTokenPermissions`); the number of calls is the same for every
batch, so never one per operation. -/
theorem probe_call_count (github : Github) (token owner repo : String) (kinds : List String) :
    (validateTokenPermissions github token owner repo kinds).2 =
      (if (checkClassicTokenScopes github 0 token owner repo).1.scopes ≠ [] then 1 else 2) ∧
    (validateTokenPermissions github token owner repo kinds).2 =
      (validateTokenPermissions github token owner repo []).2 ∧
    (∀ r, (validateTokenPermissions github token owner repo kinds).1 = .ok r →
      ((validateTokenPermissions github token owner repo kinds).2 = 1 ↔
        r.tokenType = "classic") ∧
      ((validateTokenPermissions github token owner repo kinds).2 = 2 ↔
        r.tokenType = "fine-grained")) := by
  refine ⟨?_, ?_, fun r hr => ?_⟩
  · rw [validateTokenPermissions_calls, resolvePermissions_calls]
  · rw [validateTokenPermissions_calls, validateTokenPermissions_calls]
  · rw [validateTokenPermissions_calls, resolvePermissions_calls,
      (validateTokenPermissions_tokenType github token owner repo kinds r hr).1,
      resolvePermissions_tokenType]
    by_cases hs : (checkClassicTokenScopes github 0 token owner repo).1.scopes = []
    · simp [hs]
    · simp [hs]

/-- Witness for C31 amended: a classic token and a batch of three kinds. -/
theorem probe_call_count_witness :
    (validateTokenPermissions (fun _ _ _ => .response [("x-oauth-scopes", "repo")]) "t" "o" "r"
      ["create_issue", "add_comment", "create_project"]).2 = 1 :=
  (probe_call_count (fun _ _ _ => .response [("x-oauth-scopes", "repo")]) "t" "o" "r"
    ["create_issue", "add_comment", "create_project"]).1.trans (by decide)

/-! ## Idempotence of `neutralizeWorkflowCommands` -/

/-- C40. Neutralising a neutralised text changes nothing. -/
theorem neutralize_idempotent (text : String) :
    neutralizeWorkflowCommands (neutralizeWorkflowCommands text) =
      neutralizeWorkflowCommands text := by
  apply String.ext
  have h := neutralizeWorkflowCommands_toList (neutralizeWorkflowCommands text)
  rw [neutralizeWorkflowCommands_toList text] at h
  have h2 := neutralizeWorkflowCommands_toList text
  show (neutralizeWorkflowCommands (neutralizeWorkflowCommands text)).toList =
    (neutralizeWorkflowCommands text).toList
  rw [h, h2]
  exact replaceLineStartColons_id true _ (hasLineStartColons_replace true _)

/-! ## Verdicts under particular permission maps -/

theorem validateLoop_flag_false (P : JSObj) (kinds : List String) (acc : List OperationResult)
    (r : List OperationResult × Bool) (h : validateLoop P kinds acc false = .ok r) :
    r.2 = false := by
  induction kinds generalizing acc with
  | nil =>
    simp only [validateLoop, Except.ok.injEq] at h
    subst h
    rfl
  | cons k rest ih =>
    unfold validateLoop at h
    cases hv : validateOperationPermissions P k with
    | error e => rw [hv] at h; cases h
    | ok v =>
      rw [hv] at h
      simp only [ite_self] at h
      exact ih _ h

/-- When the loop ends with `allValid` still true, every kind of the batch
got a valid verdict. -/
theorem validateLoop_all_valid (P : JSObj) (kinds : List String) (acc : List OperationResult)
    (b : Bool) (res : List OperationResult)
    (h : validateLoop P kinds acc b = .ok (res, true)) :
    ∀ k ∈ kinds, ∃ v, validateOperationPermissions P k = .ok v ∧ v.valid = true := by
  induction kinds generalizing acc b with
  | nil => intro k hk; cases hk
  | cons k rest ih =>
    unfold validateLoop at h
    cases hv : validateOperationPermissions P k with
    | error e => rw [hv] at h; cases h
    | ok v =>
      rw [hv] at h
      simp only at h
      have hvalid : v.valid = true := by
        cases hval : v.valid with
        | true => rfl
        | false =>
          rw [hval] at h
          have := validateLoop_flag_false P rest _ _ h
          cases this
      intro x hx
      rcases List.mem_cons.1 hx with rfl | hx2
      · exact ⟨v, hv, hvalid⟩
      · exact ih _ _ h x hx2

/-- Without advertised scopes the permission map is the conservative map or
the empty map. -/
theorem resolvePermissions_no_scopes (github : Github) (token owner repo : String)
    (h : (checkClassicTokenScopes github 0 token owner repo).1.scopes = []) :
    (resolvePermissions github token owner repo).2.1 = fineGrainedPermissions ∨
    (resolvePermissions github token owner repo).2.1 = [] := by
  unfold resolvePermissions
  dsimp only
  rw [h]
  unfold checkFineGrainedTokenPermissions
  cases github (checkClassicTokenScopes github 0 token owner repo).2 owner repo <;> simp

/-- Under the conservative map and under the empty map every registered kind
is invalid and misses its whole required list. -/
theorem registered_invalid_under_unknown :
    ∀ e ∈ OPERATION_PERMISSIONS,
      validateOperationPermissions fineGrainedPermissions e.1 =
        .ok { valid := false, missing := e.2.required, optional := e.2.optional.getD [],
              description := e.2.description } ∧
      validateOperationPermissions [] e.1 =
        .ok { valid := false, missing := e.2.required, optional := e.2.optional.getD [],
              description := e.2.description } := by
  decide

theorem registered_invalid_of_own (P : JSObj) (hP : P = fineGrainedPermissions ∨ P = [])
    {k : String} {req : OperationReq} (hk : registryOwn OPERATION_PERMISSIONS k = some req) :
    validateOperationPermissions P k =
      .ok { valid := false, missing := req.required, optional := req.optional.getD [],
            description := req.description } := by
  have h := registered_invalid_under_unknown (k, req) (registryOwn_mem hk)
  rcases hP with rfl | rfl
  · exact h.1
  · exact h.2

/-- C33. Under the map of a fine-grained credential (every category
`unknown`) and under the empty map of a failed probe, each of the 25
registered kinds is invalid with `missing` its whole required list; hence for a
credential without advertised scopes the aggregate is valid only when the
batch holds no registered kind, and it is valid when the batch holds only
unregistered kinds that are no inherited member names. -/
theorem unknown_levels_invalidate_registered (github : Github) (token owner repo : String)
    (kinds : List String)
    (hscopes : (checkClassicTokenScopes github 0 token owner repo).1.scopes = []) :
    OPERATION_PERMISSIONS.length = 25 ∧
    (∀ e ∈ OPERATION_PERMISSIONS, ∀ P, P = fineGrainedPermissions ∨ P = [] →
      validateOperationPermissions P e.1 =
        .ok { valid := false, missing := e.2.required, optional := e.2.optional.getD [],
              description := e.2.description }) ∧
    (∀ r, (validateTokenPermissions github token owner repo kinds).1 = .ok r →
      r.valid = true → ∀ k ∈ kinds, registryOwn OPERATION_PERMISSIONS k = none) ∧
    ((∀ k ∈ kinds, registryOwn OPERATION_PERMISSIONS k = none ∧ k ∉ objectPrototypeKeys) →
      ∃ r, (validateTokenPermissions github token owner repo kinds).1 = .ok r ∧
        r.valid = true) := by
  have hP := resolvePermissions_no_scopes github token owner repo hscopes
  refine ⟨rfl, ?_, ?_, ?_⟩
  · intro e he P hPe
    rcases hPe with rfl | rfl
    · exact (registered_invalid_under_unknown e he).1
    · exact (registered_invalid_under_unknown e he).2
  · intro r hr hvalid k hk
    unfold validateTokenPermissions at hr
    dsimp only at hr
    split at hr
    · cases hr
    · next results allValid hloop =>
      simp only [Except.ok.injEq] at hr
      subst hr
      simp only at hvalid
      subst hvalid
      obtain ⟨v, hv, hvv⟩ := validateLoop_all_valid _ kinds [] true results hloop k hk
      cases hown : registryOwn OPERATION_PERMISSIONS k with
      | none => rfl
      | some req =>
        rw [registered_invalid_of_own _ hP hown] at hv
        simp only [Except.ok.injEq] at hv
        subst hv
        cases hvv
  · intro hk
    obtain ⟨vs, hvs⟩ := exists_verdicts (resolvePermissions github token owner repo).2.1 kinds
      (fun k hkk => (hk k hkk).2)
    have hall : vs.all (fun v => v.valid) = true := by
      clear hP hscopes
      induction hvs with
      | nil => rfl
      | @cons k v ks vs' hkv _ ih =>
        have h1 := hk k (List.mem_cons_self _ _)
        rw [validateOperationPermissions_unregistered _ h1.1 h1.2] at hkv
        simp only [Except.ok.injEq] at hkv
        subst hkv
        simp only [List.all_cons, Bool.true_and]
        exact ih (fun x hx => hk x (List.mem_cons_of_mem _ hx))
    unfold validateTokenPermissions
    dsimp only
    rw [validateLoop_spec _ kinds vs hvs [] true]
    simp only [hall, Bool.and_self]
    exact ⟨_, rfl, rfl⟩

/-- Witness for C33: a response without scopes and a batch of two unregistered
kinds. -/
theorem unknown_levels_invalidate_registered_witness :
    ∃ r, (validateTokenPermissions (fun _ _ _ => .response []) "t" "o" "r"
        ["frobnicate", ""]).1 = .ok r ∧ r.valid = true :=
  (unknown_levels_invalidate_registered (fun _ _ _ => .response []) "t" "o" "r"
    ["frobnicate", ""] (by decide)).2.2.2 (by decide)

/-- C36. Under the map of the scope list `[repo]`, a registered kind is valid
exactly when all its required categories are among contents, issues and
pull_requests: the 18 issue, comment, pull-request, release and asset kinds
are valid with empty `missing` and `optional`, the 7 discussion and project
kinds are invalid. -/
theorem classic_repo_verdicts :
    mapScopesToPermissions ["repo"] =
      permsOf (.str "write") (.str "write") (.str "write") (.str "none") (.str "none") ∧
    (∀ e ∈ OPERATION_PERMISSIONS,
      (validateOperationPermissions (mapScopesToPermissions ["repo"]) e.1).map
          (fun v => v.valid) =
        .ok (e.2.required.all
          (fun f => decide ((splitFact f).1 ∈ ["contents", "issues", "pull_requests"])))) ∧
    (∀ k ∈ ["create_issue", "update_issue", "close_issue", "add_comment", "hide_comment",
        "add_labels", "remove_labels", "assign_milestone", "assign_to_user", "assign_to_agent",
        "add_reviewer", "link_sub_issue", "create_pull_request", "update_pull_request",
        "close_pull_request", "mark_pull_request_as_ready_for_review", "update_release",
        "upload_assets"],
      (registryOwn OPERATION_PERMISSIONS k).isSome = true ∧
      (validateOperationPermissions (mapScopesToPermissions ["repo"]) k).map
          (fun v => (v.valid, v.missing, v.optional)) = .ok (true, [], [])) ∧
    (∀ k ∈ ["create_discussion", "update_discussion", "close_discussion", "create_project",
        "update_project", "copy_project", "create_project_status_update"],
      (registryOwn OPERATION_PERMISSIONS k).isSome = true ∧
      (validateOperationPermissions (mapScopesToPermissions ["repo"]) k).map
          (fun v => v.valid) = .ok false) ∧
    (∀ e ∈ OPERATION_PERMISSIONS,
      e.1 ∈ ["create_issue", "update_issue", "close_issue", "add_comment", "hide_comment",
        "add_labels", "remove_labels", "assign_milestone", "assign_to_user", "assign_to_agent",
        "add_reviewer", "link_sub_issue", "create_pull_request", "update_pull_request",
        "close_pull_request", "mark_pull_request_as_ready_for_review", "update_release",
        "upload_assets"] ∨
      e.1 ∈ ["create_discussion", "update_discussion", "close_discussion", "create_project",
        "update_project", "copy_project", "create_project_status_update"]) := by
  refine ⟨?_, ?_, ?_, ?_, ?_⟩ <;> decide

/-! ## The last scope wins -/

theorem scopeAssigns_isSome_iff (s c : String) :
    (scopeAssigns s c).isSome = true ↔ s ∈ affectingScopes c := by
  unfold scopeAssigns affectingScopes
  by_cases h1 : c = "contents"
  · simp only [h1, if_true]
    by_cases a : s = "repo" <;> by_cases b : s = "public_repo" <;>
      by_cases d : s = "repo:status" <;> by_cases e : s = "repo_deployment" <;>
      simp [a, b, d, e]
  · by_cases h2 : c = "issues" ∨ c = "pull_requests"
    · simp only [h1, h2, if_true, if_false]
      by_cases a : s = "repo" <;> by_cases b : s = "public_repo" <;> simp [a, b]
    · by_cases h3 : c = "discussions"
      · simp only [h1, h2, h3, if_true, if_false]
        by_cases a : s = "write:discussion" <;> by_cases b : s = "read:discussion" <;>
          simp [a, b]
      · by_cases h4 : c = "projects"
        · simp only [h1, h2, h3, h4, if_true, if_false]
          by_cases a : s = "project" <;> by_cases b : s = "read:project" <;> simp [a, b]
        · simp [h1, h2, h3, h4]

theorem levelAfter_of_affecting {s c : String} (h : s ∈ affectingScopes c) (old old' : JSVal) :
    levelAfter s c old = levelAfter s c old' := by
  have h1 := (scopeAssigns_isSome_iff s c).2 h
  unfold levelAfter
  cases hsa : scopeAssigns s c with
  | none => rw [hsa] at h1; cases h1
  | some l => rfl

theorem levelAfter_of_not_affecting {s c : String} (h : s ∉ affectingScopes c) (old : JSVal) :
    levelAfter s c old = old := by
  unfold levelAfter
  cases hsa : scopeAssigns s c with
  | none => rfl
  | some l =>
    exfalso
    apply h
    apply (scopeAssigns_isSome_iff s c).1
    rw [hsa]
    rfl

/-- The value a category ends with is the one the last affecting scope
assigns, or the initial value when no scope affects the category. -/
theorem levelAfterAll_last (S : List String) (c : String) (old : JSVal) :
    levelAfterAll S c old =
      match lastAffecting S c with
      | some s => levelAfter s c old
      | none => old := by
  induction S using List.reverseRecOn with
  | nil => rfl
  | append_singleton S s ih =>
    rw [levelAfterAll_append]
    unfold lastAffecting at ih ⊢
    rw [List.reverse_append, List.reverse_singleton, List.singleton_append, List.find?_cons]
    by_cases hs : s ∈ affectingScopes c
    · simp only [hs, decide_True]
      exact levelAfter_of_affecting hs _ _
    · simp only [hs, decide_False]
      rw [levelAfter_of_not_affecting hs, ih]

theorem getProp_permsOf {c : String} (hc : c ∈ categories) (v0 v1 v2 v3 v4 : JSVal) :
    getProp (permsOf v0 v1 v2 v3 v4) c =
      if c = "contents" then v0 else if c = "issues" then v1
      else if c = "pull_requests" then v2 else if c = "discussions" then v3 else v4 := by
  simp only [categories, List.mem_cons, List.mem_singleton, List.not_mem_nil, or_false] at hc
  rcases hc with rfl | rfl | rfl | rfl | rfl <;> rfl

theorem getProp_mapScopesToPermissions (S : List String) {c : String} (hc : c ∈ categories) :
    getProp (mapScopesToPermissions S) c = levelAfterAll S c (.str "none") := by
  rw [mapScopesToPermissions_eq, getProp_permsOf hc]
  simp only [categories, List.mem_cons, List.mem_singleton, List.not_mem_nil, or_false] at hc
  rcases hc with rfl | rfl | rfl | rfl | rfl <;> simp

/-- C35. For every list of scopes, the level of each category is the level
assigned by the last scope of the list that affects the category (`repo`,
`public_repo`, `repo:status`, `repo_deployment` for contents; `repo`,
`public_repo` for issues and pull_requests; `write:discussion`,
`read:discussion` for discussions; `project`, `read:project` for projects),
and none when no scope affects it; the map has exactly the five categories,
with levels among none, read, write. -/
theorem mapScopes_last_writer (S : List String) :
    keysOf (mapScopesToPermissions S) = categories ∧
    (∀ c ∈ categories, getProp (mapScopesToPermissions S) c =
      match lastAffecting S c with
      | some s => getProp (mapScopesToPermissions [s]) c
      | none => JSVal.str "none") ∧
    (∀ c ∈ categories, IsLevel (getProp (mapScopesToPermissions S) c)) ∧
    (∀ c s, s ∈ affectingScopes c ↔
      c ∈ categories ∧ getProp (mapScopesToPermissions [s]) c ≠ JSVal.str "none") := by
  refine ⟨?_, ?_, ?_, ?_⟩
  · rw [mapScopesToPermissions_eq]
    rfl
  · intro c hc
    rw [getProp_mapScopesToPermissions S hc, levelAfterAll_last]
    cases lastAffecting S c with
    | none => rfl
    | some s =>
      simp only
      rw [getProp_mapScopesToPermissions [s] hc]
      rfl
  · intro c hc
    rw [getProp_mapScopesToPermissions S hc]
    exact isLevel_levelAfterAll (Or.inl rfl) S c
  · intro c s
    constructor
    · intro hs
      have hc : c ∈ categories := by
        unfold affectingScopes at hs
        simp only [categories, List.mem_cons, List.mem_singleton, List.not_mem_nil, or_false]
        by_cases h1 : c = "contents"
        · exact Or.inl h1
        · by_cases h2 : c = "issues" ∨ c = "pull_requests"
          · rcases h2 with h2 | h2
            · exact Or.inr (Or.inl h2)
            · exact Or.inr (Or.inr (Or.inl h2))
          · by_cases h3 : c = "discussions"
            · exact Or.inr (Or.inr (Or.inr (Or.inl h3)))
            · by_cases h4 : c = "projects"
              · exact Or.inr (Or.inr (Or.inr (Or.inr h4)))
              · simp [h1, h2, h3, h4] at hs
      refine ⟨hc, ?_⟩
      rw [getProp_mapScopesToPermissions [s] hc]
      have h1 := (scopeAssigns_isSome_iff s c).2 hs
      show levelAfter s c (JSVal.str "none") ≠ JSVal.str "none"
      unfold levelAfter
      rcases scopeAssigns_cases s c with h | h | h
      · rw [h] at h1; cases h1
      · rw [h]; decide
      · rw [h]; decide
    · rintro ⟨hc, hne⟩
      by_contra hs
      apply hne
      rw [getProp_mapScopesToPermissions [s] hc]
      exact levelAfter_of_not_affecting hs _

/-- Witness for C35: `repo:status` after `repo` leaves contents at read. -/
theorem mapScopes_last_writer_witness :
    getProp (mapScopesToPermissions ["repo", "repo:status", "gist"]) "contents" =
      JSVal.str "read" :=
  ((mapScopes_last_writer ["repo", "repo:status", "gist"]).2.1 "contents" (by decide)).trans
    (by decide)

/-! ## Monotonicity of the validator -/

theorem factMet_mono {P P' : JSObj} (hle : ∀ c, levelIn P c ≤ levelIn P' c) (f : String)
    (h : factMet P f = true) : factMet P' f = true := by
  unfold factMet at h ⊢
  split at h
  · next category level heq =>
    simp only [decide_eq_true_eq] at h ⊢
    exact le_trans h (hle category)
  · cases h

theorem filter_sublist_of_imp {p q : String → Bool} (l : List String)
    (h : ∀ a ∈ l, p a = true → q a = true) : List.Sublist (l.filter p) (l.filter q) := by
  induction l with
  | nil => exact List.Sublist.refl _
  | cons a rest ih =>
    have ih2 := ih (fun x hx => h x (List.mem_cons_of_mem _ hx))
    by_cases hp : p a = true
    · have hq := h a (List.mem_cons_self _ _) hp
      rw [List.filter_cons_of_pos hp, List.filter_cons_of_pos hq]
      exact List.Sublist.cons₂ _ ih2
    · rw [List.filter_cons_of_neg hp]
      by_cases hq : q a = true
      · rw [List.filter_cons_of_pos hq]
        exact List.Sublist.cons _ ih2
      · rw [List.filter_cons_of_neg hq]
        exact ih2

theorem isUnmet_anti {P P' : JSObj} (hP : WellLeveled P) (hP' : WellLeveled P')
    (hle : ∀ c, levelIn P c ≤ levelIn P' c) {f : String} (hf : f ∈ registryFacts)
    (h : isUnmet P' f = true) : isUnmet P f = true := by
  rw [registryFact_isUnmet hP' hf] at h
  rw [registryFact_isUnmet hP hf]
  cases hm : factMet P f with
  | false => rfl
  | true =>
    rw [factMet_mono hle f hm] at h
    cases h

/-- C34. For permission maps `P` and `P'` with levels among none/read/write
such that `P'` grants every category at least the level `P` grants, and for
every kind: when `P` gets a verdict so does `P'`, validity under `P` implies
validity under `P'`, and the `missing` and `optional` lists under `P'` are
sublists of those under `P`.  A verdict exists for every kind that is no
inherited member name. -/
theorem validate_monotone (P P' : JSObj) (K : String) (hP : WellLeveled P)
    (hP' : WellLeveled P') (hle : ∀ c, levelIn P c ≤ levelIn P' c) :
    (∀ v, validateOperationPermissions P K = .ok v →
      ∃ v', validateOperationPermissions P' K = .ok v' ∧
        (v.valid = true → v'.valid = true) ∧
        List.Sublist v'.missing v.missing ∧ List.Sublist v'.optional v.optional) ∧
    (K ∉ objectPrototypeKeys → ∃ v, validateOperationPermissions P K = .ok v) := by
  refine ⟨fun v hv => ?_, fun hK => validateOperationPermissions_returns P hK⟩
  cases hown : registryOwn OPERATION_PERMISSIONS K with
  | none =>
    by_cases hp : K ∈ objectPrototypeKeys
    · rw [validateOperationPermissions_inherited P hown hp] at hv
      cases hv
    · rw [validateOperationPermissions_unregistered P hown hp] at hv
      simp only [Except.ok.injEq] at hv
      subst hv
      exact ⟨_, validateOperationPermissions_unregistered P' hown hp, fun _ => rfl,
        List.Sublist.refl _, List.Sublist.refl _⟩
  | some req =>
    have hmem := registryOwn_mem hown
    have hreq : ∀ f ∈ req.required, f ∈ registryFacts := registry_required_facts (K, req) hmem
    have hopt : ∀ f ∈ req.optional.getD [], f ∈ registryFacts :=
      registry_optional_facts (K, req) hmem
    rw [validateOperationPermissions_entry P hown] at hv
    simp only [Except.ok.injEq] at hv
    subst hv
    refine ⟨_, validateOperationPermissions_entry P' hown, ?_, ?_, ?_⟩
    · have hsub : List.Sublist
          (if req.requiresAny = true then
            (if req.required.any (satisfiesAny P') = true then [] else req.required)
           else req.required.filter (isUnmet P'))
          (if req.requiresAny = true then
            (if req.required.any (satisfiesAny P) = true then [] else req.required)
           else req.required.filter (isUnmet P)) := by
        cases hany : req.requiresAny with
        | false =>
          simp only [Bool.false_eq_true, if_false]
          exact filter_sublist_of_imp _ (fun f hf h => isUnmet_anti hP hP' hle (hreq f hf) h)
        | true =>
          simp only [if_true]
          rw [any_satisfiesAny_eq hP hreq, any_satisfiesAny_eq hP' hreq]
          cases hA : req.required.any (factMet P) with
          | false =>
            simp only [Bool.false_eq_true, if_false]
            split
            · exact List.nil_sublist _
            · exact List.Sublist.refl _
          | true =>
            have hA' : req.required.any (factMet P') = true := by
              rw [List.any_eq_true] at hA ⊢
              obtain ⟨f, hf, hm⟩ := hA
              exact ⟨f, hf, factMet_mono hle f hm⟩
            simp only [hA', if_true]
            exact List.Sublist.refl _
      simp only [beq_iff_eq, List.length_eq_zero]
      intro h0
      rw [h0] at hsub
      exact List.sublist_nil.1 hsub
    · simp only
      cases hany : req.requiresAny with
      | false =>
        simp only [Bool.false_eq_true, if_false]
        exact filter_sublist_of_imp _ (fun f hf h => isUnmet_anti hP hP' hle (hreq f hf) h)
      | true =>
        simp only [if_true]
        rw [any_satisfiesAny_eq hP hreq, any_satisfiesAny_eq hP' hreq]
        cases hA : req.required.any (factMet P) with
        | false =>
          simp only [Bool.false_eq_true, if_false]
          split
          · exact List.nil_sublist _
          · exact List.Sublist.refl _
        | true =>
          have hA' : req.required.any (factMet P') = true := by
            rw [List.any_eq_true] at hA ⊢
            obtain ⟨f, hf, hm⟩ := hA
            exact ⟨f, hf, factMet_mono hle f hm⟩
          simp only [hA', if_true]
          exact List.Sublist.refl _
    · exact filter_sublist_of_imp _ (fun f hf h => isUnmet_anti hP hP' hle (hopt f hf) h)

/-- Witness for C34: raising issues from read to write on `update_project`. -/
theorem validate_monotone_witness :
    ∃ v', validateOperationPermissions
        [("projects", JSVal.str "write"), ("issues", JSVal.str "write")] "update_project"
          = .ok v' ∧
      (true = true → v'.valid = true) ∧
      List.Sublist v'.missing [] ∧ List.Sublist v'.optional ["issues:write"] :=
  (validate_monotone [("projects", JSVal.str "write"), ("issues", JSVal.str "read")]
    [("projects", JSVal.str "write"), ("issues", JSVal.str "write")] "update_project"
    (by decide) (by decide)
    (by
      intro c
      unfold levelIn getOwn getOwn getOwn
      by_cases h1 : "projects" = c
      · simp [h1]
      · by_cases h2 : "issues" = c
        · simp [h1, h2, rankOfLevel]
        · simp [h1, h2])).1
    { valid := true, missing := [], optional := ["issues:write"],
      description := "Update GitHub Projects" } (by decide)

/-! ## The body keys of a payload -/

theorem titleStep_getOwn_other (item : JSObj) (can : Bool) {k : String} (h : k ≠ "title") :
    getOwn (titleStep item can).1 k = none := by
  rw [getOwn_eq_none_iff]
  intro hk
  exact h (mem_keysOf_titleStep hk).1

/-- Without `_rawBody` among the additional fields, the payload state holds
`_rawBody` exactly when the body step copied, with the body of the
instruction. -/
theorem payloadState_getOwn_rawBody (item config : JSObj) (pc : BuildPayloadConfig)
    (hraw : "_rawBody" ∉ pc.additionalFields.getD []) :
    getOwn (payloadState item config pc).1 "_rawBody" =
      if bodyCopied item config pc = true then some (getProp item "body") else none := by
  unfold payloadState
  rw [copyAdditionalFields_getOwn_stable _ _ _ _ _ (fun h => absurd h hraw),
    stateStep_getOwn_other _ _ _ (by decide)]
  by_cases hb : bodyCopied item config pc = true
  · rw [if_pos hb]
    unfold bodyCopied at hb
    simp only [Bool.and_eq_true, decide_eq_true_eq] at hb
    exact bodyStep_getOwn_rawBody _ _ _ _ hb.1 hb.2
  · rw [if_neg hb]
    unfold bodyCopied at hb
    rw [bodyStep_none _ _ _ _ (by simpa using hb)]
    exact titleStep_getOwn_other _ _ (by decide)

/-- Without `_operation` among the additional fields, the payload state holds
`_operation` exactly when the body step copied. -/
theorem payloadState_getOwn_operation (item config : JSObj) (pc : BuildPayloadConfig)
    (hop : "_operation" ∉ pc.additionalFields.getD []) :
    getOwn (payloadState item config pc).1 "_operation" =
      if bodyCopied item config pc = true then
        some (((getProp item "operation").or (getProp config "default_operation")).or
          (JSVal.str (pc.defaultOperation.getD "append")))
      else none := by
  unfold payloadState
  rw [copyAdditionalFields_getOwn_stable _ _ _ _ _ (fun h => absurd h hop),
    stateStep_getOwn_other _ _ _ (by decide)]
  by_cases hb : bodyCopied item config pc = true
  · rw [if_pos hb]
    unfold bodyCopied at hb
    simp only [Bool.and_eq_true, decide_eq_true_eq] at hb
    exact bodyStep_getOwn_operation _ _ _ _ hb.1 hb.2
  · rw [if_neg hb]
    unfold bodyCopied at hb
    rw [bodyStep_none _ _ _ _ (by simpa using hb)]
    exact titleStep_getOwn_other _ _ (by decide)

theorem mem_keysOf_iff_getOwn (o : JSObj) (k : String) :
    k ∈ keysOf o ↔ getOwn o k ≠ none := by
  rw [Ne, getOwn_eq_none_iff, not_not]

theorem payload_data_eq (item config : JSObj) (pc : BuildPayloadConfig) (d : JSObj)
    (hd : (buildUpdatePayloadData item config pc).data = some d) :
    d = (payloadState item config pc).1 := by
  rw [buildUpdatePayloadData_eq] at hd
  split at hd
  · cases hd
  · simp only [Option.some.injEq] at hd
    exact hd.symm

/-- C38. When `additionalFields` names neither `_operation` nor `_rawBody`, a
payload has the key `_operation` exactly when it has the key `_rawBody`, and
it has both exactly when body is allowed and the instruction carries a body;
in that case a payload is returned. -/
theorem operation_key_iff_rawBody_key (item config : JSObj) (pc : BuildPayloadConfig)
    (hop : "_operation" ∉ pc.additionalFields.getD [])
    (hraw : "_rawBody" ∉ pc.additionalFields.getD []) :
    (∀ d, (buildUpdatePayloadData item config pc).data = some d →
      ("_operation" ∈ keysOf d ↔ "_rawBody" ∈ keysOf d) ∧
      ("_rawBody" ∈ keysOf d ↔
        (bodyAllowed config pc = true ∧ getProp item "body" ≠ JSVal.undefined))) ∧
    ((bodyAllowed config pc = true ∧ getProp item "body" ≠ JSVal.undefined) →
      ∃ d, (buildUpdatePayloadData item config pc).data = some d ∧
        "_operation" ∈ keysOf d ∧ "_rawBody" ∈ keysOf d) := by
  have hbc : bodyCopied item config pc = true ↔
      (bodyAllowed config pc = true ∧ getProp item "body" ≠ JSVal.undefined) := by
    unfold bodyCopied
    simp
  have hr := payloadState_getOwn_rawBody item config pc hraw
  have ho := payloadState_getOwn_operation item config pc hop
  have hkeys : ("_operation" ∈ keysOf (payloadState item config pc).1 ↔
        bodyCopied item config pc = true) ∧
      ("_rawBody" ∈ keysOf (payloadState item config pc).1 ↔
        bodyCopied item config pc = true) := by
    rw [mem_keysOf_iff_getOwn, mem_keysOf_iff_getOwn, hr, ho]
    by_cases hb : bodyCopied item config pc = true <;> simp [hb]
  refine ⟨fun d hd => ?_, fun hb => ?_⟩
  · rw [payload_data_eq item config pc d hd]
    exact ⟨hkeys.1.trans hkeys.2.symm, hkeys.2.trans hbc⟩
  · have hb2 := hbc.2 hb
    have hany : anyCopied item config pc = true := by
      simp [anyCopied, hb2]
    refine ⟨(payloadState item config pc).1, ?_, hkeys.1.2 hb2, hkeys.2.2 hb2⟩
    rw [buildUpdatePayloadData_copied item config pc hany]

/-- Witness for C38: a body with the toggle left open. -/
theorem operation_key_iff_rawBody_key_witness :
    ∃ d, (buildUpdatePayloadData [("body", JSVal.str "B"), ("title", JSVal.str "T")] []
        { additionalFields := some ["labels"] }).data = some d ∧
      "_operation" ∈ keysOf d ∧ "_rawBody" ∈ keysOf d :=
  (operation_key_iff_rawBody_key [("body", JSVal.str "B"), ("title", JSVal.str "T")] []
    { additionalFields := some ["labels"] } (by decide) (by decide)).2 (by decide)

/-! ## The flag `hasUpdates` and the keys of the payload -/

theorem keysOf_ne_nil_of_getOwn {o : JSObj} {k : String} {v : JSVal}
    (h : getOwn o k = some v) : o ≠ [] := by
  intro ho
  subst ho
  simp [getOwn] at h

/-- When `additionalFields` does not name `__proto__`, the flag `hasUpdates`
is set exactly when the payload state has a key. -/
theorem payload_flag_iff_nonempty (item config : JSObj) (pc : BuildPayloadConfig)
    (hproto : "__proto__" ∉ pc.additionalFields.getD []) :
    (payloadState item config pc).2 = true ↔ (payloadState item config pc).1 ≠ [] := by
  constructor
  · intro hflag
    rw [payloadState_flag] at hflag
    by_cases hadd : additionalCopied item pc = true
    · unfold additionalCopied at hadd
      rw [List.any_eq_true] at hadd
      obtain ⟨f, hf, hv⟩ := hadd
      simp only [decide_eq_true_eq] at hv
      have hfp : f ≠ "__proto__" := fun e => hproto (e ▸ hf)
      unfold payloadState
      exact keysOf_ne_nil_of_getOwn
        (copyAdditionalFields_getOwn_copied item _ f _ _ hf hv hfp)
    · have hadd2 : (pc.additionalFields.getD []).any
          (fun f => decide (getProp item f ≠ JSVal.undefined)) = false := by
        simpa [additionalCopied] using hadd
      unfold payloadState
      rw [copyAdditionalFields_none item _ _ _ hadd2]
      by_cases hst : stateCopied item pc = true
      · unfold stateCopied at hst
        by_cases hs : getProp item "state" ≠ JSVal.undefined
        · exact keysOf_ne_nil_of_getOwn (stateStep_getOwn_state item _ _ hs)
        · have hs2 : getProp item "state" = JSVal.undefined := not_not.1 hs
          simp only [hs2, ne_eq, not_true_eq_false, decide_False, Bool.false_or,
            Bool.and_eq_true, decide_eq_true_eq] at hst
          exact keysOf_ne_nil_of_getOwn (stateStep_getOwn_status item _ hs2 hst.1 hst.2)
      · have hstF : stateCopied item pc = false := by simpa using hst
        have hst2 := hstF
        unfold stateCopied at hst2
        simp only [Bool.or_eq_false_iff, decide_eq_false_iff_not, not_not] at hst2
        rw [stateStep_none item _ hst2.1 hst2.2]
        by_cases hb : bodyCopied item config pc = true
        · unfold bodyCopied at hb
          simp only [Bool.and_eq_true, decide_eq_true_eq] at hb
          exact keysOf_ne_nil_of_getOwn (bodyStep_getOwn_rawBody _ _ _ _ hb.1 hb.2)
        · have hb2 : bodyCopied item config pc = false := by simpa using hb
          have hb3 := hb2
          unfold bodyCopied at hb3
          rw [bodyStep_none _ _ _ _ hb3]
          have ht : titleCopied item config pc = true := by
            simpa [anyCopied, hadd, hstF, hb2] using hflag
          unfold titleCopied at ht
          simp only [Bool.and_eq_true, decide_eq_true_eq] at ht
          exact keysOf_ne_nil_of_getOwn (titleStep_getOwn_title _ ht.1 ht.2)
  · intro hne
    by_contra hflag
    have hflag2 : (payloadState item config pc).2 = false := by simpa using hflag
    rw [payloadState_flag] at hflag2
    exact hne (payloadState_nothing item config pc hflag2)

/-- The result always has `success = true`. -/
theorem buildUpdatePayloadData_success (item config : JSObj) (pc : BuildPayloadConfig) :
    (buildUpdatePayloadData item config pc).success = true := by
  rw [buildUpdatePayloadData_eq]
  split <;> rfl

/-- C39 (code defect). With `additionalFields = [__proto__]` the read
`item["__proto__"]` of any plain instruction finds the prototype object, the
flag `hasUpdates` is set, the write `updateData["__proto__"] = ...` creates no
key, and with `requireUpdates = true` the empty payload is returned instead
of the skip result. -/
theorem flag_set_with_empty_payload :
    (payloadState [] [] { additionalFields := some ["__proto__"], requireUpdates := some true }).2
      = true ∧
    (payloadState [] [] { additionalFields := some ["__proto__"], requireUpdates := some true }).1
      = [] ∧
    buildUpdatePayloadData [] []
        { additionalFields := some ["__proto__"], requireUpdates := some true } =
      { success := true, data := some [] } := by
  decide

/-! ## The payload of a pull-request update -/

theorem getProp_of_getOwn {o : JSObj} {k : String} {v : JSVal} (h : getOwn o k = some v) :
    getProp o k = v := by
  unfold getProp
  rw [h]

theorem getProp_of_getOwn_none {o : JSObj} {k : String} (h : getOwn o k = none)
    (hk : k ∉ objectPrototypeKeys) : getProp o k = JSVal.undefined := by
  unfold getProp
  rw [h]
  simp only [hk, if_false]

theorem anyCopied_prPayloadConfig (item config : JSObj) :
    anyCopied item config prPayloadConfig = false ↔
      (titleCopied item config prPayloadConfig = false ∧
       bodyCopied item config prPayloadConfig = false ∧
       getProp item "state" = JSVal.undefined ∧ getProp item "base" = JSVal.undefined) := by
  simp [anyCopied, stateCopied, additionalCopied, prPayloadConfig, and_assoc]

/-- C37. `buildPRUpdateData` returns the result of the shared builder run with
`defaultOperation` `replace`, `additionalFields` `[base]` and `requireUpdates`
true, with `body` added when the body was accepted: then the payload has
`body = _rawBody = item.body` and `_operation` the first non-empty of
`item.operation`, `config.default_operation` and `replace`.  It returns the
skip result exactly when the instruction carries no allowed title, no allowed
body, no state and no base. -/
theorem buildPRUpdateData_spec (item config : JSObj) :
    ∃ r, buildPRUpdateData item config = .ok r ∧
      (r = skipResult ↔
        (titleCopied item config prPayloadConfig = false ∧
         bodyCopied item config prPayloadConfig = false ∧
         getProp item "state" = JSVal.undefined ∧ getProp item "base" = JSVal.undefined)) ∧
      (bodyCopied item config prPayloadConfig = false →
        r = buildUpdatePayloadData item config prPayloadConfig) ∧
      (bodyCopied item config prPayloadConfig = true →
        ∃ d0 v, buildUpdatePayloadData item config prPayloadConfig =
            { success := true, data := some d0 } ∧
          r = { success := true, data := some (setProp d0 "body" (getProp item "body")) } ∧
          getOwn (setProp d0 "body" (getProp item "body")) "body" = some (getProp item "body") ∧
          getOwn (setProp d0 "body" (getProp item "body")) "_rawBody" =
            some (getProp item "body") ∧
          firstNonEmpty [getProp item "operation", getProp config "default_operation",
            JSVal.str "replace"] = some v ∧
          getOwn (setProp d0 "body" (getProp item "body")) "_operation" = some v) ∧
      prPayloadConfig = { defaultOperation := some "replace", additionalFields := some ["base"],
                          requireUpdates := some true } := by
  have hraw := payloadState_getOwn_rawBody item config prPayloadConfig (by decide)
  have hop := payloadState_getOwn_operation item config prPayloadConfig (by decide)
  by_cases hany : anyCopied item config prPayloadConfig = true
  · have hres := buildUpdatePayloadData_copied item config prPayloadConfig hany
    have hnskip : ¬ (titleCopied item config prPayloadConfig = false ∧
         bodyCopied item config prPayloadConfig = false ∧
         getProp item "state" = JSVal.undefined ∧ getProp item "base" = JSVal.undefined) := by
      rw [← anyCopied_prPayloadConfig, hany]
      decide
    by_cases hb : bodyCopied item config prPayloadConfig = true
    · rw [if_pos hb] at hraw hop
      have hbody : getProp item "body" ≠ JSVal.undefined := by
        unfold bodyCopied at hb
        simp only [Bool.and_eq_true, decide_eq_true_eq] at hb
        exact hb.2
      have hgp : getProp (payloadState item config prPayloadConfig).1 "_rawBody" =
          getProp item "body" := getProp_of_getOwn hraw
      have hval : buildPRUpdateData item config =
          .ok { success := true,
                data := some (setProp (payloadState item config prPayloadConfig).1 "body"
                  (getProp item "body")) } := by
        unfold buildPRUpdateData
        simp only [hres, Option.isSome_none, Bool.not_false, Bool.and_self, if_true, hgp]
        rw [if_pos hbody]
      have hfirst : ∃ v, firstNonEmpty [getProp item "operation",
          getProp config "default_operation", JSVal.str "replace"] = some v ∧
          ((getProp item "operation").or (getProp config "default_operation")).or
            (JSVal.str "replace") = v := by
        cases hf : firstNonEmpty [getProp item "operation",
            getProp config "default_operation", JSVal.str "replace"] with
        | some v =>
          exact ⟨v, rfl, (or_or_eq_of_firstNonEmpty _ _ _).1 v hf⟩
        | none =>
          unfold firstNonEmpty at hf
          rw [List.find?_eq_none] at hf
          have h3 := hf (JSVal.str "replace") (by simp)
          exact absurd (by decide : JSVal.truthy (JSVal.str "replace") = true) h3
      obtain ⟨v, hv1, hv2⟩ := hfirst
      refine ⟨_, hval, ?_, ?_, ?_, rfl⟩
      · constructor
        · intro h
          cases h
        · intro h
          exact absurd h hnskip
      · intro hbf
        rw [hb] at hbf
        cases hbf
      · intro _
        refine ⟨(payloadState item config prPayloadConfig).1, v, hres, rfl, ?_, ?_, hv1, ?_⟩
        · exact getOwn_setProp_same _ _ (by decide)
        · rw [getOwn_setProp_other _ _ (by decide), hraw]
        · rw [getOwn_setProp_other _ _ (by decide), hop, ← hv2]
          rfl
    · have hbF : bodyCopied item config prPayloadConfig = false := by simpa using hb
      rw [if_neg hb] at hraw
      have hgp : getProp (payloadState item config prPayloadConfig).1 "_rawBody" =
          JSVal.undefined := getProp_of_getOwn_none hraw (by decide)
      have hval : buildPRUpdateData item config =
          .ok { success := true, data := some (payloadState item config prPayloadConfig).1 } := by
        unfold buildPRUpdateData
        simp only [hres, Option.isSome_none, Bool.not_false, Bool.and_self, if_true, hgp]
        simp
      refine ⟨_, hval, ?_, ?_, ?_, rfl⟩
      · constructor
        · intro h
          cases h
        · intro h
          exact absurd h hnskip
      · intro _
        exact hres.symm
      · intro hbt
        exact absurd hbt hb
  · have hanyF : anyCopied item config prPayloadConfig = false := by simpa using hany
    have hres : buildUpdatePayloadData item config prPayloadConfig = skipResult := by
      rw [buildUpdatePayloadData_eq, payloadState_flag, hanyF]
      rfl
    have hval : buildPRUpdateData item config = .ok skipResult := by
      unfold buildPRUpdateData
      rw [hres]
      rfl
    have hskip := (anyCopied_prPayloadConfig item config).1 hanyF
    refine ⟨_, hval, ?_, ?_, ?_, rfl⟩
    · exact ⟨fun _ => hskip, fun _ => rfl⟩
    · intro _
      exact hres.symm
    · intro hbt
      rw [hskip.2.1] at hbt
      cases hbt

/-! ## The cost format -/

theorem digitChar_spec (k : Nat) (h : k < 10) :
    (Nat.digitChar k).isDigit = true ∧ (Nat.digitChar k).toNat - 48 = k := by
  interval_cases k <;> exact ⟨by decide, by decide⟩

theorem foldl_digits (acc : Nat) (b : List Char) :
    b.foldl (fun acc c => 10 * acc + (c.toNat - 48)) acc =
      acc * 10 ^ b.length + digitsValue b := by
  unfold digitsValue
  induction b using List.reverseRecOn generalizing acc with
  | nil => simp
  | append_singleton b c ih =>
    simp only [List.foldl_append, List.foldl_cons, List.foldl_nil, List.length_append,
      List.length_singleton]
    rw [ih acc]
    ring

theorem digitsValue_append (a b : List Char) :
    digitsValue (a ++ b) = digitsValue a * 10 ^ b.length + digitsValue b := by
  unfold digitsValue
  rw [List.foldl_append, foldl_digits]
  rfl

theorem digitsValue_zeros (k : Nat) : digitsValue (List.replicate k '0') = 0 := by
  induction k with
  | zero => rfl
  | succ k ih =>
    rw [List.replicate_succ', digitsValue_append, ih]
    rfl

theorem toDigitsCore_spec (fuel : Nat) : ∀ (n : Nat) (ds : List Char), n < fuel →
    ∃ pre, Nat.toDigitsCore 10 fuel n ds = pre ++ ds ∧ pre ≠ [] ∧
      (∀ c ∈ pre, c.isDigit = true) ∧ digitsValue pre = n := by
  induction fuel with
  | zero => intro n ds h; omega
  | succ fuel ih =>
    intro n ds h
    have hd := digitChar_spec (n % 10) (Nat.mod_lt _ (by decide))
    unfold Nat.toDigitsCore
    by_cases h0 : n / 10 = 0
    · simp only [h0, if_true]
      refine ⟨[Nat.digitChar (n % 10)], rfl, by simp, ?_, ?_⟩
      · intro c hc
        rw [List.mem_singleton.1 hc]
        exact hd.1
      · show 10 * 0 + ((Nat.digitChar (n % 10)).toNat - 48) = n
        rw [hd.2]
        omega
    · simp only [h0, if_false]
      obtain ⟨pre, hpre, _, hdig, hval⟩ := ih (n / 10) (Nat.digitChar (n % 10) :: ds) (by omega)
      refine ⟨pre ++ [Nat.digitChar (n % 10)], ?_, by simp, ?_, ?_⟩
      · rw [hpre]
        simp
      · intro c hc
        rcases List.mem_append.1 hc with hc | hc
        · exact hdig c hc
        · rw [List.mem_singleton.1 hc]
          exact hd.1
      · rw [digitsValue_append, hval]
        show n / 10 * 10 ^ 1 + (10 * 0 + ((Nat.digitChar (n % 10)).toNat - 48)) = n
        rw [hd.2]
        omega

theorem toDigits_spec (n : Nat) :
    Nat.toDigits 10 n ≠ [] ∧ (∀ c ∈ Nat.toDigits 10 n, c.isDigit = true) ∧
      digitsValue (Nat.toDigits 10 n) = n := by
  obtain ⟨pre, hpre, hne, hdig, hval⟩ := toDigitsCore_spec (n + 1) n [] (by omega)
  unfold Nat.toDigits
  rw [hpre, List.append_nil]
  exact ⟨hne, hdig, hval⟩

/-- The digit string of `fixedDigits` is an integer part, a point and exactly
`fractionDigits` fraction digits, and denotes `n / 10 ^ fractionDigits`. -/
theorem fixedDigits_spec (n f : Nat) :
    ∃ a b, fixedDigits n f = a ++ '.' :: b ∧ a ≠ [] ∧ b.length = f ∧
      (∀ c ∈ a ++ b, c.isDigit = true) ∧ digitsValue a * 10 ^ f + digitsValue b = n := by
  have hm : ∃ m : List Char, (if n = 0 then ['0'] else Nat.toDigits 10 n) = m ∧ m ≠ [] ∧
      (∀ c ∈ m, c.isDigit = true) ∧ digitsValue m = n := by
    by_cases h0 : n = 0
    · subst h0
      exact ⟨['0'], rfl, by simp, by decide, rfl⟩
    · rw [if_neg h0]
      exact ⟨_, rfl, toDigits_spec n⟩
  obtain ⟨m, hmeq, hne, hdig, hval⟩ := hm
  have hm' : ∃ m' : List Char,
      (if m.length ≤ f then List.replicate (f + 1 - m.length) '0' ++ m else m) = m' ∧
      f + 1 ≤ m'.length ∧ (∀ c ∈ m', c.isDigit = true) ∧ digitsValue m' = n := by
    by_cases hle : m.length ≤ f
    · rw [if_pos hle]
      refine ⟨_, rfl, ?_, ?_, ?_⟩
      · rw [List.length_append, List.length_replicate]
        omega
      · intro c hc
        rcases List.mem_append.1 hc with hc | hc
        · rw [List.eq_of_mem_replicate hc]
          decide
        · exact hdig c hc
      · rw [digitsValue_append, digitsValue_zeros, hval]
        omega
    · rw [if_neg hle]
      exact ⟨m, rfl, by omega, hdig, hval⟩
  obtain ⟨m', hm'eq, hlen, hdig', hval'⟩ := hm'
  refine ⟨m'.take (m'.length - f), m'.drop (m'.length - f), ?_, ?_, ?_, ?_, ?_⟩
  · unfold fixedDigits
    simp only [hmeq, hm'eq]
  · intro h
    have := congrArg List.length h
    rw [List.length_take] at this
    simp only [List.length_nil] at this
    omega
  · rw [List.length_drop]
    omega
  · rw [List.take_append_drop]
    exact hdig'
  · have hb : (m'.drop (m'.length - f)).length = f := by
      rw [List.length_drop]
      omega
    have := digitsValue_append (m'.take (m'.length - f)) (m'.drop (m'.length - f))
    rw [List.take_append_drop, hb, hval'] at this
    exact this.symm

/-- The value `toFixed` gives for a non-negative number below 10^21 whose
scaled value rounds to `n`. -/
theorem toFixed_of_round (ts : ℚ → String) (x : ℚ) (f n : Nat) (hx : 0 ≤ x)
    (hlt : x < 10 ^ 21) (hf : f ≠ 0) (h1 : (n : ℚ) ≤ x * 10 ^ f + 1 / 2)
    (h2 : x * 10 ^ f + 1 / 2 < n + 1) :
    toFixed ts x f = String.mk (fixedDigits n f) := by
  have hnn : ¬ x < 0 := not_lt.2 hx
  have hbig : ¬ (10 : ℚ) ^ 21 ≤ x := not_le.2 hlt
  have hfloor : ⌊x * 10 ^ f + 1 / 2⌋ = (n : ℤ) := by
    rw [Int.floor_eq_iff]
    exact ⟨by exact_mod_cast h1, by exact_mod_cast h2⟩
  unfold toFixed
  simp only [hnn, if_false, hbig, hf, ne_eq, not_false_eq_true, if_true, hfloor,
    Int.toNat_ofNat]
  rfl

theorem toFixed_spec (ts : ℚ → String) (x : ℚ) (f : Nat) (hx : 0 ≤ x) (hlt : x < 10 ^ 21)
    (hf : f ≠ 0) :
    ∃ a b, toFixed ts x f = String.mk (a ++ '.' :: b) ∧ a ≠ [] ∧ b.length = f ∧
      (∀ c ∈ a ++ b, c.isDigit = true) ∧
      ((digitsValue a * 10 ^ f + digitsValue b : ℕ) : ℤ) = ⌊x * 10 ^ f + 1 / 2⌋ ∧
      |((digitsValue a : ℚ) + (digitsValue b : ℚ) / 10 ^ f) - x| ≤ 1 / (2 * 10 ^ f) := by
  have hy : (0 : ℚ) ≤ x * 10 ^ f + 1 / 2 := by positivity
  have hfl : 0 ≤ ⌊x * 10 ^ f + 1 / 2⌋ := Int.floor_nonneg.2 hy
  obtain ⟨n, hn⟩ := Int.eq_ofNat_of_zero_le hfl
  have h1 : (n : ℚ) ≤ x * 10 ^ f + 1 / 2 := by
    have := Int.floor_le (x * 10 ^ f + 1 / 2)
    rw [hn] at this
    exact_mod_cast this
  have h2 : x * 10 ^ f + 1 / 2 < n + 1 := by
    have := Int.lt_floor_add_one (x * 10 ^ f + 1 / 2)
    rw [hn] at this
    exact_mod_cast this
  obtain ⟨a, b, heq, hne, hlen, hdig, hval⟩ := fixedDigits_spec n f
  refine ⟨a, b, ?_, hne, hlen, hdig, ?_, ?_⟩
  · rw [toFixed_of_round ts x f n hx hlt hf h1 h2, heq]
  · rw [hval, hn]
  · have hp : (0 : ℚ) < 10 ^ f := by positivity
    have hvq : (digitsValue a : ℚ) * 10 ^ f + (digitsValue b : ℚ) = (n : ℚ) := by
      exact_mod_cast hval
    have hsum : (digitsValue a : ℚ) + (digitsValue b : ℚ) / 10 ^ f = (n : ℚ) / 10 ^ f := by
      rw [← hvq]
      field_simp
    rw [hsum, abs_le]
    constructor
    · rw [neg_le_sub_iff_le_add, div_add_div _ _ hp.ne.symm (by positivity),
        le_div_iff₀ (by positivity)]
      nlinarith
    · rw [sub_le_iff_le_add, div_le_iff₀ hp]
      have : (1 / (2 * (10 : ℚ) ^ f) + x) * 10 ^ f = 1 / 2 + x * 10 ^ f := by
        field_simp
        ring
      rw [this]
      linarith

theorem dollar_append (l : List Char) : "$" ++ String.mk l = String.mk ('$' :: l) := rfl

/-- No multiple of 2^-59, the spacing of the doubles around 0.01, lies between
1/100 and the value of the literal `0.01`. -/
theorem costThreshold_gap :
    (1 : ℚ) / 100 < costThreshold ∧
    ∀ m : ℕ, ¬ ((1 : ℚ) / 100 < (m : ℚ) / 2 ^ 59 ∧ (m : ℚ) / 2 ^ 59 < costThreshold) := by
  refine ⟨by norm_num [costThreshold], ?_⟩
  rintro m ⟨h1, h2⟩
  unfold costThreshold at h2
  rw [div_lt_div_iff_of_pos_right (by positivity)] at h2
  rw [lt_div_iff₀ (by positivity)] at h1
  have h1' : (2 : ℚ) ^ 59 < 100 * m := by linarith
  have h1n : 2 ^ 59 < 100 * m := by exact_mod_cast h1'
  have h2n : m < 5764607523034235 := by exact_mod_cast h2
  norm_num at h1n
  omega

/-- For a cost of 10^21 or more the result is `$` followed by the built-in
conversion of the number to a string. -/
theorem formatCost_huge (ts : ℚ → String) (c : ℚ) (h : (10 : ℚ) ^ 21 ≤ c) :
    formatCost ts c = "$" ++ ts c := by
  have h1 : ¬ (c < costThreshold) := by
    have : costThreshold < (10 : ℚ) ^ 21 := by norm_num [costThreshold]
    exact not_lt.2 (le_trans this.le h)
  have h2 : ¬ (c < 0) := by
    have : (0 : ℚ) < (10 : ℚ) ^ 21 := by norm_num
    exact not_lt.2 (le_trans this.le h)
  unfold formatCost toFixed
  simp only [h1, h2, if_false, h, if_true]
  rfl

/-- C32, as stated, fails: for the cost 10^21 `toFixed` returns the built-in
conversion of the number to a string, which is `1e+21` for this number, and
not a fixed-point rendering with two decimal places. -/
theorem formatCost_huge_not_fixed_point :
    formatCost (fun _ => "1e+21") ((10 : ℚ) ^ 21) = "$1e+21" :=
  formatCost_huge (fun _ => "1e+21") ((10 : ℚ) ^ 21) (le_refl _)

/-- C32, amended. For every cost `c ≥ 0`: when `c < 10^21`, `formatCost c` is
`$`, an integer part of at least one digit, a point and exactly 4 fraction
digits when `c` is below the literal `0.01` and exactly 2 otherwise, and the
number written is `c` rounded to that many decimal places, a tie going up;
when `c ≥ 10^21`, `formatCost c` is `$` followed by the built-in conversion of
`c` to a string.  The literal `0.01` itself gives `$0.01`, 0 gives `$0.0000`
and 1.5 gives `$1.50`. -/
theorem formatCost_fixed_point (ts : ℚ → String) (c : ℚ) (h0 : 0 ≤ c) :
    (c < 10 ^ 21 →
      ∃ a b, formatCost ts c = String.mk ('$' :: (a ++ '.' :: b)) ∧ a ≠ [] ∧
        b.length = (if c < costThreshold then 4 else 2) ∧
        (∀ ch ∈ a ++ b, ch.isDigit = true) ∧
        ((digitsValue a * 10 ^ b.length + digitsValue b : ℕ) : ℤ)
          = ⌊c * 10 ^ b.length + 1 / 2⌋ ∧
        |((digitsValue a : ℚ) + (digitsValue b : ℚ) / 10 ^ b.length) - c|
          ≤ 1 / (2 * 10 ^ b.length)) ∧
    ((10 : ℚ) ^ 21 ≤ c → formatCost ts c = "$" ++ ts c) ∧
    formatCost ts costThreshold = "$0.01" ∧
    formatCost ts 0 = "$0.0000" ∧
    formatCost ts (3 / 2) = "$1.50" := by
  refine ⟨fun hlt => ?_, fun hbig => formatCost_huge ts c hbig, ?_, ?_, ?_⟩
  · by_cases hc : c < costThreshold
    · obtain ⟨a, b, heq, hne, hlen, hdig, hfl, hval⟩ :=
        toFixed_spec ts c 4 h0 hlt (by decide)
      refine ⟨a, b, ?_, hne, ?_, hdig, ?_, ?_⟩
      · unfold formatCost
        rw [if_pos hc, heq, dollar_append]
      · rw [if_pos hc, hlen]
      · rw [hlen]
        exact hfl
      · rw [hlen]
        exact hval
    · obtain ⟨a, b, heq, hne, hlen, hdig, hfl, hval⟩ :=
        toFixed_spec ts c 2 h0 hlt (by decide)
      refine ⟨a, b, ?_, hne, ?_, hdig, ?_, ?_⟩
      · unfold formatCost
        rw [if_neg hc, heq, dollar_append]
      · rw [if_neg hc, hlen]
      · rw [hlen]
        exact hfl
      · rw [hlen]
        exact hval
  · unfold formatCost
    rw [if_neg (lt_irrefl _), toFixed_of_round ts costThreshold 2 1
      (by norm_num [costThreshold]) (by norm_num [costThreshold]) (by decide)
      (by norm_num [costThreshold]) (by norm_num [costThreshold])]
    decide
  · unfold formatCost
    rw [if_pos (by norm_num [costThreshold]), toFixed_of_round ts 0 4 0
      (by norm_num) (by norm_num) (by decide) (by norm_num) (by norm_num)]
    decide
  · unfold formatCost
    rw [if_neg (by norm_num [costThreshold]), toFixed_of_round ts (3 / 2) 2 150
      (by norm_num) (by norm_num) (by decide) (by norm_num) (by norm_num)]
    decide

/-- Witness for C32 amended: the cost 10.25, and the cost 2 * 10^21 with the
built-in conversion giving `2e+21`. -/
theorem formatCost_fixed_point_witness :
    ((0 : ℚ) ≤ 41 / 4 ∧ (41 / 4 : ℚ) < 10 ^ 21 ∧
      ∃ a b, formatCost (fun _ => "") (41 / 4) = String.mk ('$' :: (a ++ '.' :: b)) ∧ a ≠ [] ∧
        b.length = (if (41 / 4 : ℚ) < costThreshold then 4 else 2) ∧
        (∀ ch ∈ a ++ b, ch.isDigit = true) ∧
        ((digitsValue a * 10 ^ b.length + digitsValue b : ℕ) : ℤ)
          = ⌊(41 / 4 : ℚ) * 10 ^ b.length + 1 / 2⌋ ∧
        |((digitsValue a : ℚ) + (digitsValue b : ℚ) / 10 ^ b.length) - 41 / 4|
          ≤ 1 / (2 * 10 ^ b.length)) ∧
    ((0 : ℚ) ≤ 2 * 10 ^ 21 ∧ (10 : ℚ) ^ 21 ≤ 2 * 10 ^ 21 ∧
      formatCost (fun _ => "2e+21") (2 * 10 ^ 21) = "$" ++ "2e+21") :=
  ⟨⟨by norm_num, by norm_num,
    (formatCost_fixed_point (fun _ => "") (41 / 4) (by norm_num)).1 (by norm_num)⟩,
   ⟨by norm_num, by norm_num,
    (formatCost_fixed_point (fun _ => "2e+21") (2 * 10 ^ 21) (by norm_num)).2.1
      (by norm_num)⟩⟩

end GhAw
